import Mathlib

/-! SmartApe-Go: windowed price history and two-leg cycle engine

A shallow embedding of `pkg/market/buffer.go` and `pkg/strategy/bot.go`.

Modelling conventions.

* `time.Time` is an integer count of nanoseconds on one clock.
* `time.Duration` is an `int64` count of nanoseconds: unary minus
  wraps modulo `2^64` (`Duration.neg`) and `Time.Sub` saturates at the least and
  greatest `int64`, as the Go library documents.
* `float64` is modelled bit for bit (`F64`): every operation on prices is the
  IEEE 754 operation, rounded to nearest, ties to even.
* The mutex of `PriceBuffer` is dropped: calls are sequential.
* The `Exchange` collaborator is a `Venue` value holding what its three methods
  answer during one call of the engine; the orders the engine submits and the
  economics it logs are returned in a `TickResult`.
-/

set_option exponentiation.threshold 4000

namespace SmartApe

/-! ## `time` -/

/-! Instants (`time.Time`) and durations (`time.Duration`) are both of type `Int`,
in nanoseconds. The functions on them live in the namespaces `Time` and
`Duration`. -/

def minDuration : Int := -(2 ^ 63)

def maxDuration : Int := 2 ^ 63 - 1

def Second : Int := 1000000000

def Minute : Int := 60 * Second

def Hour : Int := 60 * Minute

/-- The value is a representable `int64`. -/
def isInt64 (d : Int) : Prop := minDuration ≤ d ∧ d ≤ maxDuration

instance (d : Int) : Decidable (isInt64 d) := by
  unfold isInt64; exact inferInstance

/-- Two's complement reduction of an integer to `int64`. -/
def wrap64 (x : Int) : Int := (x + 2 ^ 63) % 2 ^ 64 - 2 ^ 63

/-- Unary minus on a `Duration` (`-d`), which wraps at the least `int64`. -/
def Duration.neg (d : Int) : Int := wrap64 (-d)

/-- Go `t.Add(d)`. -/
def Time.Add (t : Int) (d : Int) : Int := t + d

/-- Go `t.Sub(u)`: the difference, saturated to the `int64` range. -/
def Time.Sub (t u : Int) : Int :=
  if t - u < minDuration then minDuration
  else if t - u > maxDuration then maxDuration
  else t - u

/-- Go `t.After(u)`. -/
def Time.After (t u : Int) : Bool := decide (u < t)

/-! ## `float64`

A `float64` is modelled bit for bit. The four arithmetic operations return the
exact rational result rounded to the nearest `float64`, ties to even, with the
IEEE 754 rules for signed zeros, infinities and NaN; comparisons involving a NaN
are false. One quiet NaN stands for every NaN result. With the instances below,
`x + y`, `x - y`, `x * y`, `x / y`, `-x`, `x < y` and `x <= y` on `F64` are the
Go operations, a numeral `n` is the `float64` of the integer `n`, and a quotient
of two small integer numerals such as `95 / 100` is the `float64` nearest to the
decimal `0.95`, the value of the Go constant `0.95`. The price expressions of the
engine, `(a - b) / a`, `a + b`, `1.0 - t` and `(p / t) * 100`, hold no product
followed by a sum, so no fused multiply-add can replace two roundings by one.
`F64.sample_values` lists some results by their bits. -/

/-- A `float64`, by the three fields of its IEEE 754 binary64 encoding: the
sign bit, the 11-bit biased exponent and the 52-bit fraction. Every value of
this type is a `float64` and conversely. -/
structure F64 where
  sign : Bool
  expo : Fin 2048
  frac : Fin 4503599627370496
deriving DecidableEq

namespace F64

/-- The value with the given 64-bit pattern (`math.Float64frombits`). -/
def ofBits (n : Nat) : F64 :=
  { sign := decide (n / 2 ^ 63 % 2 = 1)
    expo := ⟨n / 2 ^ 52 % 2048, Nat.mod_lt _ (by decide)⟩
    frac := ⟨n % 4503599627370496, Nat.mod_lt _ (by decide)⟩ }

/-- The 64-bit pattern of the value (`math.Float64bits`). -/
def toBits (x : F64) : Nat :=
  (if x.sign then 2 ^ 63 else 0) + x.expo.val * 2 ^ 52 + x.frac.val

def isNaN (x : F64) : Bool := x.expo.val == 2047 && x.frac.val != 0

def isInf (x : F64) : Bool := x.expo.val == 2047 && x.frac.val == 0

def isZero (x : F64) : Bool := x.expo.val == 0 && x.frac.val == 0

/-- Signed zero. -/
def zero (s : Bool) : F64 := { sign := s, expo := 0, frac := 0 }

/-- Signed infinity. -/
def inf (s : Bool) : F64 := { sign := s, expo := 2047, frac := 0 }

/-- The quiet NaN that stands for every NaN result: payloads are not tracked. -/
def nan : F64 := { sign := false, expo := 2047, frac := 2251799813685248 }

/-- The rational `2^k`. -/
def pow2 (k : Int) : ℚ :=
  if 0 ≤ k then ((2 ^ k.toNat : Nat) : ℚ) else 1 / ((2 ^ (-k).toNat : Nat) : ℚ)

/-- The absolute value of a finite value: `frac * 2^-1074` for a subnormal,
`(2^52 + frac) * 2^(expo - 1075)` otherwise. On an infinity the same formula
gives `2^1024`, above every finite value. -/
def magnitude (x : F64) : ℚ :=
  if x.expo.val = 0 then (x.frac.val : ℚ) * pow2 (-1074)
  else ((4503599627370496 + x.frac.val : Nat) : ℚ) * pow2 ((x.expo.val : Int) - 1075)

/-- The exact value of a finite value; `2^1024` and `-2^1024` on the
infinities, which makes it the key of the order on non-NaN values. -/
def toRat (x : F64) : ℚ := if x.sign then -x.magnitude else x.magnitude

/-- Whether `2^k <= n/d`, for a positive `d`. -/
def pow2le (k : Int) (n d : Nat) : Bool :=
  if 0 ≤ k then decide (2 ^ k.toNat * d ≤ n) else decide (d ≤ 2 ^ (-k).toNat * n)

/-- Bisection for the exponent of `n/d`: given `2^lo <= n/d < 2^hi`, the integer
`k` in `[lo, hi)` with `2^k <= n/d < 2^(k+1)`, found in `fuel` halvings. -/
def findExp (n d : Nat) : Nat → Int → Int → Int
  | 0, lo, _ => lo
  | fuel + 1, lo, hi =>
    if hi ≤ lo + 1 then lo
    else if pow2le ((lo + hi) / 2) n d then findExp n d fuel ((lo + hi) / 2) hi
    else findExp n d fuel lo ((lo + hi) / 2)

/-- The integer nearest to `n/d`, a tie going to the even one. -/
def roundHalfEven (n d : Nat) : Nat :=
  if 2 * (n % d) < d then n / d
  else if d < 2 * (n % d) then n / d + 1
  else if n / d % 2 = 0 then n / d
  else n / d + 1

/-- The exponent of the binade of `n/d`: the `k` with `2^k <= n/d < 2^(k+1)`,
for `2^-1022 <= n/d < 2^1024`, and `-1022` below `2^-1022` (subnormal range). -/
def binade (n d : Nat) : Int :=
  if pow2le (-1022) n d then findExp n d 11 (-1022) 1024 else -1022

/-- The rational `n/d` counted in units of `2^e` and rounded to an integer, ties
to even. -/
def significand (n d : Nat) (e : Int) : Nat :=
  if 0 ≤ e then roundHalfEven n (d * 2 ^ e.toNat)
  else roundHalfEven (n * 2 ^ (-e).toNat) d

/-- The `float64` of sign `s` and absolute value `m * 2^e`, for `m <= 2^53` and
`e >= -1074` (with `m >= 2^52` when `e > -1074`). A significand of `2^53` is
`2^52` units of `2^(e+1)`; an exponent above `971` gives infinity; a significand
below `2^52` is a subnormal (or zero) and has exponent field `0`. -/
def encode (s : Bool) (m : Nat) (e : Int) : F64 :=
  if 971 < (if m = 2 ^ 53 then e + 1 else e) then inf s
  else if (if m = 2 ^ 53 then 2 ^ 52 else m) < 2 ^ 52 then
    { sign := s
      expo := 0
      frac := ⟨(if m = 2 ^ 53 then 2 ^ 52 else m) % 4503599627370496,
        Nat.mod_lt _ (by decide)⟩ }
  else
    { sign := s
      expo := ⟨((if m = 2 ^ 53 then e + 1 else e) + 1075).toNat % 2048,
        Nat.mod_lt _ (by decide)⟩
      frac := ⟨((if m = 2 ^ 53 then 2 ^ 52 else m) - 2 ^ 52) % 4503599627370496,
        Nat.mod_lt _ (by decide)⟩ }

/-- The `float64` of sign `s` nearest in absolute value to the positive
rational `n/d`, ties to even (IEEE 754 roundTiesToEven). From `2^1024` on the
result is infinity. Otherwise the significand is `n/d` counted in units of
`2^e` and rounded to an integer, where `e = k - 52` for the binade exponent `k`
of `n/d`, so that `e = -1074` in the subnormal range. -/
def roundPos (s : Bool) (n d : Nat) : F64 :=
  if pow2le 1024 n d then inf s
  else encode s (significand n d (binade n d - 52)) (binade n d - 52)

/-- The `float64` nearest to the rational `q`, ties to even; an exact zero gets
the sign `zs`. -/
def round (q : ℚ) (zs : Bool) : F64 :=
  if q = 0 then zero zs else roundPos (decide (q < 0)) q.num.natAbs q.den

/-- Go `x + y`. -/
def add (x y : F64) : F64 :=
  if x.isNaN || y.isNaN then nan
  else if x.isInf then (if y.isInf && (x.sign != y.sign) then nan else x)
  else if y.isInf then y
  else round (x.toRat + y.toRat) (x.sign && y.sign)

/-- Go `-x`. -/
def neg (x : F64) : F64 := { x with sign := !x.sign }

/-- Go `x - y`. -/
def sub (x y : F64) : F64 := add x (neg y)

/-- Go `x * y`. -/
def mul (x y : F64) : F64 :=
  if x.isNaN || y.isNaN then nan
  else if x.isInf || y.isInf then
    (if x.isZero || y.isZero then nan else inf (x.sign != y.sign))
  else round (x.toRat * y.toRat) (x.sign != y.sign)

/-- Go `x / y`. -/
def div (x y : F64) : F64 :=
  if x.isNaN || y.isNaN then nan
  else if x.isInf then (if y.isInf then nan else inf (x.sign != y.sign))
  else if y.isInf then zero (x.sign != y.sign)
  else if y.isZero then (if x.isZero then nan else inf (x.sign != y.sign))
  else round (x.toRat / y.toRat) (x.sign != y.sign)

/-- Go `x < y`. -/
def lt (x y : F64) : Bool := !x.isNaN && !y.isNaN && decide (x.toRat < y.toRat)

/-- Go `x <= y`. -/
def le (x y : F64) : Bool := !x.isNaN && !y.isNaN && decide (x.toRat ≤ y.toRat)

/-- Go `x > y`. -/
def gt (x y : F64) : Bool := lt y x

/-- Go `x >= y`. -/
def ge (x y : F64) : Bool := le y x

/-- The value of a decimal constant `q`: the `float64` nearest to it. -/
def ofRat (q : ℚ) : F64 := round q false

/-- The value of an integer constant `n`. -/
def ofNat (n : Nat) : F64 := if n = 0 then zero false else roundPos false n 1

end F64

instance (n : Nat) : OfNat F64 n := ⟨F64.ofNat n⟩

instance : Neg F64 := ⟨F64.neg⟩

instance : Add F64 := ⟨F64.add⟩

instance : Sub F64 := ⟨F64.sub⟩

instance : Mul F64 := ⟨F64.mul⟩

instance : Div F64 := ⟨F64.div⟩

instance : LT F64 := ⟨fun x y => F64.lt x y = true⟩

instance : LE F64 := ⟨fun x y => F64.le x y = true⟩

instance (x y : F64) : Decidable (x < y) :=
  inferInstanceAs (Decidable (F64.lt x y = true))

instance (x y : F64) : Decidable (x ≤ y) :=
  inferInstanceAs (Decidable (F64.le x y = true))

/-! ## `pkg/market/buffer.go` -/

/-- A price at a specific time. -/
structure PricePoint where
  Price : F64
  Timestamp : Int
deriving DecidableEq

/-- History of prices for dump detection. -/
structure PriceBuffer where
  history : List PricePoint
  window : Int
deriving DecidableEq

def NewPriceBuffer (window : Int) : PriceBuffer :=
  { history := [], window := window }

/-- The pruning loop of `Add`: the index of the first point after `cutoff`,
counting from `i`; `0` (the initial `validIdx`) when the loop finds none. -/
def findValidIdx (cutoff : Int) : List PricePoint → Nat → Nat
  | [], _ => 0
  | p :: ps, i => if Time.After p.Timestamp cutoff then i else findValidIdx cutoff ps (i + 1)

/-- Appends a new price point and removes old ones. -/
def PriceBuffer.Add (pb : PriceBuffer) (price : F64) (ts : Int) : PriceBuffer :=
  let history := pb.history ++ [{ Price := price, Timestamp := ts }]
  let cutoff := Time.Add ts (Duration.neg pb.window)
  let validIdx := findValidIdx cutoff history 0
  if validIdx > 0 then
    { pb with history := history.drop validIdx }
  else
    { pb with history := history }

/-- One iteration of the scan of `GetPriceAgo` over the pair
`(bestPrice, minDiff)`. -/
def scanStep (targetTime : Int) (acc : F64 × Int) (p : PricePoint) : F64 × Int :=
  let diff := Time.Sub p.Timestamp targetTime
  let diff := if diff < 0 then Duration.neg diff else diff
  if diff < acc.2 then (p.Price, diff) else acc

/-- The price `duration` ago (or the closest approximation); `-1` if the
history is insufficient. -/
def PriceBuffer.GetPriceAgo (pb : PriceBuffer) (duration : Int) (now : Int) : F64 :=
  if pb.history.length = 0 then -1
  else
    let targetTime := Time.Add now (Duration.neg duration)
    let best := pb.history.foldl (scanStep targetTime) (-1, Hour)
    if best.2 > 1 * Second then -1 else best.1

/-! ## `pkg/exchange/interface.go` -/

/-- The outcome side, a string in the program. -/
abbrev Side := String

def SideUp : Side := "UP"

def SideDown : Side := "DOWN"

/-- A trade order, as returned by the venue. -/
structure Order where
  ID : String
  MarketID : String
  Side : SmartApe.Side
  Price : F64
  Size : F64
  Timestamp : Int
deriving DecidableEq

/-- The current best prices. -/
structure Ticker where
  MarketID : String
  PriceUp : F64
  PriceDown : F64
  Timestamp : Int
deriving DecidableEq

/-- What the three methods of the `Exchange` interface answer during one call of
the engine; `none` stands for a returned error. -/
structure Venue where
  CurrentTime : Int
  GetTicker : String → Option Ticker
  PlaceOrder : String → Side → F64 → F64 → Option Order

/-! ## `pkg/config/config.go` -/

structure Config where
  Shares : F64
  SumTarget : F64
  MovePct : F64
  WindowMin : Int
  FeeRate : F64
  MarketID : String
  PollInterval : Int
deriving DecidableEq

def DefaultConfig : Config :=
  { Shares := 20
    SumTarget := 95 / 100
    MovePct := 15 / 100
    WindowMin := 2 * Minute
    FeeRate := 0
    MarketID := ""
    PollInterval := 1 * Second }

/-! ## `pkg/strategy/bot.go` -/

/-- The current state of the bot in the cycle. -/
inductive State where
  | StateWatching
  | StateLeg1Bought
  | StateDone
deriving DecidableEq

open State

structure Bot where
  cfg : Config
  state : State
  bufferUp : PriceBuffer
  bufferDown : PriceBuffer
  leg1Side : Side
  leg1EntryPrice : F64
  roundStartTime : Int
deriving DecidableEq

/-- The arguments of one call of `PlaceOrder`. -/
structure OrderRequest where
  marketID : String
  side : Side
  size : F64
  price : F64
deriving DecidableEq

/-- The figures logged by `executeLeg2` when the cycle completes. -/
structure Economics where
  totalCost : F64
  profit : F64
  roi : F64
deriving DecidableEq

/-- The bot after a call, the orders submitted to the venue during it (in
order), and the economics logged, if any. -/
structure TickResult where
  bot : Bot
  orders : List OrderRequest
  report : Option Economics
deriving DecidableEq

def NewBot (cfg : Config) (exc : Venue) : Bot :=
  { cfg := cfg
    state := StateWatching
    bufferUp := NewPriceBuffer (5 * Second)
    bufferDown := NewPriceBuffer (5 * Second)
    leg1Side := ""
    leg1EntryPrice := 0
    roundStartTime := exc.CurrentTime }

/-- Resets the bot for a new round. -/
def Bot.ResetCycle (b : Bot) (exc : Venue) : Bot :=
  { b with
    state := StateWatching
    leg1Side := ""
    leg1EntryPrice := 0
    roundStartTime := exc.CurrentTime }

/-- Submits the Leg-1 order; on an error nothing is assigned, otherwise the side,
the fill price of the returned order and the state Leg1Bought are stored. -/
def Bot.executeLeg1 (b : Bot) (exc : Venue) (side : Side) (price : F64) : TickResult :=
  let req : OrderRequest :=
    { marketID := b.cfg.MarketID, side := side, size := b.cfg.Shares, price := price }
  match exc.PlaceOrder b.cfg.MarketID side b.cfg.Shares price with
  | none => { bot := b, orders := [req], report := none }
  | some order =>
    { bot := { b with leg1Side := side, leg1EntryPrice := order.Price, state := StateLeg1Bought }
      orders := [req]
      report := none }

/-- The Leg-1 evaluation. Each nested pair `if price3sAgo > 0 { if drop >=
MovePct { executeLeg1; return } }` of the source is one conjunction here;
falling through the UP pair leads to the DOWN pair. -/
def Bot.checkLeg1 (b : Bot) (exc : Venue) (ticker : Ticker) (now : Int) : TickResult :=
  let elapsed := Time.Sub now b.roundStartTime
  if elapsed > b.cfg.WindowMin then
    { bot := b, orders := [], report := none }
  else
    let priceUp3sAgo := b.bufferUp.GetPriceAgo (3 * Second) now
    if priceUp3sAgo > 0 ∧ (priceUp3sAgo - ticker.PriceUp) / priceUp3sAgo ≥ b.cfg.MovePct then
      b.executeLeg1 exc SideUp ticker.PriceUp
    else
      let priceDown3sAgo := b.bufferDown.GetPriceAgo (3 * Second) now
      if priceDown3sAgo > 0 ∧
          (priceDown3sAgo - ticker.PriceDown) / priceDown3sAgo ≥ b.cfg.MovePct then
        b.executeLeg1 exc SideDown ticker.PriceDown
      else
        { bot := b, orders := [], report := none }

/-- Submits the Leg-2 order; on success logs the economics of the cycle and moves
to Done. -/
def Bot.executeLeg2 (b : Bot) (exc : Venue) (side : Side) (price : F64) : TickResult :=
  let req : OrderRequest :=
    { marketID := b.cfg.MarketID, side := side, size := b.cfg.Shares, price := price }
  match exc.PlaceOrder b.cfg.MarketID side b.cfg.Shares price with
  | none => { bot := b, orders := [req], report := none }
  | some order =>
    let totalCost := b.leg1EntryPrice + order.Price
    let profit := 1 - totalCost
    let roi := (profit / totalCost) * 100
    { bot := { b with state := StateDone }
      orders := [req]
      report := some { totalCost := totalCost, profit := profit, roi := roi } }

/-- The Leg-2 evaluation: the pair `opposite` is `(oppositePrice, oppositeSide)`
of the source. -/
def Bot.checkLeg2 (b : Bot) (exc : Venue) (ticker : Ticker) : TickResult :=
  let opposite : F64 × Side :=
    if b.leg1Side = SideUp then (ticker.PriceDown, SideDown) else (ticker.PriceUp, SideUp)
  let currentSum := b.leg1EntryPrice + opposite.1
  if currentSum ≤ b.cfg.SumTarget then
    b.executeLeg2 exc opposite.2 opposite.1
  else
    { bot := b, orders := [], report := none }

/-- Executes one tick of logic. -/
def Bot.RunTick (b : Bot) (exc : Venue) : TickResult :=
  let now := exc.CurrentTime
  match exc.GetTicker b.cfg.MarketID with
  | none => { bot := b, orders := [], report := none }
  | some ticker =>
    let b1 : Bot :=
      { b with
        bufferUp := b.bufferUp.Add ticker.PriceUp now
        bufferDown := b.bufferDown.Add ticker.PriceDown now }
    match b1.state with
    | StateWatching => b1.checkLeg1 exc ticker now
    | StateLeg1Bought => b1.checkLeg2 exc ticker
    | StateDone => { bot := b1, orders := [], report := none }

/-- A run of ticks, one venue answer per tick: the final bot and every order
submitted along the way. -/
def runTicks (b : Bot) : List Venue → Bot × List OrderRequest
  | [] => (b, [])
  | exc :: rest =>
    let r := b.RunTick exc
    let s := runTicks r.bot rest
    (s.1, r.orders ++ s.2)

/-- A run of `Add` calls, given as `(price, timestamp)` pairs. -/
def addAll (pb : PriceBuffer) : List (F64 × Int) → PriceBuffer
  | [] => pb
  | c :: rest => addAll (pb.Add c.1 c.2) rest

/-- The simulated venue of `pkg/exchange/mock.go` at time `t` with prices `up`
and `down`: orders of positive size fill at the requested price. -/
def mockVenue (t : Int) (up down : F64) : Venue :=
  { CurrentTime := t
    GetTicker := fun _ =>
      some { MarketID := "mock-market", PriceUp := up, PriceDown := down, Timestamp := t }
    PlaceOrder := fun marketID side size price =>
      if size ≤ 0 then none
      else some
        { ID := "mock-order-id", MarketID := marketID, Side := side, Price := price,
          Size := size, Timestamp := t } }

/-! ## Vocabulary of the statements and test fixtures -/

/-- The point is not after the cutoff: the test under which the loop of `Add`
keeps going. -/
def notAfter (cutoff : Int) (p : PricePoint) : Bool := !Time.After p.Timestamp cutoff

/-- Timestamps are non-decreasing along the list. -/
def timeSorted (l : List PricePoint) : Prop :=
  l.Pairwise (fun a b => a.Timestamp ≤ b.Timestamp)

/-- The absolute distance between two instants. -/
def timeDist (t u : Int) : Int := if t < u then u - t else t - u

/-- The bot after `RunTick` has appended the ticker prices to both histories,
before the state-dependent check. -/
def Bot.ingest (b : Bot) (ticker : Ticker) (now : Int) : Bot :=
  { b with
    bufferUp := b.bufferUp.Add ticker.PriceUp now
    bufferDown := b.bufferDown.Add ticker.PriceDown now }

/-- The bot of `TestBotLogic` after its first two ticks: `MovePct = 0.10`,
`SumTarget = 0.96`, both prices at 0.50 at `t = 0` and at `t = 3 s`. -/
def testBotPrimed : Bot :=
  (runTicks (NewBot { DefaultConfig with MovePct := 10 / 100, SumTarget := 96 / 100 }
      (mockVenue 0 (50 / 100) (50 / 100)))
    [mockVenue 0 (50 / 100) (50 / 100), mockVenue (3 * Second) (50 / 100) (50 / 100)]).1

/-- The default bot started at `t = 0` (entry window of 2 minutes) after one tick
at `t = 118 s` with both prices at 0.50. -/
def lateBot : Bot :=
  (runTicks (NewBot DefaultConfig (mockVenue 0 (50 / 100) (50 / 100)))
    [mockVenue (118 * Second) (50 / 100) (50 / 100)]).1

/-- The side that `checkLeg2` buys: DOWN when leg 1 is UP, UP otherwise. -/
def oppositeSide (leg1Side : Side) : Side :=
  if leg1Side = SideUp then SideDown else SideUp

/-- The ticker price of the side that `checkLeg2` buys. -/
def oppositePrice (leg1Side : Side) (ticker : Ticker) : F64 :=
  if leg1Side = SideUp then ticker.PriceDown else ticker.PriceUp

/-- A bot that holds leg 1: state Leg1Bought with the given side and entry
price, started at `t = 0`. -/
def leg1BoughtBot (cfg : Config) (side : Side) (entry : F64) : Bot :=
  { NewBot cfg (mockVenue 0 (50 / 100) (50 / 100)) with
    state := StateLeg1Bought
    leg1Side := side
    leg1EntryPrice := entry }

/-- The bot of `TestBotLogic` once leg 1 is held: Leg1Bought(UP, 0.40) with
`SumTarget = 0.96`. -/
def testBotLeg1 : Bot :=
  leg1BoughtBot { DefaultConfig with MovePct := 10 / 100, SumTarget := 96 / 100 } SideUp (40 / 100)

/-- A venue at time `t` with prices `up` and `down` that fills every order at
the price `fill`, whatever price was requested. -/
def fillVenue (t : Int) (up down fill : F64) : Venue :=
  { CurrentTime := t
    GetTicker := fun _ =>
      some { MarketID := "m", PriceUp := up, PriceDown := down, Timestamp := t }
    PlaceOrder := fun marketID side size _ =>
      some { ID := "id", MarketID := marketID, Side := side, Price := fill, Size := size,
             Timestamp := t } }

/-- A venue at time `t` with prices `up` and `down` whose `PlaceOrder` always
returns an error. -/
def rejectVenue (t : Int) (up down : F64) : Venue :=
  { CurrentTime := t
    GetTicker := fun _ =>
      some { MarketID := "m", PriceUp := up, PriceDown := down, Timestamp := t }
    PlaceOrder := fun _ _ _ _ => none }

/-- A venue at time `t` whose `GetTicker` returns an error. -/
def tickerErrorVenue (t : Int) : Venue :=
  { CurrentTime := t
    GetTicker := fun _ => none
    PlaceOrder := fun _ _ _ _ => none }

/-- During the tick the engine submitted an order and `PlaceOrder` answered it
with an error. -/
def orderFailed (b : Bot) (exc : Venue) : Prop :=
  ∃ r ∈ (b.RunTick exc).orders, exc.PlaceOrder r.marketID r.side r.size r.price = none

/-- During the tick the venue reported an error, from `GetTicker` or from
`PlaceOrder`. -/
def tickFailed (b : Bot) (exc : Venue) : Prop :=
  exc.GetTicker b.cfg.MarketID = none ∨ orderFailed b exc

/-- The bot of `TestBotLogic` at the end of the test: the hedge of `testBotLeg1`
filled at `t + 4 s`, state Done. -/
def testBotDone : Bot :=
  (testBotLeg1.RunTick (mockVenue (4 * Second) (40 / 100) (55 / 100))).bot

/-- One call on the bot by its driver, with the venue answers during it. -/
inductive Call where
  | tick (exc : Venue)
  | reset (exc : Venue)

/-- The bot after one call of `RunTick` or `ResetCycle`. -/
def Bot.call (b : Bot) : Call → Bot
  | Call.tick exc => (b.RunTick exc).bot
  | Call.reset exc => b.ResetCycle exc

/-- The bot after a run of calls, in order. -/
def runCalls (b : Bot) : List Call → Bot
  | [] => b
  | c :: rest => runCalls (b.call c) rest

/-- The state and the leg-1 fields agree: Watching with an empty side and a zero
entry price, or Leg1Bought or Done with side UP or DOWN. -/
def legFieldsConsistent (b : Bot) : Prop :=
  (b.state = StateWatching ∧ b.leg1Side = "" ∧ b.leg1EntryPrice = 0) ∨
  ((b.state = StateLeg1Bought ∨ b.state = StateDone) ∧
    (b.leg1Side = SideUp ∨ b.leg1Side = SideDown))

/-! ## Arithmetic of durations -/

theorem wrap64_of_isInt64 (x : Int) (h : isInt64 x) : wrap64 x = x := by
  unfold isInt64 minDuration maxDuration at h
  unfold wrap64
  omega

theorem Duration.neg_of_pos (d : Int) (h0 : 0 < d) (h1 : d ≤ maxDuration) :
    Duration.neg d = -d := by
  unfold maxDuration at h1
  unfold Duration.neg wrap64
  omega

theorem Time.Sub_mono_left (t t2 u : Int) (h : t ≤ t2) : Time.Sub t u ≤ Time.Sub t2 u := by
  unfold Time.Sub minDuration maxDuration
  split_ifs <;> omega

/-! ## Facts on `float64` -/

namespace F64

set_option maxRecDepth 4000 in
/-- Sample values of the `float64` operations, by their bits: `0.1 + 0.2` is
0.30000000000000004, `1 / 3` is 0.3333333333333333, `0.40 + 0.55` is
0.9500000000000001, `(0.50 - 0.45) / 0.50` is 0.09999999999999998, `1 / 0` is
`+Inf`, `0 / 0` is NaN, and no comparison with NaN holds. -/
theorem sample_values :
    (1 / 10 : F64) + 2 / 10 = ofBits 0x3FD3333333333334 ∧
    (1 / 3 : F64) = ofBits 0x3FD5555555555555 ∧
    (40 / 100 : F64) + 55 / 100 = ofBits 0x3FEE666666666667 ∧
    ((50 / 100 : F64) - 45 / 100) / (50 / 100) = ofBits 0x3FB9999999999998 ∧
    (10 / 100 : F64) = ofBits 0x3FB999999999999A ∧
    (1 / 0 : F64) = inf false ∧ (0 / 0 : F64) = nan ∧
    ¬ ((0 / 0 : F64) ≤ 0 / 0) ∧ ¬ ((0 / 0 : F64) < 1) ∧ (-1 : F64) < 0 :=
  ⟨by with_unfolding_all rfl, by with_unfolding_all rfl, by with_unfolding_all rfl,
    by with_unfolding_all rfl, by with_unfolding_all rfl, by with_unfolding_all rfl,
    by with_unfolding_all rfl, by with_unfolding_all decide, by with_unfolding_all decide,
    by with_unfolding_all decide⟩

theorem lt_iff (x y : F64) :
    x < y ↔ x.isNaN = false ∧ y.isNaN = false ∧ x.toRat < y.toRat := by
  show F64.lt x y = true ↔ _
  unfold F64.lt
  simp only [Bool.and_eq_true, Bool.not_eq_true', decide_eq_true_eq, and_assoc]

theorem le_iff (x y : F64) :
    x ≤ y ↔ x.isNaN = false ∧ y.isNaN = false ∧ x.toRat ≤ y.toRat := by
  show F64.le x y = true ↔ _
  unfold F64.le
  simp only [Bool.and_eq_true, Bool.not_eq_true', decide_eq_true_eq, and_assoc]

/-- `x < y` excludes `y <= x`. -/
theorem not_le_of_lt (x y : F64) (h : x < y) : ¬ (y ≤ x) := by
  rw [lt_iff] at h
  rw [le_iff]
  rintro ⟨_, _, h2⟩
  exact absurd h2 (not_le.mpr h.2.2)

/-- `x <= y` excludes `y < x`. -/
theorem not_lt_of_le (x y : F64) (h : x ≤ y) : ¬ (y < x) := by
  rw [le_iff] at h
  rw [lt_iff]
  rintro ⟨_, _, h2⟩
  exact absurd h2 (not_lt.mpr h.2.2)

theorem lt_of_le_of_lt_f64 (x y z : F64) (h1 : x ≤ y) (h2 : y < z) : x < z := by
  rw [le_iff] at h1
  rw [lt_iff] at h2 ⊢
  exact ⟨h1.1, h2.2.1, h1.2.2.trans_lt h2.2.2⟩

theorem zero_not_lt_neg_one : ¬ ((0 : F64) < -1) := by
  with_unfolding_all decide

theorem pow2_pos (k : Int) : 0 < pow2 k := by
  unfold pow2
  split_ifs <;> positivity

theorem magnitude_pos (x : F64) (h : x.isZero = false) : 0 < x.magnitude := by
  unfold magnitude
  split_ifs with he
  · have hf : x.frac.val ≠ 0 := by
      intro hf
      simp [isZero, he, hf] at h
    have hq : (0 : ℚ) < (x.frac.val : ℚ) := by
      exact_mod_cast Nat.pos_of_ne_zero hf
    exact mul_pos hq (pow2_pos _)
  · exact mul_pos (by positivity) (pow2_pos _)

theorem toRat_zero : (0 : F64).toRat = 0 := by
  with_unfolding_all decide

theorem isNaN_zero : (0 : F64).isNaN = false := by
  with_unfolding_all decide

/-- A value with a clear sign bit that is neither NaN nor a zero is above `0`. -/
theorem pos_of_sign (r : F64) (hs : r.sign = false) (hn : r.isNaN = false)
    (hz : r.isZero = false) : (0 : F64) < r := by
  rw [lt_iff]
  refine ⟨isNaN_zero, hn, ?_⟩
  rw [toRat_zero]
  unfold toRat
  rw [hs]
  simpa using magnitude_pos r hz

theorem roundHalfEven_pos (n d : Nat) (hd : 0 < d) (h : d ≤ n) : 1 ≤ roundHalfEven n d := by
  have hq : 0 < n / d := Nat.div_pos h hd
  unfold roundHalfEven
  split_ifs <;> omega

theorem findExp_pow2le (n d fuel : Nat) (lo hi : Int) (h : pow2le lo n d = true) :
    pow2le (findExp n d fuel lo hi) n d = true := by
  induction fuel generalizing lo hi with
  | zero => exact h
  | succ fuel ih =>
    unfold findExp
    split_ifs with h1 h2
    · exact h
    · exact ih _ _ h2
    · exact ih _ _ h

theorem findExp_ge (n d fuel : Nat) (lo hi : Int) : lo ≤ findExp n d fuel lo hi := by
  induction fuel generalizing lo hi with
  | zero => exact le_refl _
  | succ fuel ih =>
    unfold findExp
    split_ifs with h1 h2
    · exact le_refl _
    · have := ih ((lo + hi) / 2) hi
      omega
    · exact ih _ _

theorem binade_ge (n d : Nat) : -1022 ≤ binade n d := by
  unfold binade
  split_ifs
  · exact findExp_ge _ _ _ _ _
  · exact le_refl _

theorem pow2_eq_zpow (k : Int) : pow2 k = (2 : ℚ) ^ k := by
  unfold pow2
  split_ifs with h
  · obtain ⟨m, rfl⟩ := Int.eq_ofNat_of_zero_le h
    simp
  · obtain ⟨m, rfl⟩ := Int.exists_eq_neg_ofNat (le_of_lt (not_le.mp h))
    simp [zpow_neg]

theorem pow2_add (a b : Int) : pow2 (a + b) = pow2 a * pow2 b := by
  rw [pow2_eq_zpow, pow2_eq_zpow, pow2_eq_zpow, zpow_add₀ (by norm_num)]

theorem pow2_mono (a b : Int) (h : a ≤ b) : pow2 a ≤ pow2 b := by
  rw [pow2_eq_zpow, pow2_eq_zpow]
  exact zpow_le_zpow_right₀ (by norm_num) h

theorem pow2_natCast (k : Nat) : pow2 (k : Int) = (2 : ℚ) ^ k := by
  rw [pow2_eq_zpow, zpow_natCast]

theorem pow2le_iff (k : Int) (n d : Nat) (hd : 0 < d) :
    pow2le k n d = true ↔ pow2 k ≤ (n : ℚ) / d := by
  have hd2 : (0 : ℚ) < d := by exact_mod_cast hd
  unfold pow2le pow2
  split_ifs with h
  · rw [decide_eq_true_eq, le_div_iff₀ hd2]
    exact_mod_cast Iff.rfl
  · have hp : (0 : ℚ) < ((2 ^ (-k).toNat : Nat) : ℚ) := by positivity
    rw [decide_eq_true_eq, div_le_div_iff₀ hp hd2, one_mul]
    rw [mul_comm]
    exact_mod_cast Iff.rfl

theorem pow2le_false_iff (k : Int) (n d : Nat) (hd : 0 < d) :
    pow2le k n d = false ↔ (n : ℚ) / d < pow2 k := by
  rw [← not_le, ← pow2le_iff k n d hd]
  simp

theorem findExp_spec (n d fuel : Nat) (lo hi : Int) (h1 : pow2le lo n d = true)
    (h2 : pow2le hi n d = false) (hlt : lo < hi) (hf : hi - lo ≤ 2 ^ fuel) :
    pow2le (findExp n d fuel lo hi) n d = true ∧
      pow2le (findExp n d fuel lo hi + 1) n d = false ∧
      lo ≤ findExp n d fuel lo hi ∧ findExp n d fuel lo hi < hi := by
  induction fuel generalizing lo hi with
  | zero =>
    have : hi = lo + 1 := by
      simp at hf
      omega
    subst this
    exact ⟨h1, h2, le_refl _, by show lo < lo + 1; omega⟩
  | succ fuel ih =>
    have hp : (2 : Int) ^ (fuel + 1) = 2 * 2 ^ fuel := by ring
    rw [hp] at hf
    unfold findExp
    split_ifs with h3 h4
    · have : hi = lo + 1 := by omega
      subst this
      exact ⟨h1, h2, le_refl _, by omega⟩
    · obtain ⟨a, b, c, e⟩ := ih ((lo + hi) / 2) hi h4 h2 (by omega) (by omega)
      exact ⟨a, b, by omega, e⟩
    · have h5 : pow2le ((lo + hi) / 2) n d = false := by simpa using h4
      obtain ⟨a, b, c, e⟩ := ih lo ((lo + hi) / 2) h1 h5 (by omega) (by omega)
      exact ⟨a, b, c, by omega⟩

theorem binade_spec (n d : Nat) (hd : 0 < d) (hlt : pow2le 1024 n d = false) :
    pow2le (binade n d + 1) n d = false ∧
      (binade n d ≠ -1022 → pow2le (binade n d) n d = true) ∧
      -1022 ≤ binade n d ∧ binade n d ≤ 1023 := by
  unfold binade
  split_ifs with h
  · obtain ⟨a, b, c, e⟩ := findExp_spec n d 11 (-1022) 1024 h hlt (by decide) (by decide)
    exact ⟨b, fun _ => a, c, by omega⟩
  · refine ⟨?_, fun hne => absurd rfl hne, le_refl _, by decide⟩
    have h5 : pow2le (-1022) n d = false := by simpa using h
    rw [pow2le_false_iff _ _ _ hd] at h5 ⊢
    exact lt_of_lt_of_le h5 (pow2_mono _ _ (by decide))

/-- Rounding a quotient to the nearest integer, ties to even: the result is within one half
of the quotient, and at distance exactly one half only when it is even. -/
theorem roundHalfEven_spec (n d : Nat) (hd : 0 < d) :
    (n : ℚ) / d - 1 / 2 ≤ roundHalfEven n d ∧ (roundHalfEven n d : ℚ) ≤ (n : ℚ) / d + 1 / 2 ∧
      (((roundHalfEven n d : ℚ) = (n : ℚ) / d + 1 / 2 ∨
          (roundHalfEven n d : ℚ) = (n : ℚ) / d - 1 / 2) → roundHalfEven n d % 2 = 0) := by
  have hd2 : (0 : ℚ) < d := by exact_mod_cast hd
  have hm : n % d < d := Nat.mod_lt _ hd
  have hn : (n : ℚ) = d * (n / d : Nat) + (n % d : Nat) := by
    exact_mod_cast (Nat.div_add_mod n d).symm
  have hq : (n : ℚ) / d = (n / d : Nat) + ((n % d : Nat) : ℚ) / d := by
    rw [hn]
    field_simp
    ring
  have hm2 : ((n % d : Nat) : ℚ) / d < 1 := by
    rw [div_lt_one hd2]
    exact_mod_cast hm
  have hm0 : 0 ≤ ((n % d : Nat) : ℚ) / d := by positivity
  rw [hq]
  unfold roundHalfEven
  split_ifs with h1 h2 h3
  · have h4 : ((n % d : Nat) : ℚ) / d < 1 / 2 := by
      rw [div_lt_div_iff₀ hd2 (by norm_num)]
      have : ((2 * (n % d) : Nat) : ℚ) < d := by exact_mod_cast h1
      push_cast at this
      linarith
    refine ⟨by linarith, by linarith, ?_⟩
    rintro (h | h) <;> linarith
  · have h4 : 1 / 2 < ((n % d : Nat) : ℚ) / d := by
      rw [div_lt_div_iff₀ (by norm_num) hd2]
      have : (d : ℚ) < ((2 * (n % d) : Nat) : ℚ) := by exact_mod_cast h2
      push_cast at this
      linarith
    push_cast
    refine ⟨by linarith, by linarith, ?_⟩
    rintro (h | h) <;> linarith
  · have h4 : ((n % d : Nat) : ℚ) / d = 1 / 2 := by
      rw [div_eq_div_iff (ne_of_gt hd2) (by norm_num)]
      have : ((2 * (n % d) : Nat) : ℚ) = d := by exact_mod_cast (by omega : 2 * (n % d) = d)
      push_cast at this
      linarith
    exact ⟨by linarith, by linarith, fun _ => h3⟩
  · have h4 : ((n % d : Nat) : ℚ) / d = 1 / 2 := by
      rw [div_eq_div_iff (ne_of_gt hd2) (by norm_num)]
      have : ((2 * (n % d) : Nat) : ℚ) = d := by exact_mod_cast (by omega : 2 * (n % d) = d)
      push_cast at this
      linarith
    push_cast
    refine ⟨by linarith, by linarith, fun _ => by omega⟩

/-- Two roundings to nearest, ties to even, keep the order of what they round. -/
theorem nearest_mono (q1 q2 : ℚ) (r1 r2 : Nat) (h : q1 ≤ q2)
    (b1 : (r1 : ℚ) ≤ q1 + 1 / 2)
    (c1 : ((r1 : ℚ) = q1 + 1 / 2 ∨ (r1 : ℚ) = q1 - 1 / 2) → r1 % 2 = 0)
    (a2 : q2 - 1 / 2 ≤ r2)
    (c2 : ((r2 : ℚ) = q2 + 1 / 2 ∨ (r2 : ℚ) = q2 - 1 / 2) → r2 % 2 = 0) : r1 ≤ r2 := by
  by_contra hc
  have h3 : r2 + 1 ≤ r1 := by omega
  have h4 : (r2 : ℚ) + 1 ≤ r1 := by exact_mod_cast h3
  have e1 : (r1 : ℚ) = q1 + 1 / 2 := by linarith
  have e2 : (r2 : ℚ) = q2 - 1 / 2 := by linarith
  have f1 := c1 (Or.inl e1)
  have f2 := c2 (Or.inr e2)
  have h5 : (r1 : ℚ) = r2 + 1 := by linarith
  have h6 : r1 = r2 + 1 := by exact_mod_cast h5
  omega

theorem significand_spec (n d : Nat) (e : Int) (hd : 0 < d) :
    (n : ℚ) / d / pow2 e - 1 / 2 ≤ significand n d e ∧
      (significand n d e : ℚ) ≤ (n : ℚ) / d / pow2 e + 1 / 2 ∧
      (((significand n d e : ℚ) = (n : ℚ) / d / pow2 e + 1 / 2 ∨
          (significand n d e : ℚ) = (n : ℚ) / d / pow2 e - 1 / 2) →
        significand n d e % 2 = 0) := by
  have hd2 : (0 : ℚ) < d := by exact_mod_cast hd
  unfold significand
  split_ifs with h
  · have hp : 0 < d * 2 ^ e.toNat := by positivity
    have hq : (n : ℚ) / d / pow2 e = (n : ℚ) / ((d * 2 ^ e.toNat : Nat) : ℚ) := by
      unfold pow2
      rw [if_pos h]
      push_cast
      rw [div_div]
    rw [hq]
    exact roundHalfEven_spec n _ hp
  · have hq : (n : ℚ) / d / pow2 e = ((n * 2 ^ (-e).toNat : Nat) : ℚ) / d := by
      unfold pow2
      rw [if_neg h]
      push_cast
      field_simp
    rw [hq]
    exact roundHalfEven_spec _ d hd

theorem toRat_normal (E f : Nat) (hE : 1 ≤ E) (hE2 : E < 2048) (hf : f < 4503599627370496)
    (h1 : E % 2048 < 2048) (h2 : f % 4503599627370496 < 4503599627370496) :
    toRat { sign := false, expo := ⟨E % 2048, h1⟩, frac := ⟨f % 4503599627370496, h2⟩ } =
      ((4503599627370496 + f : Nat) : ℚ) * pow2 ((E : Int) - 1075) := by
  unfold toRat magnitude
  simp only [Bool.false_eq_true, if_false, Nat.mod_eq_of_lt hE2, Nat.mod_eq_of_lt hf]
  rw [if_neg (by omega)]

theorem toRat_subnormal (f : Nat) (hf : f < 4503599627370496)
    (h2 : f % 4503599627370496 < 4503599627370496) :
    toRat { sign := false, expo := 0, frac := ⟨f % 4503599627370496, h2⟩ } =
      (f : ℚ) * pow2 (-1074) := by
  unfold toRat magnitude
  simp only [Bool.false_eq_true, if_false, Nat.mod_eq_of_lt hf]
  rw [if_pos (by rfl)]

theorem pow2_52 : pow2 52 = 4503599627370496 := by
  rw [pow2_eq_zpow]
  norm_num

theorem pow2_53 : pow2 53 = 9007199254740992 := by
  rw [pow2_eq_zpow]
  norm_num

theorem toRat_inf_false : toRat (inf false) = pow2 1024 := by
  have h : toRat (inf false) = ((4503599627370496 + 0 : Nat) : ℚ) * pow2 ((2047 : Nat) - 1075) :=
    toRat_normal 2047 0 (by decide) (by decide) (by decide) (by decide) (by decide)
  rw [h, show (1024 : Int) = 52 + ((2047 : Nat) - 1075) by norm_num, pow2_add, pow2_52]
  norm_num

/-- The value of an encoded significand and exponent. -/
theorem toRat_encode (m : Nat) (e : Int) (hm : m ≤ 2 ^ 53) (he1 : -1074 ≤ e) (he2 : e ≤ 971)
    (hsub : m < 2 ^ 52 → e = -1074) : toRat (encode false m e) = (m : ℚ) * pow2 e := by
  unfold encode
  by_cases h53 : m = 2 ^ 53
  · subst h53
    simp only [if_true]
    by_cases h971 : e = 971
    · subst h971
      rw [if_pos (by decide)]
      rw [toRat_inf_false, show (1024 : Int) = 53 + 971 by norm_num, pow2_add, pow2_53]
      norm_num
    · rw [if_neg (by omega), if_neg (by decide)]
      rw [toRat_normal _ _ (by omega) (by omega) (by decide)]
      have h : (((e + 1 + 1075).toNat : Nat) : Int) - 1075 = e + 1 := by omega
      rw [h, pow2_add]
      have h2 : pow2 1 = 2 := by with_unfolding_all decide
      rw [h2]
      norm_num
      ring
  · simp only [if_neg h53]
    rw [if_neg (by omega)]
    by_cases h52 : m < 2 ^ 52
    · rw [if_pos h52, hsub h52]
      exact toRat_subnormal m (by omega) _
    · rw [if_neg h52]
      rw [toRat_normal _ _ (by omega) (by omega) (by omega)]
      have h : (((e + 1075).toNat : Nat) : Int) - 1075 = e := by omega
      rw [h]
      have h3 : 4503599627370496 + (m - 2 ^ 52) = m := by omega
      rw [h3]

theorem isNaN_encode (s : Bool) (m : Nat) (e : Int) : (encode s m e).isNaN = false := by
  unfold encode
  by_cases h : 971 < (if m = 2 ^ 53 then e + 1 else e)
  · rw [if_pos h]
    rfl
  · rw [if_neg h]
    by_cases h2 : (if m = 2 ^ 53 then 2 ^ 52 else m) < 2 ^ 52
    · rw [if_pos h2]
      rfl
    · rw [if_neg h2]
      have h3 : ((if m = 2 ^ 53 then e + 1 else e) + 1075).toNat % 2048 ≠ 2047 := by omega
      unfold isNaN
      show (_ == 2047 && _) = false
      rw [beq_false_of_ne h3, Bool.false_and]

theorem isNaN_roundPos (s : Bool) (n d : Nat) : (roundPos s n d).isNaN = false := by
  unfold roundPos
  split_ifs
  · rfl
  · exact isNaN_encode _ _ _

theorem isNaN_round (q : ℚ) (zs : Bool) : (round q zs).isNaN = false := by
  unfold round
  split_ifs
  · rfl
  · exact isNaN_roundPos _ _ _

theorem sign_encode (s : Bool) (m : Nat) (e : Int) : (encode s m e).sign = s := by
  unfold encode
  by_cases h : 971 < (if m = 2 ^ 53 then e + 1 else e)
  · rw [if_pos h]
    rfl
  · rw [if_neg h]
    by_cases h2 : (if m = 2 ^ 53 then 2 ^ 52 else m) < 2 ^ 52
    · rw [if_pos h2]
    · rw [if_neg h2]

theorem magnitude_encode (s : Bool) (m : Nat) (e : Int) :
    (encode s m e).magnitude = (encode false m e).magnitude := by
  unfold encode
  by_cases h : 971 < (if m = 2 ^ 53 then e + 1 else e)
  · rw [if_pos h, if_pos h]
    rfl
  · rw [if_neg h, if_neg h]
    by_cases h2 : (if m = 2 ^ 53 then 2 ^ 52 else m) < 2 ^ 52
    · rw [if_pos h2, if_pos h2]
      rfl
    · rw [if_neg h2, if_neg h2]
      rfl

set_option maxRecDepth 4000 in
theorem toRat_roundPos_true (n d : Nat) :
    toRat (roundPos true n d) = -toRat (roundPos false n d) := by
  unfold roundPos
  split_ifs
  · unfold toRat
    rfl
  · unfold toRat
    rw [sign_encode, sign_encode, magnitude_encode]
    simp

theorem toRat_roundPos_nonneg (n d : Nat) : 0 ≤ toRat (roundPos false n d) := by
  have hs : (roundPos false n d).sign = false := by
    unfold roundPos
    split_ifs
    · rfl
    · exact sign_encode _ _ _
  unfold toRat
  rw [hs]
  simp only [Bool.false_eq_true, if_false]
  unfold magnitude
  split_ifs
  · exact mul_nonneg (by positivity) (le_of_lt (pow2_pos _))
  · exact mul_nonneg (by positivity) (le_of_lt (pow2_pos _))

theorem significand_bounds (n d : Nat) (hd : 0 < d) (hlt : pow2le 1024 n d = false) :
    significand n d (binade n d - 52) ≤ 2 ^ 53 ∧
      (binade n d ≠ -1022 → 2 ^ 52 ≤ significand n d (binade n d - 52)) := by
  obtain ⟨hb1, hb2, _, _⟩ := binade_spec n d hd hlt
  obtain ⟨hs1, hs2, _⟩ := significand_spec n d (binade n d - 52) hd
  have hp := pow2_pos (binade n d - 52)
  rw [pow2le_false_iff _ _ _ hd] at hb1
  constructor
  · have h1 : pow2 (binade n d + 1) = pow2 (binade n d - 52) * 9007199254740992 := by
      rw [show binade n d + 1 = (binade n d - 52) + 53 by ring, pow2_add, pow2_53]
    have h2 : (n : ℚ) / d / pow2 (binade n d - 52) < 9007199254740992 := by
      rw [div_lt_iff₀ hp, mul_comm, ← h1]
      exact hb1
    by_contra hc
    have h3 : 9007199254740993 ≤ significand n d (binade n d - 52) := by omega
    have h4 : (9007199254740993 : ℚ) ≤ significand n d (binade n d - 52) := by
      exact_mod_cast h3
    linarith
  · intro hne
    have hb := hb2 hne
    rw [pow2le_iff _ _ _ hd] at hb
    have h1 : pow2 (binade n d) = pow2 (binade n d - 52) * 4503599627370496 := by
      rw [show binade n d = (binade n d - 52) + 52 by ring, pow2_add, pow2_52]
      rw [show binade n d - 52 + 52 - 52 = binade n d - 52 by ring]
    have h2 : (4503599627370496 : ℚ) ≤ (n : ℚ) / d / pow2 (binade n d - 52) := by
      rw [le_div_iff₀ hp, mul_comm, ← h1]
      exact hb
    by_contra hc
    have h3 : significand n d (binade n d - 52) + 1 ≤ 4503599627370496 := by omega
    have h4 : (significand n d (binade n d - 52) : ℚ) + 1 ≤ 4503599627370496 := by
      exact_mod_cast h3
    linarith

/-- The value of a rounded quotient below `2 ^ 1024`. -/
theorem toRat_roundPos (n d : Nat) (hd : 0 < d) (hlt : pow2le 1024 n d = false) :
    toRat (roundPos false n d) =
      (significand n d (binade n d - 52) : ℚ) * pow2 (binade n d - 52) := by
  obtain ⟨_, _, hb3, hb4⟩ := binade_spec n d hd hlt
  obtain ⟨hm1, hm2⟩ := significand_bounds n d hd hlt
  unfold roundPos
  rw [hlt]
  simp only [Bool.false_eq_true, if_false]
  refine toRat_encode _ _ hm1 (by omega) (by omega) ?_
  intro h
  by_contra hne
  have := hm2 (by omega)
  omega

theorem toRat_roundPos_big (n d : Nat) (hbig : pow2le 1024 n d = true) :
    toRat (roundPos false n d) = pow2 1024 := by
  unfold roundPos
  rw [hbig, if_pos rfl]
  exact toRat_inf_false

theorem toRat_roundPos_le (n d : Nat) (hd : 0 < d) :
    toRat (roundPos false n d) ≤ pow2 1024 := by
  cases hbig : pow2le 1024 n d with
  | true => exact le_of_eq (toRat_roundPos_big n d hbig)
  | false =>
    obtain ⟨_, _, hb3, hb4⟩ := binade_spec n d hd hbig
    obtain ⟨hm1, _⟩ := significand_bounds n d hd hbig
    rw [toRat_roundPos n d hd hbig]
    have h1 : pow2 (binade n d - 52) ≤ pow2 971 := pow2_mono _ _ (by omega)
    have h2 : (significand n d (binade n d - 52) : ℚ) ≤ 9007199254740992 := by
      have h3 : significand n d (binade n d - 52) ≤ 9007199254740992 := by omega
      exact_mod_cast h3
    rw [show (1024 : Int) = 53 + 971 by norm_num, pow2_add, pow2_53]
    exact mul_le_mul h2 h1 (le_of_lt (pow2_pos _)) (by norm_num)

/-- Rounding keeps the order of non-negative quotients. -/
theorem roundPos_mono (n1 d1 n2 d2 : Nat) (hd1 : 0 < d1) (hd2 : 0 < d2)
    (h : (n1 : ℚ) / d1 ≤ (n2 : ℚ) / d2) :
    toRat (roundPos false n1 d1) ≤ toRat (roundPos false n2 d2) := by
  cases hbig2 : pow2le 1024 n2 d2 with
  | true =>
    rw [toRat_roundPos_big n2 d2 hbig2]
    exact toRat_roundPos_le n1 d1 hd1
  | false =>
    have hq2 := (pow2le_false_iff _ _ _ hd2).mp hbig2
    have hbig1 : pow2le 1024 n1 d1 = false :=
      (pow2le_false_iff _ _ _ hd1).mpr (lt_of_le_of_lt h hq2)
    obtain ⟨ha1, ha2, ha3, ha4⟩ := binade_spec n1 d1 hd1 hbig1
    obtain ⟨hb1, hb2, hb3, hb4⟩ := binade_spec n2 d2 hd2 hbig2
    obtain ⟨hm1, hm2⟩ := significand_bounds n1 d1 hd1 hbig1
    obtain ⟨hk1, hk2⟩ := significand_bounds n2 d2 hd2 hbig2
    rw [toRat_roundPos n1 d1 hd1 hbig1, toRat_roundPos n2 d2 hd2 hbig2]
    have hle : binade n1 d1 ≤ binade n2 d2 := by
      by_contra hc
      have h3 := (pow2le_iff _ _ _ hd1).mp (ha2 (by omega))
      have h4 := (pow2le_false_iff _ _ _ hd2).mp hb1
      have h5 : pow2 (binade n2 d2 + 1) ≤ pow2 (binade n1 d1) := pow2_mono _ _ (by omega)
      linarith
    rcases eq_or_lt_of_le hle with heq | hlt
    · rw [← heq]
      have hp := pow2_pos (binade n1 d1 - 52)
      obtain ⟨_, s2, s3⟩ := significand_spec n1 d1 (binade n1 d1 - 52) hd1
      obtain ⟨t1, _, t3⟩ := significand_spec n2 d2 (binade n1 d1 - 52) hd2
      have hQ : (n1 : ℚ) / d1 / pow2 (binade n1 d1 - 52) ≤
          (n2 : ℚ) / d2 / pow2 (binade n1 d1 - 52) :=
        div_le_div_of_nonneg_right h (le_of_lt hp)
      have hmono := nearest_mono _ _ _ _ hQ s2 s3 t1 t3
      have hmono2 : (significand n1 d1 (binade n1 d1 - 52) : ℚ) ≤
          significand n2 d2 (binade n1 d1 - 52) := by exact_mod_cast hmono
      exact mul_le_mul_of_nonneg_right hmono2 (le_of_lt hp)
    · have h1 : (significand n1 d1 (binade n1 d1 - 52) : ℚ) ≤ 9007199254740992 := by
        have h3 : significand n1 d1 (binade n1 d1 - 52) ≤ 9007199254740992 := by omega
        exact_mod_cast h3
      have h2 : (4503599627370496 : ℚ) ≤ significand n2 d2 (binade n2 d2 - 52) := by
        have h3 := hk2 (by omega)
        have h4 : 4503599627370496 ≤ significand n2 d2 (binade n2 d2 - 52) := by omega
        exact_mod_cast h4
      have hp1 := pow2_pos (binade n1 d1 - 52)
      have hp2 := pow2_pos (binade n2 d2 - 52)
      have h3 : 9007199254740992 * pow2 (binade n1 d1 - 52) ≤
          4503599627370496 * pow2 (binade n2 d2 - 52) := by
        rw [← pow2_53, ← pow2_52, ← pow2_add, ← pow2_add]
        exact pow2_mono _ _ (by omega)
      calc (significand n1 d1 (binade n1 d1 - 52) : ℚ) * pow2 (binade n1 d1 - 52)
          ≤ 9007199254740992 * pow2 (binade n1 d1 - 52) :=
            mul_le_mul_of_nonneg_right h1 (le_of_lt hp1)
        _ ≤ 4503599627370496 * pow2 (binade n2 d2 - 52) := h3
        _ ≤ (significand n2 d2 (binade n2 d2 - 52) : ℚ) * pow2 (binade n2 d2 - 52) :=
            mul_le_mul_of_nonneg_right h2 (le_of_lt hp2)

theorem toRat_zero_sign (zs : Bool) : toRat (zero zs) = 0 := by
  cases zs
  · unfold toRat magnitude zero
    simp
  · unfold toRat magnitude zero
    simp

theorem natAbs_div_den_of_pos (q : ℚ) (h : 0 < q) : ((q.num.natAbs : Nat) : ℚ) / q.den = q := by
  have h1 : 0 < q.num := Rat.num_pos.mpr h
  have h2 : ((q.num.natAbs : Nat) : ℚ) = (q.num : ℚ) := by
    rw [Nat.cast_natAbs, abs_of_pos h1]
  rw [h2]
  exact Rat.num_div_den q

theorem natAbs_div_den_of_neg (q : ℚ) (h : q < 0) : ((q.num.natAbs : Nat) : ℚ) / q.den = -q := by
  have h1 : q.num < 0 := Rat.num_neg.mpr h
  have h2 : ((q.num.natAbs : Nat) : ℚ) = -(q.num : ℚ) := by
    rw [Nat.cast_natAbs, abs_of_neg h1]
    push_cast
    rfl
  rw [h2, neg_div]
  rw [Rat.num_div_den q]

theorem toRat_round_of_pos (q : ℚ) (zs : Bool) (h : 0 < q) :
    toRat (round q zs) = toRat (roundPos false q.num.natAbs q.den) := by
  unfold round
  rw [if_neg (ne_of_gt h)]
  have : decide (q < 0) = false := by simpa using le_of_lt h
  rw [this]

theorem toRat_round_of_neg (q : ℚ) (zs : Bool) (h : q < 0) :
    toRat (round q zs) = -toRat (roundPos false q.num.natAbs q.den) := by
  unfold round
  rw [if_neg (ne_of_lt h)]
  have : decide (q < 0) = true := by simpa using h
  rw [this]
  exact toRat_roundPos_true _ _

theorem toRat_round_nonneg (q : ℚ) (zs : Bool) (h : 0 ≤ q) : 0 ≤ toRat (round q zs) := by
  rcases eq_or_lt_of_le h with h0 | hpos
  · rw [← h0]
    unfold round
    rw [if_pos rfl, toRat_zero_sign]
  · rw [toRat_round_of_pos q zs hpos]
    exact toRat_roundPos_nonneg _ _

theorem toRat_round_nonpos (q : ℚ) (zs : Bool) (h : q ≤ 0) : toRat (round q zs) ≤ 0 := by
  rcases eq_or_lt_of_le h with h0 | hneg
  · rw [h0]
    unfold round
    rw [if_pos rfl, toRat_zero_sign]
  · rw [toRat_round_of_neg q zs hneg]
    have := toRat_roundPos_nonneg q.num.natAbs q.den
    linarith

/-- Rounding to nearest, ties to even, keeps the order. -/
theorem round_mono (q1 q2 : ℚ) (z1 z2 : Bool) (h : q1 ≤ q2) :
    toRat (round q1 z1) ≤ toRat (round q2 z2) := by
  by_cases h1 : 0 < q1
  · have h2 : 0 < q2 := lt_of_lt_of_le h1 h
    rw [toRat_round_of_pos q1 z1 h1, toRat_round_of_pos q2 z2 h2]
    apply roundPos_mono _ _ _ _ q1.den_pos q2.den_pos
    rw [natAbs_div_den_of_pos q1 h1, natAbs_div_den_of_pos q2 h2]
    exact h
  · by_cases h2 : q2 < 0
    · have h3 : q1 < 0 := lt_of_le_of_lt h h2
      rw [toRat_round_of_neg q1 z1 h3, toRat_round_of_neg q2 z2 h2]
      apply neg_le_neg
      apply roundPos_mono _ _ _ _ q2.den_pos q1.den_pos
      rw [natAbs_div_den_of_neg q1 h3, natAbs_div_den_of_neg q2 h2]
      linarith
    · exact le_trans (toRat_round_nonpos q1 z1 (not_lt.mp h1))
        (toRat_round_nonneg q2 z2 (not_lt.mp h2))

theorem toRat_roundPos_pos (n d : Nat) (hd : 0 < d) (hq : pow2 (-1074) ≤ (n : ℚ) / d) :
    0 < toRat (roundPos false n d) := by
  cases hbig : pow2le 1024 n d with
  | true =>
    rw [toRat_roundPos_big n d hbig]
    exact pow2_pos _
  | false =>
    rw [toRat_roundPos n d hd hbig]
    apply mul_pos _ (pow2_pos _)
    obtain ⟨_, hm2⟩ := significand_bounds n d hd hbig
    by_cases hb : binade n d = -1022
    · obtain ⟨s1, _, _⟩ := significand_spec n d (binade n d - 52) hd
      have h1 : (1 : ℚ) ≤ (n : ℚ) / d / pow2 (binade n d - 52) := by
        rw [le_div_iff₀ (pow2_pos _), one_mul, hb]
        exact hq
      exact lt_of_lt_of_le (by linarith) s1
    · have h3 := hm2 hb
      have h4 : 0 < significand n d (binade n d - 52) := by omega
      exact_mod_cast h4

theorem toRat_round_pos (q : ℚ) (zs : Bool) (hq : pow2 (-1074) ≤ q) :
    0 < toRat (round q zs) := by
  have hpos : 0 < q := lt_of_lt_of_le (pow2_pos _) hq
  rw [toRat_round_of_pos q zs hpos]
  apply toRat_roundPos_pos _ _ q.den_pos
  rw [natAbs_div_den_of_pos q hpos]
  exact hq

theorem magnitude_nonneg (x : F64) : 0 ≤ x.magnitude := by
  unfold magnitude
  split_ifs
  · exact mul_nonneg (by positivity) (le_of_lt (pow2_pos _))
  · exact mul_nonneg (by positivity) (le_of_lt (pow2_pos _))

theorem expo_lt_of_finite (x : F64) (hn : x.isNaN = false) (hi : x.isInf = false) :
    x.expo.val < 2047 := by
  have h := x.expo.isLt
  by_contra hc
  have he : x.expo.val = 2047 := by omega
  unfold isNaN at hn
  unfold isInf at hi
  rw [he] at hn hi
  cases hf : (x.frac.val == 0) with
  | true =>
    rw [hf] at hi
    exact absurd hi (by decide)
  | false =>
    have : (x.frac.val != 0) = true := by
      show (!(x.frac.val == 0)) = true
      rw [hf]
      rfl
    rw [this] at hn
    exact absurd hn (by decide)

theorem magnitude_lt_of_expo (x : F64) (h : x.expo.val < 2047) : x.magnitude < pow2 1024 := by
  have hf : x.frac.val < 4503599627370496 := x.frac.isLt
  have hf2 : (x.frac.val : ℚ) < 4503599627370496 := by exact_mod_cast hf
  unfold magnitude
  split_ifs with he
  · have h1 : (x.frac.val : ℚ) * pow2 (-1074) < 4503599627370496 * pow2 (-1074) :=
      mul_lt_mul_of_pos_right hf2 (pow2_pos _)
    have h2 : (4503599627370496 : ℚ) * pow2 (-1074) ≤ pow2 1024 := by
      rw [← pow2_52, ← pow2_add]
      exact pow2_mono _ _ (by decide)
    linarith
  · have h1 : ((4503599627370496 + x.frac.val : Nat) : ℚ) < 9007199254740992 := by
      push_cast
      linarith
    have h2 : pow2 ((x.expo.val : Int) - 1075) ≤ pow2 971 := pow2_mono _ _ (by omega)
    have h3 : (9007199254740992 : ℚ) * pow2 971 = pow2 1024 := by
      rw [← pow2_53, ← pow2_add]
      rfl
    rw [← h3]
    exact mul_lt_mul h1 h2 (pow2_pos _) (by norm_num)

theorem toRat_bounds_finite (x : F64) (hn : x.isNaN = false) (hi : x.isInf = false) :
    -pow2 1024 < x.toRat ∧ x.toRat < pow2 1024 := by
  have h1 := magnitude_lt_of_expo x (expo_lt_of_finite x hn hi)
  have h2 := magnitude_nonneg x
  have hp := pow2_pos 1024
  unfold toRat
  split_ifs
  · constructor <;> linarith
  · constructor <;> linarith

theorem magnitude_of_isInf (x : F64) (h : x.isInf = true) : x.magnitude = pow2 1024 := by
  unfold isInf at h
  rw [Bool.and_eq_true, beq_iff_eq, beq_iff_eq] at h
  unfold magnitude
  rw [if_neg (by omega), h.1, h.2]
  rw [show (1024 : Int) = 52 + ((2047 : Nat) - 1075) by norm_num, pow2_add, pow2_52]
  norm_num

theorem toRat_of_isInf (x : F64) (h : x.isInf = true) :
    x.toRat = if x.sign then -pow2 1024 else pow2 1024 := by
  unfold toRat
  rw [magnitude_of_isInf x h]

theorem toRat_bounds (x : F64) (hn : x.isNaN = false) :
    -pow2 1024 ≤ x.toRat ∧ x.toRat ≤ pow2 1024 := by
  have hp := pow2_pos 1024
  cases hi : x.isInf with
  | true =>
    rw [toRat_of_isInf x hi]
    split_ifs
    · constructor <;> linarith
    · constructor <;> linarith
  | false =>
    have h := toRat_bounds_finite x hn hi
    exact ⟨le_of_lt h.1, le_of_lt h.2⟩

theorem isNaN_nan : nan.isNaN = true := by decide

theorem add_not_nan (a y : F64) (h : (add a y).isNaN = false) :
    a.isNaN = false ∧ y.isNaN = false := by
  cases ha : a.isNaN with
  | true =>
    unfold add at h
    rw [ha, Bool.true_or, if_pos rfl, isNaN_nan] at h
    exact absurd h (by decide)
  | false =>
    cases hy : y.isNaN with
    | true =>
      unfold add at h
      rw [hy, Bool.or_true, if_pos rfl, isNaN_nan] at h
      exact absurd h (by decide)
    | false => exact ⟨rfl, rfl⟩

theorem add_of_finite (a x : F64) (ha : a.isNaN = false) (hx : x.isNaN = false)
    (hai : a.isInf = false) (hxi : x.isInf = false) :
    add a x = round (a.toRat + x.toRat) (a.sign && x.sign) := by
  unfold add
  rw [ha, hx, hai, hxi]
  rfl

theorem add_of_isInf_right (a x : F64) (ha : a.isNaN = false) (hx : x.isNaN = false)
    (hai : a.isInf = false) (hxi : x.isInf = true) : add a x = x := by
  unfold add
  rw [ha, hx, hai, hxi]
  rfl

theorem add_of_isInf_left (a x : F64) (ha : a.isNaN = false) (hx : x.isNaN = false)
    (hai : a.isInf = true) :
    add a x = if (x.isInf && (a.sign != x.sign)) = true then nan else a := by
  unfold add
  rw [ha, hx, hai]
  rfl

/-- Addition keeps the order in its right argument, as long as the larger sum is neither
NaN nor `+Inf`. -/
theorem add_mono_right (a x y : F64) (hx : x.isNaN = false) (hxy : x.toRat ≤ y.toRat)
    (hy : (add a y).isNaN = false) (hlt : (add a y).toRat < pow2 1024) :
    (add a x).isNaN = false ∧ (add a x).toRat ≤ (add a y).toRat := by
  have hp := pow2_pos 1024
  obtain ⟨han, hyn⟩ := add_not_nan a y hy
  cases hai : a.isInf with
  | true =>
    have e1 := add_of_isInf_left a y han hyn hai
    have e2 := add_of_isInf_left a x han hx hai
    by_cases cy : (y.isInf && (a.sign != y.sign)) = true
    · rw [if_pos cy] at e1
      rw [e1, isNaN_nan] at hy
      exact absurd hy (by decide)
    · rw [if_neg cy] at e1
      rw [e1] at hlt ⊢
      have hsa : a.sign = true := by
        cases hs : a.sign with
        | true => rfl
        | false =>
          rw [toRat_of_isInf a hai, hs] at hlt
          simp only [Bool.false_eq_true, if_false] at hlt
          exact absurd hlt (lt_irrefl _)
      by_cases cx : (x.isInf && (a.sign != x.sign)) = true
      · exfalso
        rw [hsa, Bool.and_eq_true] at cx
        obtain ⟨cx1, cx2⟩ := cx
        have hsx : x.sign = false := by
          cases hs : x.sign with
          | false => rfl
          | true =>
            rw [hs] at cx2
            exact absurd cx2 (by decide)
        have hxv : x.toRat = pow2 1024 := by
          rw [toRat_of_isInf x cx1, hsx]
          rfl
        rw [hxv] at hxy
        cases hyi : y.isInf with
        | false =>
          have := (toRat_bounds_finite y hyn hyi).2
          linarith
        | true =>
          cases hsy : y.sign with
          | true =>
            rw [toRat_of_isInf y hyi, hsy] at hxy
            simp only [if_true] at hxy
            linarith
          | false =>
            apply cy
            rw [hyi, hsa, hsy]
            rfl
      · rw [if_neg cx] at e2
        rw [e2]
        exact ⟨han, le_refl _⟩
  | false =>
    cases hyi : y.isInf with
    | true =>
      have e1 := add_of_isInf_right a y han hyn hai hyi
      rw [e1] at hlt ⊢
      have hyv : y.toRat = -pow2 1024 := by
        cases hs : y.sign with
        | true =>
          rw [toRat_of_isInf y hyi, hs]
          rfl
        | false =>
          rw [toRat_of_isInf y hyi, hs] at hlt
          simp only [Bool.false_eq_true, if_false] at hlt
          exact absurd hlt (lt_irrefl _)
      cases hxi : x.isInf with
      | true =>
        rw [add_of_isInf_right a x han hx hai hxi]
        exact ⟨hx, hxy⟩
      | false =>
        have := (toRat_bounds_finite x hx hxi).1
        linarith
    | false =>
      have e1 := add_of_finite a y han hyn hai hyi
      cases hxi : x.isInf with
      | true =>
        rw [add_of_isInf_right a x han hx hai hxi]
        refine ⟨hx, ?_⟩
        have hyb := (toRat_bounds_finite y hyn hyi).2
        have hxv : x.toRat = -pow2 1024 := by
          cases hs : x.sign with
          | true =>
            rw [toRat_of_isInf x hxi, hs]
            rfl
          | false =>
            rw [toRat_of_isInf x hxi, hs] at hxy
            simp only [Bool.false_eq_true, if_false] at hxy
            linarith
        rw [hxv]
        exact (toRat_bounds _ hy).1
      | false =>
        rw [e1, add_of_finite a x han hx hai hxi]
        exact ⟨isNaN_round _ _, round_mono _ _ _ _ (by linarith)⟩

theorem isNaN_neg (t : F64) : (neg t).isNaN = t.isNaN := rfl

theorem isInf_neg (t : F64) : (neg t).isInf = t.isInf := rfl

theorem toRat_neg (t : F64) : (neg t).toRat = -t.toRat := by
  have hm : (neg t).magnitude = t.magnitude := rfl
  have hs : (neg t).sign = !t.sign := rfl
  unfold toRat
  rw [hm, hs]
  cases t.sign
  · simp
  · simp

theorem toRat_one : (1 : F64).toRat = 1 := by
  with_unfolding_all decide

theorem isNaN_one : (1 : F64).isNaN = false := by
  with_unfolding_all decide

theorem isInf_one : (1 : F64).isInf = false := by
  with_unfolding_all decide

/-- Every value is a whole multiple of the least subnormal `2 ^ (-1074)`. -/
theorem toRat_units (x : F64) : ∃ k : Int, x.toRat = (k : ℚ) * pow2 (-1074) := by
  have hm : ∃ k : Nat, x.magnitude = (k : ℚ) * pow2 (-1074) := by
    unfold magnitude
    split_ifs with he
    · exact ⟨x.frac.val, rfl⟩
    · refine ⟨(4503599627370496 + x.frac.val) * 2 ^ (x.expo.val - 1), ?_⟩
      have h1 : (x.expo.val : Int) - 1075 = ((x.expo.val - 1 : Nat) : Int) + (-1074) := by omega
      rw [h1, pow2_add, pow2_natCast]
      push_cast
      ring
  obtain ⟨k, hk⟩ := hm
  unfold toRat
  split_ifs
  · exact ⟨-(k : Int), by rw [hk]; push_cast; ring⟩
  · exact ⟨(k : Int), by rw [hk]; push_cast; ring⟩

/-- A value `0 < r`: not NaN and of positive value. -/
theorem pos_iff (r : F64) : (0 : F64) < r ↔ r.isNaN = false ∧ 0 < r.toRat := by
  rw [lt_iff, toRat_zero]
  constructor
  · rintro ⟨_, h2, h3⟩
    exact ⟨h2, h3⟩
  · rintro ⟨h2, h3⟩
    exact ⟨isNaN_zero, h2, h3⟩

/-- Below `1` the difference `1 - t` is positive: subtraction never rounds a non-zero
difference to zero. -/
theorem one_sub_pos (t : F64) (h : t < 1) : (0 : F64) < 1 - t := by
  rw [lt_iff, toRat_one] at h
  obtain ⟨htn, _, htv⟩ := h
  show (0 : F64) < add 1 (neg t)
  rw [pos_iff]
  have hnn : (neg t).isNaN = false := by rw [isNaN_neg]; exact htn
  cases hti : t.isInf with
  | true =>
    have hni : (neg t).isInf = true := by rw [isInf_neg]; exact hti
    rw [add_of_isInf_right 1 (neg t) isNaN_one hnn isInf_one hni]
    refine ⟨hnn, ?_⟩
    rw [toRat_neg]
    have hp := pow2_pos 1024
    rw [toRat_of_isInf t hti] at htv ⊢
    split_ifs with hs
    · linarith
    · rw [if_neg hs] at htv
      have h1 : (1 : ℚ) ≤ pow2 1024 := by
        have h0 : pow2 0 = 1 := by with_unfolding_all decide
        rw [← h0]
        exact pow2_mono _ _ (by decide)
      linarith
  | false =>
    have hni : (neg t).isInf = false := by rw [isInf_neg]; exact hti
    rw [add_of_finite 1 (neg t) isNaN_one hnn isInf_one hni]
    refine ⟨isNaN_round _ _, toRat_round_pos _ _ ?_⟩
    rw [toRat_one, toRat_neg]
    obtain ⟨k, hk⟩ := toRat_units t
    obtain ⟨k1, hk1⟩ := toRat_units 1
    rw [toRat_one] at hk1
    have hp := pow2_pos (-1074)
    have h2 : (1 : ℚ) + -t.toRat = ((k1 - k : Int) : ℚ) * pow2 (-1074) := by
      rw [hk]
      push_cast
      rw [sub_mul, ← hk1]
      ring
    rw [h2]
    have h3 : 0 < ((k1 - k : Int) : ℚ) * pow2 (-1074) := by
      rw [← h2]
      linarith
    have h4 : (0 : ℚ) < ((k1 - k : Int) : ℚ) := by
      by_contra hc
      have := mul_nonpos_of_nonpos_of_nonneg (not_lt.mp hc) (le_of_lt hp)
      linarith
    have h5 : 0 < k1 - k := by exact_mod_cast h4
    have h6 : (1 : ℚ) ≤ ((k1 - k : Int) : ℚ) := by exact_mod_cast h5
    calc pow2 (-1074) = 1 * pow2 (-1074) := (one_mul _).symm
      _ ≤ ((k1 - k : Int) : ℚ) * pow2 (-1074) := mul_le_mul_of_nonneg_right h6 (le_of_lt hp)

/-- A smaller second summand keeps a sum at or below a bound that is below `1`. -/
theorem add_le_of_le (a x y T : F64) (hxy : x ≤ y) (hT : a + y ≤ T) (h1 : T < 1) :
    a + x ≤ T := by
  rw [le_iff] at hxy hT ⊢
  rw [lt_iff, toRat_one] at h1
  obtain ⟨hx, _, hv⟩ := hxy
  obtain ⟨hs, hTn, hsv⟩ := hT
  have hone : (1 : ℚ) ≤ pow2 1024 := by
    have h0 : pow2 0 = 1 := by with_unfolding_all decide
    rw [← h0]
    exact pow2_mono _ _ (by decide)
  have hlt : (add a y).toRat < pow2 1024 := lt_of_le_of_lt hsv (lt_of_lt_of_le h1.2.2 hone)
  obtain ⟨r1, r2⟩ := add_mono_right a x y hx hv hs hlt
  exact ⟨r1, hTn, le_trans r2 hsv⟩

end F64

/-! ## The pruning loop -/

theorem findValidIdx_found (cutoff : Int) (l : List PricePoint) (i : Nat)
    (h : ∃ p ∈ l, Time.After p.Timestamp cutoff = true) :
    findValidIdx cutoff l i = i + (l.takeWhile (notAfter cutoff)).length := by
  induction l generalizing i with
  | nil => simp at h
  | cons a l ih =>
    by_cases ha : Time.After a.Timestamp cutoff = true
    · simp [findValidIdx, notAfter, ha]
    · have h2 : ∃ p ∈ l, Time.After p.Timestamp cutoff = true := by
        obtain ⟨p, hp, hpa⟩ := h
        rcases List.mem_cons.mp hp with rfl | hp
        · exact absurd hpa ha
        · exact ⟨p, hp, hpa⟩
      simp only [findValidIdx, ha, notAfter, List.takeWhile_cons]
      simp only [Bool.false_eq_true, if_false, Bool.not_false, if_true, List.length_cons]
      rw [ih (i + 1) h2]
      omega

theorem findValidIdx_none (cutoff : Int) (l : List PricePoint) (i : Nat)
    (h : ∀ p ∈ l, Time.After p.Timestamp cutoff = false) :
    findValidIdx cutoff l i = 0 := by
  induction l generalizing i with
  | nil => rfl
  | cons a l ih =>
    have ha := h a (List.mem_cons_self a l)
    simp only [findValidIdx, ha, Bool.false_eq_true, if_false]
    exact ih (i + 1) (fun p hp => h p (List.mem_cons_of_mem a hp))

theorem drop_length_takeWhile (q : PricePoint → Bool) (l : List PricePoint) :
    l.drop (l.takeWhile q).length = l.dropWhile q := by
  induction l with
  | nil => rfl
  | cons a l ih =>
    by_cases ha : q a = true
    · simp [List.takeWhile_cons, List.dropWhile_cons, ha, ih]
    · simp [List.takeWhile_cons, List.dropWhile_cons, ha]

/-- The history after `Add` when some point of the extended history is after the
cutoff: the leading points that are not after it are dropped. -/
theorem Add_history_found (pb : PriceBuffer) (price : F64) (ts : Int)
    (h : ∃ p ∈ pb.history ++ [PricePoint.mk price ts],
      Time.After p.Timestamp (Time.Add ts (Duration.neg pb.window)) = true) :
    (pb.Add price ts).history =
      (pb.history ++ [PricePoint.mk price ts]).dropWhile
        (notAfter (Time.Add ts (Duration.neg pb.window))) := by
  unfold PriceBuffer.Add
  simp only
  rw [findValidIdx_found _ _ 0 h]
  split_ifs with hk
  · simp only [Nat.zero_add]
    exact drop_length_takeWhile _ _
  · have h0 : ((pb.history ++ [PricePoint.mk price ts]).takeWhile
        (notAfter (Time.Add ts (Duration.neg pb.window)))).length = 0 := by omega
    have := drop_length_takeWhile (notAfter (Time.Add ts (Duration.neg pb.window)))
      (pb.history ++ [PricePoint.mk price ts])
    rw [h0, List.drop_zero] at this
    exact this

/-- The history after `Add` when no point of the extended history is after the
cutoff: nothing is pruned. -/
theorem Add_history_none (pb : PriceBuffer) (price : F64) (ts : Int)
    (h : ∀ p ∈ pb.history ++ [PricePoint.mk price ts],
      Time.After p.Timestamp (Time.Add ts (Duration.neg pb.window)) = false) :
    (pb.Add price ts).history = pb.history ++ [PricePoint.mk price ts] := by
  unfold PriceBuffer.Add
  simp only
  rw [findValidIdx_none _ _ 0 h]
  simp

theorem Add_window (pb : PriceBuffer) (price : F64) (ts : Int) :
    (pb.Add price ts).window = pb.window := by
  unfold PriceBuffer.Add
  simp only
  split_ifs <;> rfl

theorem dropWhile_eq_filter_of_sorted (cutoff : Int) (l : List PricePoint)
    (hs : timeSorted l) :
    l.dropWhile (notAfter cutoff) = l.filter (fun p => Time.After p.Timestamp cutoff) := by
  induction l with
  | nil => rfl
  | cons a l ih =>
    have hs2 : timeSorted l := (List.pairwise_cons.mp hs).2
    by_cases ha : Time.After a.Timestamp cutoff = true
    · have hall : ∀ p ∈ l, Time.After p.Timestamp cutoff = true := by
        intro p hp
        have hle := (List.pairwise_cons.mp hs).1 p hp
        simp only [Time.After, decide_eq_true_eq] at ha ⊢
        omega
      simp only [List.dropWhile_cons, notAfter, ha, Bool.not_true, Bool.false_eq_true, if_false,
        List.filter_cons, if_true]
      congr 1
      exact (List.filter_eq_self.mpr hall).symm
    · simp only [List.dropWhile_cons, notAfter, ha, Bool.not_false, if_true,
        List.filter_cons, Bool.false_eq_true, if_false]
      simpa [notAfter] using ih hs2

/-- The effect of `Add` on a time-sorted history whose points are not later than
the new one, for a positive window: the points after `ts - window` are kept, in
order, and the new point follows. -/
theorem Add_history_of_sorted (pb : PriceBuffer) (price : F64) (ts : Int)
    (hw0 : 0 < pb.window) (hw1 : pb.window ≤ maxDuration)
    (hs : timeSorted pb.history) (hle : ∀ p ∈ pb.history, p.Timestamp ≤ ts) :
    (pb.Add price ts).history =
      pb.history.filter (fun p => decide (ts - pb.window < p.Timestamp)) ++
        [PricePoint.mk price ts] := by
  have hc : Time.Add ts (Duration.neg pb.window) = ts - pb.window := by
    rw [Duration.neg_of_pos _ hw0 hw1]
    unfold Time.Add
    omega
  have hnew : Time.After ts (ts - pb.window) = true := by
    simp only [Time.After, decide_eq_true_eq]
    omega
  have hfound : ∃ p ∈ pb.history ++ [PricePoint.mk price ts],
      Time.After p.Timestamp (Time.Add ts (Duration.neg pb.window)) = true := by
    refine ⟨PricePoint.mk price ts, by simp, ?_⟩
    rw [hc]
    exact hnew
  have hs2 : timeSorted (pb.history ++ [PricePoint.mk price ts]) := by
    unfold timeSorted
    rw [List.pairwise_append]
    refine ⟨hs, List.pairwise_singleton _ _, ?_⟩
    intro a ha b hb
    rw [List.mem_singleton] at hb
    subst hb
    exact hle a ha
  rw [Add_history_found pb price ts hfound, dropWhile_eq_filter_of_sorted _ _ hs2, hc,
    List.filter_append]
  congr 1
  simp only [List.filter_cons, hnew, if_true, List.filter_nil]

/-- `Add` keeps a time-sorted history time-sorted, whatever the window. -/
theorem Add_sorted (pb : PriceBuffer) (price : F64) (ts : Int)
    (hs : timeSorted pb.history) (hle : ∀ p ∈ pb.history, p.Timestamp ≤ ts) :
    timeSorted (pb.Add price ts).history ∧
      ∀ p ∈ (pb.Add price ts).history, p.Timestamp ≤ ts := by
  have hs2 : timeSorted (pb.history ++ [PricePoint.mk price ts]) := by
    unfold timeSorted
    rw [List.pairwise_append]
    refine ⟨hs, List.pairwise_singleton _ _, ?_⟩
    intro a ha b hb
    rw [List.mem_singleton] at hb
    subst hb
    exact hle a ha
  have hle2 : ∀ p ∈ pb.history ++ [PricePoint.mk price ts], p.Timestamp ≤ ts := by
    intro p hp
    rcases List.mem_append.mp hp with hp | hp
    · exact hle p hp
    · rw [List.mem_singleton] at hp
      subst hp
      exact le_refl _
  unfold PriceBuffer.Add
  simp only
  split_ifs
  · exact ⟨List.Pairwise.sublist (List.drop_sublist _ _) hs2,
      fun p hp => hle2 p (List.mem_of_mem_drop hp)⟩
  · exact ⟨hs2, hle2⟩

theorem addAll_append (pb : PriceBuffer) (xs ys : List (F64 × Int)) :
    addAll pb (xs ++ ys) = addAll (addAll pb xs) ys := by
  induction xs generalizing pb with
  | nil => rfl
  | cons c rest ih => exact ih (pb.Add c.1 c.2)

theorem addAll_window (pb : PriceBuffer) (xs : List (F64 × Int)) :
    (addAll pb xs).window = pb.window := by
  induction xs generalizing pb with
  | nil => rfl
  | cons c rest ih =>
    show (addAll (pb.Add c.1 c.2) rest).window = pb.window
    rw [ih, Add_window]

/-- A run of `Add` calls with non-decreasing timestamps, none earlier than the
points already held, keeps the history time-sorted and below any bound `T` on
the timestamps involved. -/
theorem addAll_sorted (pb : PriceBuffer) (calls : List (F64 × Int)) (T : Int)
    (hs : timeSorted pb.history)
    (hc : calls.Pairwise (fun a b => a.2 ≤ b.2))
    (hpc : ∀ p ∈ pb.history, ∀ c ∈ calls, p.Timestamp ≤ c.2)
    (hpT : ∀ p ∈ pb.history, p.Timestamp ≤ T)
    (hcT : ∀ c ∈ calls, c.2 ≤ T) :
    timeSorted (addAll pb calls).history ∧
      ∀ p ∈ (addAll pb calls).history, p.Timestamp ≤ T := by
  induction calls generalizing pb with
  | nil => exact ⟨hs, hpT⟩
  | cons c rest ih =>
    have hA := Add_sorted pb c.1 c.2 hs (fun p hp => hpc p hp c (List.mem_cons_self c rest))
    have hc2 := List.pairwise_cons.mp hc
    refine ih (pb.Add c.1 c.2) hA.1 hc2.2 ?_ ?_ ?_
    · intro p hp d hd
      exact le_trans (hA.2 p hp) (hc2.1 d hd)
    · intro p hp
      exact le_trans (hA.2 p hp) (hcT c (List.mem_cons_self c rest))
    · intro d hd
      exact hcT d (List.mem_cons_of_mem c hd)

/-! ## Claim C1: the pruning invariant of `Add` -/

/-- Claim C1 as stated is false: it is not the case that for every window
duration and every run of `Add` calls with non-decreasing timestamps from an
empty buffer, every retained timestamp is at least the last added timestamp
minus the window. With window `0`, adding at `0` and then at `10` retains the
point at `0`, because no point is after the cutoff `10` and the loop leaves
`validIdx` at `0`. -/
theorem add_pruning_invariant_fails_for_zero_window :
    ¬ ∀ (w : Int) (calls : List (F64 × Int)) (price : F64) (ts : Int), isInt64 w →
        (calls ++ [(price, ts)]).Pairwise (fun a b => a.2 ≤ b.2) →
        ∀ p ∈ (addAll (NewPriceBuffer w) (calls ++ [(price, ts)])).history,
          ts - w ≤ p.Timestamp := by
  intro h
  have h1 := h 0 [(1, 0)] 1 10 (by decide) (by decide) (PricePoint.mk 1 0) (by decide)
  exact absurd h1 (by decide)

/-- Claim C1 (amended): for every positive window duration and every run of
`Add` calls with non-decreasing timestamps starting from an empty buffer, after
each call every retained point has a timestamp at least the timestamp of the
point just added minus the window. The run is `calls` followed by the call
`(price, ts)`, so the statement covers the state after every call. -/
theorem add_pruning_invariant (w : Int) (hw0 : 0 < w) (hw1 : w ≤ maxDuration)
    (calls : List (F64 × Int)) (price : F64) (ts : Int)
    (hs : (calls ++ [(price, ts)]).Pairwise (fun a b => a.2 ≤ b.2)) :
    ∀ p ∈ (addAll (NewPriceBuffer w) (calls ++ [(price, ts)])).history,
      ts - w ≤ p.Timestamp := by
  have hp := List.pairwise_append.mp hs
  have hsorted := addAll_sorted (NewPriceBuffer w) calls ts
    (by simp [NewPriceBuffer, timeSorted]) hp.1
    (by simp [NewPriceBuffer]) (by simp [NewPriceBuffer])
    (fun c hc => hp.2.2 c hc (price, ts) (List.mem_singleton.mpr rfl))
  have hwin : (addAll (NewPriceBuffer w) calls).window = w := by
    rw [addAll_window]
    rfl
  intro p hmem
  rw [addAll_append] at hmem
  change p ∈ ((addAll (NewPriceBuffer w) calls).Add price ts).history at hmem
  rw [Add_history_of_sorted _ price ts (by rw [hwin]; exact hw0) (by rw [hwin]; exact hw1)
    hsorted.1 hsorted.2, hwin] at hmem
  rcases List.mem_append.mp hmem with hm | hm
  · have := (List.mem_filter.mp hm).2
    simp only [decide_eq_true_eq] at this
    omega
  · rw [List.mem_singleton] at hm
    subst hm
    show ts - w ≤ ts
    omega

/-- Witness for C1 (amended): a 5 second window and adds at 0 s, 2 s and 9 s. -/
theorem add_pruning_invariant_witness :
    (0 : Int) < 5 * Second ∧ 5 * Second ≤ maxDuration ∧
    ∀ p ∈ (addAll (NewPriceBuffer (5 * Second))
        ([(100, 0), (102, 2 * Second)] ++ [(104, 9 * Second)])).history,
      9 * Second - 5 * Second ≤ p.Timestamp :=
  ⟨by decide, by decide,
    add_pruning_invariant (5 * Second) (by decide) (by decide)
      [(100, 0), (102, 2 * Second)] 104 (9 * Second) (by decide)⟩

/-! ## Claims C2 and C3: the lookback `GetPriceAgo` -/

/-- The difference that one iteration of the scan compares, when the point is
less than `2^63` ns before the target: the distance, capped at the greatest
duration. -/
theorem scanStep_of_inRange (target : Int) (acc : F64 × Int) (p : PricePoint)
    (hr : minDuration < p.Timestamp - target) (hacc : acc.2 ≤ Hour) :
    scanStep target acc p =
      if timeDist p.Timestamp target < acc.2 then (p.Price, timeDist p.Timestamp target)
      else acc := by
  have hH : Hour = 3600000000000 := by decide
  unfold scanStep
  simp only
  unfold Time.Sub Duration.neg wrap64 timeDist
  unfold minDuration at hr
  unfold minDuration maxDuration
  rw [hH] at hacc
  split_ifs <;> first | rfl | omega | (congr 1; omega)

/-- What the scan of `GetPriceAgo` leaves in `(bestPrice, minDiff)` when every
point is less than `2^63` ns before the target: either nothing is nearer than
an hour and the pair is untouched, or the pair holds the price and distance of
a point at the least distance. -/
theorem scan_spec (target : Int) (l : List PricePoint)
    (hr : ∀ p ∈ l, minDuration < p.Timestamp - target) :
    ((∀ p ∈ l, Hour ≤ timeDist p.Timestamp target) ∧
        l.foldl (scanStep target) (-1, Hour) = (-1, Hour)) ∨
    (∃ q ∈ l, l.foldl (scanStep target) (-1, Hour) = (q.Price, timeDist q.Timestamp target) ∧
        timeDist q.Timestamp target < Hour ∧
        ∀ p ∈ l, timeDist q.Timestamp target ≤ timeDist p.Timestamp target) := by
  induction l using List.reverseRecOn with
  | nil => left; simp
  | append_singleton l a ih =>
    have hr1 : ∀ p ∈ l, minDuration < p.Timestamp - target :=
      fun p hp => hr p (List.mem_append_left _ hp)
    have hra : minDuration < a.Timestamp - target :=
      hr a (List.mem_append_right _ (List.mem_singleton.mpr rfl))
    rw [List.foldl_append]
    simp only [List.foldl_cons, List.foldl_nil]
    rcases ih hr1 with ⟨hfar, hacc⟩ | ⟨q, hq, hacc, hlt, hmin⟩
    · rw [hacc, scanStep_of_inRange target _ a hra (le_refl _)]
      by_cases hc : timeDist a.Timestamp target < Hour
      · right
        refine ⟨a, by simp, by simp [hc], hc, ?_⟩
        intro p hp
        rcases List.mem_append.mp hp with hp | hp
        · have := hfar p hp
          omega
        · rw [List.mem_singleton] at hp
          subst hp
          exact le_refl _
      · left
        refine ⟨?_, by simp [hc]⟩
        intro p hp
        rcases List.mem_append.mp hp with hp | hp
        · exact hfar p hp
        · rw [List.mem_singleton] at hp
          subst hp
          omega
    · rw [hacc, scanStep_of_inRange target _ a hra (le_of_lt hlt)]
      right
      by_cases hc : timeDist a.Timestamp target < timeDist q.Timestamp target
      · refine ⟨a, by simp, by simp [hc], by omega, ?_⟩
        intro p hp
        rcases List.mem_append.mp hp with hp | hp
        · have := hmin p hp
          omega
        · rw [List.mem_singleton] at hp
          subst hp
          exact le_refl _
      · refine ⟨q, List.mem_append_left _ hq, by simp [hc], hlt, ?_⟩
        intro p hp
        rcases List.mem_append.mp hp with hp | hp
        · exact hmin p hp
        · rw [List.mem_singleton] at hp
          subst hp
          omega

/-- Nearest-neighbour lookback when no retained point lies `2^63` ns or more
before the target instant `now.Add(-duration)`: if some retained point is within
one second of the target, `GetPriceAgo` returns the price of a retained point
at the least distance from the target over the whole history. -/
theorem GetPriceAgo_nearest_of_inRange (pb : PriceBuffer) (duration now : Int)
    (hr : ∀ p ∈ pb.history,
      minDuration < p.Timestamp - Time.Add now (Duration.neg duration))
    (hnear : ∃ p ∈ pb.history,
      timeDist p.Timestamp (Time.Add now (Duration.neg duration)) ≤ 1 * Second) :
    ∃ q ∈ pb.history, pb.GetPriceAgo duration now = q.Price ∧
      ∀ p ∈ pb.history,
        timeDist q.Timestamp (Time.Add now (Duration.neg duration)) ≤
          timeDist p.Timestamp (Time.Add now (Duration.neg duration)) := by
  have hH : Hour = 3600000000000 := by decide
  have hS : Second = 1000000000 := by decide
  obtain ⟨p0, hp0, hd0⟩ := hnear
  have hne : ¬ pb.history.length = 0 := by
    intro h0
    rw [List.length_eq_zero] at h0
    rw [h0] at hp0
    simp at hp0
  unfold PriceBuffer.GetPriceAgo
  simp only [hne, if_false]
  rcases scan_spec _ pb.history hr with ⟨hfar, _⟩ | ⟨q, hq, hacc, _, hmin⟩
  · have := hfar p0 hp0
    omega
  · refine ⟨q, hq, ?_, hmin⟩
    rw [hacc]
    have := hmin p0 hp0
    simp only
    rw [if_neg (by omega)]

/-- No-data behaviour when no retained point lies `2^63` ns or more before the
target instant: `GetPriceAgo` returns `-1` on an empty history, and when every
retained point is farther than one second from the target. -/
theorem GetPriceAgo_notAvailable_of_inRange (pb : PriceBuffer) (duration now : Int) :
    (pb.history = [] → pb.GetPriceAgo duration now = -1) ∧
    ((∀ p ∈ pb.history, minDuration < p.Timestamp - Time.Add now (Duration.neg duration)) →
      (∀ p ∈ pb.history,
        1 * Second < timeDist p.Timestamp (Time.Add now (Duration.neg duration))) →
      pb.GetPriceAgo duration now = -1) := by
  have hH : Hour = 3600000000000 := by decide
  have hS : Second = 1000000000 := by decide
  constructor
  · intro h0
    unfold PriceBuffer.GetPriceAgo
    simp [h0]
  · intro hr hfar1
    unfold PriceBuffer.GetPriceAgo
    simp only
    split_ifs with h0 h1
    · rfl
    · rfl
    · exfalso
      rcases scan_spec _ pb.history hr with ⟨_, hacc⟩ | ⟨q, hq, hacc, _, _⟩
      · rw [hacc] at h1
        simp only at h1
        omega
      · rw [hacc] at h1
        have := hfar1 q hq
        simp only at h1
        omega

set_option maxRecDepth 100000 in
/-- The worked example of `TestPriceBuffer`: points at `now - 5 s`, `now - 3 s`
and `now - 1 s` with prices 100, 102 and 104 (here `now = 0`) give 102, 100 and
104 for lookbacks of 3 s, 5 s and 1 s. -/
theorem GetPriceAgo_worked_example :
    let pb := addAll (NewPriceBuffer (5 * Second))
      [(100, -5 * Second), (102, -3 * Second), (104, -1 * Second)]
    pb.GetPriceAgo (3 * Second) 0 = 102 ∧ pb.GetPriceAgo (5 * Second) 0 = 100 ∧
      pb.GetPriceAgo (1 * Second) 0 = 104 := by
  decide

set_option maxRecDepth 100000 in
/-- Claim C2, evaluated at the failing input. A point `2^63` ns or more before
the target makes `Sub` return the least duration, whose negation `-diff` wraps
to itself and stays negative, below every real distance. The 5 second buffer
that received a point at `0` and then one 300 years earlier holds both points,
and a lookback of `0` at `now = 0`, whose target is the first point exactly,
returns the price 7 of the far point, not the price 9 of the nearest one. The
same happens on a time-sorted history (window of the greatest duration, points
at `2 - 2^63` and `0`, `now = 2`). -/
theorem GetPriceAgo_returns_far_point_over_nearest :
    (((NewPriceBuffer (5 * Second)).Add 9 0).Add 7 (-(300 * 365 * 24 * Hour))).history =
        [PricePoint.mk 9 0, PricePoint.mk 7 (-(300 * 365 * 24 * Hour))] ∧
    timeDist 0 (Time.Add 0 (Duration.neg 0)) = 0 ∧
    (((NewPriceBuffer (5 * Second)).Add 9 0).Add 7 (-(300 * 365 * 24 * Hour))).GetPriceAgo 0 0 = 7 ∧
    (((NewPriceBuffer maxDuration).Add 7 (2 - 2 ^ 63)).Add 9 0).history =
        [PricePoint.mk 7 (2 - 2 ^ 63), PricePoint.mk 9 0] ∧
    (((NewPriceBuffer maxDuration).Add 7 (2 - 2 ^ 63)).Add 9 0).GetPriceAgo 0 2 = 7 := by
  decide

set_option maxRecDepth 100000 in
/-- Claim C3, evaluated at the failing input. The 5 second buffer holding the
single point `(7, 0)` is asked for the price `0` ago at an instant 300 years
later: the only retained point is 300 years from the target, far beyond one
second, and `GetPriceAgo` returns its price 7 and not `-1`. -/
theorem GetPriceAgo_returns_price_beyond_tolerance :
    ((NewPriceBuffer (5 * Second)).Add 7 0).history = [PricePoint.mk 7 0] ∧
    1 * Second < timeDist 0 (Time.Add (300 * 365 * 24 * Hour) (Duration.neg 0)) ∧
    ((NewPriceBuffer (5 * Second)).Add 7 0).GetPriceAgo 0 (300 * 365 * 24 * Hour) = 7 ∧
    (7 : F64) ≠ -1 := by
  decide

/-! ## The engine: unfolding one tick -/

theorem RunTick_ticker_error (b : Bot) (exc : Venue)
    (ht : exc.GetTicker b.cfg.MarketID = none) :
    b.RunTick exc = { bot := b, orders := [], report := none } := by
  unfold Bot.RunTick
  simp only [ht]

theorem RunTick_watching (b : Bot) (exc : Venue) (tk : Ticker)
    (hs : b.state = StateWatching) (ht : exc.GetTicker b.cfg.MarketID = some tk) :
    b.RunTick exc = (b.ingest tk exc.CurrentTime).checkLeg1 exc tk exc.CurrentTime := by
  unfold Bot.RunTick Bot.ingest
  simp only [ht, hs]

theorem RunTick_leg1Bought (b : Bot) (exc : Venue) (tk : Ticker)
    (hs : b.state = StateLeg1Bought) (ht : exc.GetTicker b.cfg.MarketID = some tk) :
    b.RunTick exc = (b.ingest tk exc.CurrentTime).checkLeg2 exc tk := by
  unfold Bot.RunTick Bot.ingest
  simp only [ht, hs]

theorem RunTick_done (b : Bot) (exc : Venue) (tk : Ticker)
    (hs : b.state = StateDone) (ht : exc.GetTicker b.cfg.MarketID = some tk) :
    b.RunTick exc = { bot := b.ingest tk exc.CurrentTime, orders := [], report := none } := by
  unfold Bot.RunTick Bot.ingest
  simp only [ht, hs]

/-- The order request that `checkLeg1` hands to `executeLeg1` on an UP dump, and
its outcome. -/
theorem checkLeg1_up (b : Bot) (exc : Venue) (tk : Ticker) (now : Int)
    (hw : Time.Sub now b.roundStartTime ≤ b.cfg.WindowMin)
    (hpos : 0 < b.bufferUp.GetPriceAgo (3 * Second) now)
    (hdrop : (b.bufferUp.GetPriceAgo (3 * Second) now - tk.PriceUp) /
      b.bufferUp.GetPriceAgo (3 * Second) now ≥ b.cfg.MovePct) :
    b.checkLeg1 exc tk now = b.executeLeg1 exc SideUp tk.PriceUp := by
  unfold Bot.checkLeg1
  simp only
  rw [if_neg (not_lt.mpr hw), if_pos ⟨hpos, hdrop⟩]

theorem executeLeg1_orders (b : Bot) (exc : Venue) (side : Side) (price : F64) :
    (b.executeLeg1 exc side price).orders =
      [OrderRequest.mk b.cfg.MarketID side b.cfg.Shares price] := by
  unfold Bot.executeLeg1
  cases exc.PlaceOrder b.cfg.MarketID side b.cfg.Shares price <;> rfl

theorem executeLeg1_success (b : Bot) (exc : Venue) (side : Side) (price : F64) (o : Order)
    (ho : exc.PlaceOrder b.cfg.MarketID side b.cfg.Shares price = some o) :
    (b.executeLeg1 exc side price).bot =
      { b with leg1Side := side, leg1EntryPrice := o.Price, state := StateLeg1Bought } := by
  unfold Bot.executeLeg1
  simp only [ho]

/-- A tick in state Watching, inside the entry window, whose UP lookback is
positive and shows a drop of at least `MovePct`, runs `executeLeg1` for side UP
at the current UP price. -/
theorem RunTick_on_up_dump (b : Bot) (exc : Venue) (tk : Ticker)
    (hs : b.state = StateWatching)
    (hw : Time.Sub exc.CurrentTime b.roundStartTime ≤ b.cfg.WindowMin)
    (ht : exc.GetTicker b.cfg.MarketID = some tk)
    (hpos : 0 < (b.bufferUp.Add tk.PriceUp exc.CurrentTime).GetPriceAgo (3 * Second)
      exc.CurrentTime)
    (hdrop : ((b.bufferUp.Add tk.PriceUp exc.CurrentTime).GetPriceAgo (3 * Second)
        exc.CurrentTime - tk.PriceUp) /
      (b.bufferUp.Add tk.PriceUp exc.CurrentTime).GetPriceAgo (3 * Second) exc.CurrentTime ≥
        b.cfg.MovePct) :
    b.RunTick exc = (b.ingest tk exc.CurrentTime).executeLeg1 exc SideUp tk.PriceUp := by
  rw [RunTick_watching b exc tk hs ht]
  exact checkLeg1_up (b.ingest tk exc.CurrentTime) exc tk exc.CurrentTime hw hpos hdrop

/-! ## Claims C4 and C5: Leg-1 entry on an UP dump -/

/-- Claim C4: for every tick taken in state Watching with elapsed
`now.Sub(roundStartTime) <= WindowMin`, a successful ticker fetch, and an UP
3-second lookback (taken, as the engine does, on the UP history after the
current price was appended) equal to a positive price `p` with
`(p - priceUp_now) / p >= MovePct`, the quotient being the `float64` value the
engine computes, the engine submits exactly one order, a buy of side UP with
size `Shares` at `priceUp_now`, and when that order succeeds the state after the
tick is Leg1Bought with leg-1 side UP. -/
theorem leg1_entry_on_up_dump (b : Bot) (exc : Venue) (tk : Ticker) (p : F64)
    (hs : b.state = StateWatching)
    (hw : Time.Sub exc.CurrentTime b.roundStartTime ≤ b.cfg.WindowMin)
    (ht : exc.GetTicker b.cfg.MarketID = some tk)
    (hp : (b.bufferUp.Add tk.PriceUp exc.CurrentTime).GetPriceAgo (3 * Second)
      exc.CurrentTime = p)
    (hpos : 0 < p) (hdrop : (p - tk.PriceUp) / p ≥ b.cfg.MovePct) :
    (b.RunTick exc).orders = [OrderRequest.mk b.cfg.MarketID SideUp b.cfg.Shares tk.PriceUp] ∧
    ∀ o, exc.PlaceOrder b.cfg.MarketID SideUp b.cfg.Shares tk.PriceUp = some o →
      (b.RunTick exc).bot.state = StateLeg1Bought ∧ (b.RunTick exc).bot.leg1Side = SideUp := by
  subst hp
  rw [RunTick_on_up_dump b exc tk hs hw ht hpos hdrop]
  refine ⟨executeLeg1_orders _ _ _ _, ?_⟩
  intro o ho
  rw [executeLeg1_success (b.ingest tk exc.CurrentTime) exc SideUp tk.PriceUp o ho]
  exact ⟨rfl, rfl⟩

set_option maxRecDepth 100000 in
/-- Witness for C4: the test scenario, UP = 0.40 at `t + 4 s` after 0.50 at `t`
and `t + 3 s`, with `MovePct = 0.10`. -/
theorem leg1_entry_on_up_dump_witness :
    (testBotPrimed.RunTick (mockVenue (4 * Second) (40 / 100) (55 / 100))).orders =
      [OrderRequest.mk "" SideUp 20 (40 / 100)] ∧
    (testBotPrimed.RunTick (mockVenue (4 * Second) (40 / 100) (55 / 100))).bot.state =
      StateLeg1Bought ∧
    (testBotPrimed.RunTick (mockVenue (4 * Second) (40 / 100) (55 / 100))).bot.leg1Side =
      SideUp := by
  have h := leg1_entry_on_up_dump testBotPrimed (mockVenue (4 * Second) (40 / 100) (55 / 100))
    { MarketID := "mock-market", PriceUp := 40 / 100, PriceDown := 55 / 100,
      Timestamp := 4 * Second }
    (50 / 100) (by with_unfolding_all decide) (by with_unfolding_all decide) rfl
    (by with_unfolding_all decide) (by with_unfolding_all decide) (by with_unfolding_all decide)
  with_unfolding_all exact ⟨h.1, h.2 _ rfl⟩

/-- Claim C5: for every tick in state Watching inside the entry window in which
both the UP side and the DOWN side satisfy the dump condition (lookback
positive and drop, the `float64` quotient the engine computes, at least
`MovePct`), the only order submitted is the UP order, no DOWN order is submitted in that tick, and when the order succeeds the
state is Leg1Bought with leg-1 side UP. -/
theorem up_wins_when_both_sides_dump (b : Bot) (exc : Venue) (tk : Ticker) (pu pd : F64)
    (hs : b.state = StateWatching)
    (hw : Time.Sub exc.CurrentTime b.roundStartTime ≤ b.cfg.WindowMin)
    (ht : exc.GetTicker b.cfg.MarketID = some tk)
    (hpu : (b.bufferUp.Add tk.PriceUp exc.CurrentTime).GetPriceAgo (3 * Second)
      exc.CurrentTime = pu)
    (hupos : 0 < pu) (hudrop : (pu - tk.PriceUp) / pu ≥ b.cfg.MovePct)
    (_hpd : (b.bufferDown.Add tk.PriceDown exc.CurrentTime).GetPriceAgo (3 * Second)
      exc.CurrentTime = pd)
    (_hdpos : 0 < pd) (_hddrop : (pd - tk.PriceDown) / pd ≥ b.cfg.MovePct) :
    (b.RunTick exc).orders = [OrderRequest.mk b.cfg.MarketID SideUp b.cfg.Shares tk.PriceUp] ∧
    (∀ r ∈ (b.RunTick exc).orders, r.side ≠ SideDown) ∧
    ∀ o, exc.PlaceOrder b.cfg.MarketID SideUp b.cfg.Shares tk.PriceUp = some o →
      (b.RunTick exc).bot.state = StateLeg1Bought ∧ (b.RunTick exc).bot.leg1Side = SideUp := by
  subst hpu
  rw [RunTick_on_up_dump b exc tk hs hw ht hupos hudrop]
  refine ⟨executeLeg1_orders _ _ _ _, ?_, ?_⟩
  · intro r hr
    rw [executeLeg1_orders, List.mem_singleton] at hr
    subst hr
    show SideUp ≠ SideDown
    decide
  · intro o ho
    rw [executeLeg1_success (b.ingest tk exc.CurrentTime) exc SideUp tk.PriceUp o ho]
    exact ⟨rfl, rfl⟩

set_option maxRecDepth 100000 in
/-- Witness for C5: after 0.50 / 0.50 at `t` and `t + 3 s`, both sides fall to
0.40 at `t + 4 s` with `MovePct = 0.10`; only UP is bought. -/
theorem up_wins_when_both_sides_dump_witness :
    (testBotPrimed.RunTick (mockVenue (4 * Second) (40 / 100) (40 / 100))).orders =
      [OrderRequest.mk "" SideUp 20 (40 / 100)] ∧
    (∀ r ∈ (testBotPrimed.RunTick (mockVenue (4 * Second) (40 / 100) (40 / 100))).orders,
      r.side ≠ SideDown) ∧
    (testBotPrimed.RunTick (mockVenue (4 * Second) (40 / 100) (40 / 100))).bot.state =
      StateLeg1Bought ∧
    (testBotPrimed.RunTick (mockVenue (4 * Second) (40 / 100) (40 / 100))).bot.leg1Side =
      SideUp := by
  have h := up_wins_when_both_sides_dump testBotPrimed
    (mockVenue (4 * Second) (40 / 100) (40 / 100))
    { MarketID := "mock-market", PriceUp := 40 / 100, PriceDown := 40 / 100,
      Timestamp := 4 * Second }
    (50 / 100) (50 / 100) (by with_unfolding_all decide) (by with_unfolding_all decide) rfl
    (by with_unfolding_all decide) (by with_unfolding_all decide) (by with_unfolding_all decide)
    (by with_unfolding_all decide) (by with_unfolding_all decide) (by with_unfolding_all decide)
  with_unfolding_all exact ⟨h.1, h.2.1, h.2.2 _ rfl⟩

set_option maxRecDepth 4000 in
/-- The dump test is on the rounded `float64` quotient. After 0.50 / 0.50 at `t`
and `t + 3 s` and with `MovePct = 0.10`, a fall from 0.50 to 0.45 gives the
quotient `(0.50 - 0.45) / 0.50 = 0.09999999999999998`, below the `float64` of
0.10: with UP at 0.45 and DOWN at 0.50 no order is sent; with UP at 0.45 and DOWN
at 0.40 the UP side fails the test and the single order is the DOWN order; with
UP at 0.50 and DOWN at 0.45 no order is sent. -/
theorem dump_test_uses_rounded_quotient :
    ((50 / 100 : F64) - 45 / 100) / (50 / 100) < 10 / 100 ∧
    (testBotPrimed.RunTick (mockVenue (4 * Second) (45 / 100) (50 / 100))).orders = [] ∧
    (testBotPrimed.RunTick (mockVenue (4 * Second) (45 / 100) (50 / 100))).bot.state =
      StateWatching ∧
    (testBotPrimed.RunTick (mockVenue (4 * Second) (45 / 100) (40 / 100))).orders =
      [OrderRequest.mk "" SideDown 20 (40 / 100)] ∧
    (testBotPrimed.RunTick (mockVenue (4 * Second) (50 / 100) (45 / 100))).orders = [] ∧
    (testBotPrimed.RunTick (mockVenue (4 * Second) (50 / 100) (45 / 100))).bot.state =
      StateWatching :=
  ⟨by with_unfolding_all decide, by with_unfolding_all rfl, by with_unfolding_all rfl,
    by with_unfolding_all rfl, by with_unfolding_all rfl, by with_unfolding_all rfl⟩

/-! ## Claim C6: window expiry -/

/-- A tick in state Watching after the entry window has closed submits nothing
and leaves the cycle context and the configuration as they were. -/
theorem RunTick_expired (b : Bot) (exc : Venue) (hs : b.state = StateWatching)
    (he : Time.Sub exc.CurrentTime b.roundStartTime > b.cfg.WindowMin) :
    (b.RunTick exc).orders = [] ∧ (b.RunTick exc).bot.state = StateWatching ∧
    (b.RunTick exc).bot.leg1Side = b.leg1Side ∧
    (b.RunTick exc).bot.leg1EntryPrice = b.leg1EntryPrice ∧
    (b.RunTick exc).bot.roundStartTime = b.roundStartTime ∧
    (b.RunTick exc).bot.cfg = b.cfg := by
  cases ht : exc.GetTicker b.cfg.MarketID with
  | none =>
    rw [RunTick_ticker_error b exc ht]
    exact ⟨rfl, hs, rfl, rfl, rfl, rfl⟩
  | some tk =>
    rw [RunTick_watching b exc tk hs ht]
    unfold Bot.checkLeg1
    simp only
    have he2 : Time.Sub exc.CurrentTime (b.ingest tk exc.CurrentTime).roundStartTime >
        (b.ingest tk exc.CurrentTime).cfg.WindowMin := he
    rw [if_pos he2]
    exact ⟨rfl, hs, rfl, rfl, rfl, rfl⟩

/-- A run of ticks in state Watching, all of them after the entry window has
closed, submits nothing and leaves the cycle context as it was. -/
theorem runTicks_expired (vs : List Venue) (b : Bot) (hs : b.state = StateWatching)
    (he : ∀ v ∈ vs, Time.Sub v.CurrentTime b.roundStartTime > b.cfg.WindowMin) :
    (runTicks b vs).2 = [] ∧ (runTicks b vs).1.state = StateWatching ∧
    (runTicks b vs).1.leg1Side = b.leg1Side ∧
    (runTicks b vs).1.leg1EntryPrice = b.leg1EntryPrice ∧
    (runTicks b vs).1.roundStartTime = b.roundStartTime := by
  induction vs generalizing b with
  | nil => exact ⟨rfl, hs, rfl, rfl, rfl⟩
  | cons v rest ih =>
    obtain ⟨ho, hst, hsd, hep, hrt, hcf⟩ := RunTick_expired b v hs (he v (List.mem_cons_self v rest))
    have ih2 := ih (b.RunTick v).bot hst (by
      intro u hu
      rw [hrt, hcf]
      exact he u (List.mem_cons_of_mem v hu))
    simp only [runTicks]
    rw [ho, List.nil_append]
    refine ⟨ih2.1, ih2.2.1, ?_, ?_, ?_⟩
    · rw [ih2.2.2.1, hsd]
    · rw [ih2.2.2.2.1, hep]
    · rw [ih2.2.2.2.2, hrt]

/-- Claim C6: for every tick taken in state Watching with elapsed
`now.Sub(roundStartTime) > WindowMin`, no order is placed and the cycle context
(state Watching, leg-1 side, entry price, roundStartTime) is unchanged, whatever
the ticker and the histories are; and every run of ticks with non-decreasing
times that starts with such a tick places no order and ends in Watching with
the same cycle context. -/
theorem window_expiry (b : Bot) (exc : Venue) (rest : List Venue)
    (hs : b.state = StateWatching)
    (he : Time.Sub exc.CurrentTime b.roundStartTime > b.cfg.WindowMin)
    (hmono : (exc :: rest).Pairwise (fun u v => u.CurrentTime ≤ v.CurrentTime)) :
    ((b.RunTick exc).orders = [] ∧ (b.RunTick exc).bot.state = StateWatching ∧
      (b.RunTick exc).bot.leg1Side = b.leg1Side ∧
      (b.RunTick exc).bot.leg1EntryPrice = b.leg1EntryPrice ∧
      (b.RunTick exc).bot.roundStartTime = b.roundStartTime) ∧
    ((runTicks b (exc :: rest)).2 = [] ∧ (runTicks b (exc :: rest)).1.state = StateWatching ∧
      (runTicks b (exc :: rest)).1.leg1Side = b.leg1Side ∧
      (runTicks b (exc :: rest)).1.leg1EntryPrice = b.leg1EntryPrice ∧
      (runTicks b (exc :: rest)).1.roundStartTime = b.roundStartTime) := by
  have h1 := RunTick_expired b exc hs he
  refine ⟨⟨h1.1, h1.2.1, h1.2.2.1, h1.2.2.2.1, h1.2.2.2.2.1⟩, ?_⟩
  apply runTicks_expired (exc :: rest) b hs
  intro v hv
  rcases List.mem_cons.mp hv with rfl | hv
  · exact he
  · have hle := (List.pairwise_cons.mp hmono).1 v hv
    exact lt_of_lt_of_le he (Time.Sub_mono_left _ _ _ hle)

set_option maxRecDepth 100000 in
/-- Witness for C6: at `t = 121 s` the window of 120 s has closed; UP has fallen
from 0.50 to 0.30 within 3 s (a 40% drop against `MovePct = 0.15`), yet this
tick and the next one place no order and stay in Watching. -/
theorem window_expiry_witness :
    (0 < (lateBot.bufferUp.Add (30 / 100) (121 * Second)).GetPriceAgo (3 * Second)
        (121 * Second) ∧
      ((lateBot.bufferUp.Add (30 / 100) (121 * Second)).GetPriceAgo (3 * Second)
          (121 * Second) - 30 / 100) /
        (lateBot.bufferUp.Add (30 / 100) (121 * Second)).GetPriceAgo (3 * Second)
          (121 * Second) ≥ lateBot.cfg.MovePct) ∧
    (runTicks lateBot [mockVenue (121 * Second) (30 / 100) (50 / 100),
      mockVenue (122 * Second) (30 / 100) (50 / 100)]).2 = [] ∧
    (runTicks lateBot [mockVenue (121 * Second) (30 / 100) (50 / 100),
      mockVenue (122 * Second) (30 / 100) (50 / 100)]).1.state = StateWatching := by
  have h := window_expiry lateBot (mockVenue (121 * Second) (30 / 100) (50 / 100))
    [mockVenue (122 * Second) (30 / 100) (50 / 100)]
    (by with_unfolding_all decide) (by with_unfolding_all decide) (by decide)
  exact ⟨by with_unfolding_all decide, h.2.1, h.2.2.1⟩

/-! ## Claims C7 to C10: the Leg-2 hedge -/

theorem checkLeg2_eq (b : Bot) (exc : Venue) (tk : Ticker) :
    b.checkLeg2 exc tk =
      if b.leg1EntryPrice + oppositePrice b.leg1Side tk ≤ b.cfg.SumTarget then
        b.executeLeg2 exc (oppositeSide b.leg1Side) (oppositePrice b.leg1Side tk)
      else { bot := b, orders := [], report := none } := by
  unfold Bot.checkLeg2 oppositeSide oppositePrice
  by_cases h : b.leg1Side = SideUp <;> simp only [h, if_true, if_false]

theorem executeLeg2_orders (b : Bot) (exc : Venue) (side : Side) (price : F64) :
    (b.executeLeg2 exc side price).orders =
      [OrderRequest.mk b.cfg.MarketID side b.cfg.Shares price] := by
  unfold Bot.executeLeg2
  cases exc.PlaceOrder b.cfg.MarketID side b.cfg.Shares price <;> rfl

theorem executeLeg2_success (b : Bot) (exc : Venue) (side : Side) (price : F64) (o : Order)
    (ho : exc.PlaceOrder b.cfg.MarketID side b.cfg.Shares price = some o) :
    b.executeLeg2 exc side price =
      { bot := { b with state := StateDone }
        orders := [OrderRequest.mk b.cfg.MarketID side b.cfg.Shares price]
        report := some
          { totalCost := b.leg1EntryPrice + o.Price
            profit := 1 - (b.leg1EntryPrice + o.Price)
            roi := ((1 - (b.leg1EntryPrice + o.Price)) / (b.leg1EntryPrice + o.Price)) * 100 } } := by
  unfold Bot.executeLeg2
  simp only [ho]

theorem executeLeg2_failure (b : Bot) (exc : Venue) (side : Side) (price : F64)
    (ho : exc.PlaceOrder b.cfg.MarketID side b.cfg.Shares price = none) :
    b.executeLeg2 exc side price =
      { bot := b
        orders := [OrderRequest.mk b.cfg.MarketID side b.cfg.Shares price]
        report := none } := by
  unfold Bot.executeLeg2
  simp only [ho]

/-- A tick in state Leg1Bought whose sum of entry price and opposite price is at
most `SumTarget` runs `executeLeg2` on the opposite side at the opposite
price. -/
theorem RunTick_on_hedge (b : Bot) (exc : Venue) (tk : Ticker)
    (hs : b.state = StateLeg1Bought) (ht : exc.GetTicker b.cfg.MarketID = some tk)
    (hsum : b.leg1EntryPrice + oppositePrice b.leg1Side tk ≤ b.cfg.SumTarget) :
    b.RunTick exc =
      (b.ingest tk exc.CurrentTime).executeLeg2 exc (oppositeSide b.leg1Side)
        (oppositePrice b.leg1Side tk) := by
  rw [RunTick_leg1Bought b exc tk hs ht, checkLeg2_eq]
  exact if_pos hsum

set_option maxRecDepth 4000 in
/-- Claim C7 as stated is false at its boundary witness: with Leg1Bought(UP, 0.40),
DOWN = 0.55 and `SumTarget = 0.95` the engine sends no order and stays in
Leg1Bought. The `float64` sum of 0.40 and 0.55 is `0x3FEE666666666667`
(0.9500000000000001), one unit in the last place above the `float64` of 0.95,
`0x3FEE666666666666`, so the test `currentSum <= SumTarget` fails. -/
theorem leg2_hedge_boundary_witness_fails :
    (40 / 100 : F64) + 55 / 100 = F64.ofBits 0x3FEE666666666667 ∧
    (95 / 100 : F64) = F64.ofBits 0x3FEE666666666666 ∧
    ¬ ((40 / 100 : F64) + 55 / 100 ≤ 95 / 100) ∧
    ((leg1BoughtBot { DefaultConfig with SumTarget := 95 / 100 } SideUp (40 / 100)).RunTick
        (mockVenue (4 * Second) (40 / 100) (55 / 100))).orders = [] ∧
    ((leg1BoughtBot { DefaultConfig with SumTarget := 95 / 100 } SideUp (40 / 100)).RunTick
        (mockVenue (4 * Second) (40 / 100) (55 / 100))).bot.state = StateLeg1Bought := by
  have hn : ¬ ((40 / 100 : F64) + 55 / 100 ≤ 95 / 100) := by with_unfolding_all decide
  have hr : (leg1BoughtBot { DefaultConfig with SumTarget := 95 / 100 } SideUp (40 / 100)).RunTick
      (mockVenue (4 * Second) (40 / 100) (55 / 100)) =
      { bot := (leg1BoughtBot { DefaultConfig with SumTarget := 95 / 100 } SideUp
          (40 / 100)).ingest
            { MarketID := "mock-market", PriceUp := 40 / 100, PriceDown := 55 / 100,
              Timestamp := 4 * Second } (4 * Second)
        orders := [], report := none } := by
    rw [RunTick_leg1Bought _ _
      { MarketID := "mock-market", PriceUp := 40 / 100, PriceDown := 55 / 100,
        Timestamp := 4 * Second } rfl rfl, checkLeg2_eq]
    exact if_neg hn
  refine ⟨by with_unfolding_all rfl, by with_unfolding_all rfl, hn, ?_, ?_⟩
  · rw [hr]
  · rw [hr]
    rfl

/-- Claim C7 (amended): for every tick taken in state Leg1Bought with a successful
ticker fetch, where the opposite side is DOWN with price `PriceDown` if leg 1 is
UP and UP with price `PriceUp` if leg 1 is DOWN: if the `float64` sum of entry
price and opposite price, as the engine computes it, is at most `SumTarget`, the
engine submits exactly one order, a buy of the opposite side with size `Shares`
at the opposite price, and when that order succeeds the state after the tick is
Done. -/
theorem leg2_hedge (b : Bot) (exc : Venue) (tk : Ticker)
    (hs : b.state = StateLeg1Bought) (ht : exc.GetTicker b.cfg.MarketID = some tk)
    (hsum : b.leg1EntryPrice + oppositePrice b.leg1Side tk ≤ b.cfg.SumTarget) :
    (b.leg1Side = SideUp →
      oppositeSide b.leg1Side = SideDown ∧ oppositePrice b.leg1Side tk = tk.PriceDown) ∧
    (b.leg1Side = SideDown →
      oppositeSide b.leg1Side = SideUp ∧ oppositePrice b.leg1Side tk = tk.PriceUp) ∧
    (b.RunTick exc).orders =
      [OrderRequest.mk b.cfg.MarketID (oppositeSide b.leg1Side) b.cfg.Shares
        (oppositePrice b.leg1Side tk)] ∧
    ∀ o, exc.PlaceOrder b.cfg.MarketID (oppositeSide b.leg1Side) b.cfg.Shares
        (oppositePrice b.leg1Side tk) = some o →
      (b.RunTick exc).bot.state = StateDone := by
  refine ⟨?_, ?_, ?_, ?_⟩
  · intro h
    rw [h]
    exact ⟨rfl, rfl⟩
  · intro h
    rw [h]
    exact ⟨rfl, rfl⟩
  · rw [RunTick_on_hedge b exc tk hs ht hsum]
    exact executeLeg2_orders _ _ _ _
  · intro o ho
    rw [RunTick_on_hedge b exc tk hs ht hsum,
      executeLeg2_success (b.ingest tk exc.CurrentTime) exc _ _ o ho]

set_option maxRecDepth 4000 in
/-- Witness for C7 (amended): Leg1Bought(UP, 0.40) and DOWN = 0.55 with
`SumTarget = 0.96` as in the test; and the boundary, sum equal to the target,
where the sum is exact in `float64`: Leg1Bought(UP, 0.25), DOWN = 0.50 and
`SumTarget = 0.75`. -/
theorem leg2_hedge_witness :
    (testBotLeg1.RunTick (mockVenue (4 * Second) (40 / 100) (55 / 100))).orders =
      [OrderRequest.mk "" SideDown 20 (55 / 100)] ∧
    (testBotLeg1.RunTick (mockVenue (4 * Second) (40 / 100) (55 / 100))).bot.state = StateDone ∧
    (25 / 100 : F64) + 50 / 100 = 75 / 100 ∧
    ((leg1BoughtBot { DefaultConfig with SumTarget := 75 / 100 } SideUp (25 / 100)).RunTick
        (mockVenue (4 * Second) (25 / 100) (50 / 100))).orders =
      [OrderRequest.mk "" SideDown 20 (50 / 100)] ∧
    ((leg1BoughtBot { DefaultConfig with SumTarget := 75 / 100 } SideUp (25 / 100)).RunTick
        (mockVenue (4 * Second) (25 / 100) (50 / 100))).bot.state = StateDone := by
  have h := leg2_hedge testBotLeg1
    (mockVenue (4 * Second) (40 / 100) (55 / 100))
    { MarketID := "mock-market", PriceUp := 40 / 100, PriceDown := 55 / 100,
      Timestamp := 4 * Second }
    rfl rfl (by with_unfolding_all decide)
  have h2 := leg2_hedge (leg1BoughtBot { DefaultConfig with SumTarget := 75 / 100 } SideUp (25 / 100))
    (mockVenue (4 * Second) (25 / 100) (50 / 100))
    { MarketID := "mock-market", PriceUp := 25 / 100, PriceDown := 50 / 100,
      Timestamp := 4 * Second }
    rfl rfl (by with_unfolding_all decide)
  with_unfolding_all exact ⟨h.2.2.1, h.2.2.2 _ rfl, by with_unfolding_all rfl, h2.2.2.1,
    h2.2.2.2 _ rfl⟩

/-- Claim C8: for every tick taken in state Leg1Bought with a successful ticker
fetch in which entry price plus opposite price, the `float64` sum the engine
computes, exceeds `SumTarget`, no order is placed and the cycle context is
unchanged: the state stays Leg1Bought with the same side, entry price and
roundStartTime. Neither the time of the tick nor roundStartTime is constrained:
the hedge wait has no timeout. -/
theorem no_hedge_above_target (b : Bot) (exc : Venue) (tk : Ticker)
    (hs : b.state = StateLeg1Bought) (ht : exc.GetTicker b.cfg.MarketID = some tk)
    (hsum : b.leg1EntryPrice + oppositePrice b.leg1Side tk > b.cfg.SumTarget) :
    (b.leg1Side = SideUp → oppositePrice b.leg1Side tk = tk.PriceDown) ∧
    (b.leg1Side = SideDown → oppositePrice b.leg1Side tk = tk.PriceUp) ∧
    (b.RunTick exc).orders = [] ∧ (b.RunTick exc).bot.state = StateLeg1Bought ∧
    (b.RunTick exc).bot.leg1Side = b.leg1Side ∧
    (b.RunTick exc).bot.leg1EntryPrice = b.leg1EntryPrice ∧
    (b.RunTick exc).bot.roundStartTime = b.roundStartTime := by
  refine ⟨?_, ?_, ?_⟩
  · intro h
    rw [h]
    rfl
  · intro h
    rw [h]
    rfl
  · rw [RunTick_leg1Bought b exc tk hs ht, checkLeg2_eq]
    have hn : ¬ ((b.ingest tk exc.CurrentTime).leg1EntryPrice +
        oppositePrice (b.ingest tk exc.CurrentTime).leg1Side tk ≤
        (b.ingest tk exc.CurrentTime).cfg.SumTarget) := F64.not_le_of_lt _ _ hsum
    rw [if_neg hn]
    exact ⟨rfl, hs, rfl, rfl, rfl⟩

set_option maxRecDepth 4000 in
/-- Witness for C8: Leg1Bought(UP, 0.40) with `SumTarget = 0.95`, DOWN = 0.60, one
hour after the round started. -/
theorem no_hedge_above_target_witness :
    ((leg1BoughtBot DefaultConfig SideUp (40 / 100)).RunTick
        (mockVenue Hour (40 / 100) (60 / 100))).orders = [] ∧
    ((leg1BoughtBot DefaultConfig SideUp (40 / 100)).RunTick
        (mockVenue Hour (40 / 100) (60 / 100))).bot.state = StateLeg1Bought := by
  have h := no_hedge_above_target (leg1BoughtBot DefaultConfig SideUp (40 / 100))
    (mockVenue Hour (40 / 100) (60 / 100))
    { MarketID := "mock-market", PriceUp := 40 / 100, PriceDown := 60 / 100, Timestamp := Hour }
    rfl rfl (by with_unfolding_all decide)
  exact ⟨h.2.2.1, h.2.2.2.1⟩

set_option maxRecDepth 4000 in
/-- The sum that `checkLeg2` compares is the rounded `float64` sum, not the real
sum: with entry 0.5, DOWN = `2 ^ (-54)` and `SumTarget = 0.5` the real sum is
above the target, the `float64` sum is 0.5, and the hedge order is sent. -/
theorem hedge_sent_when_sum_rounds_onto_target :
    ((1 / 2 : F64).toRat + (1 / 18014398509481984 : F64).toRat > (1 / 2 : F64).toRat) ∧
    (1 / 2 : F64) + 1 / 18014398509481984 = 1 / 2 ∧
    ((leg1BoughtBot { DefaultConfig with SumTarget := 1 / 2 } SideUp (1 / 2)).RunTick
        (mockVenue (4 * Second) (1 / 2) (1 / 18014398509481984))).orders =
      [OrderRequest.mk "" SideDown 20 (1 / 18014398509481984)] := by
  refine ⟨by with_unfolding_all decide, by with_unfolding_all decide, ?_⟩
  rw [RunTick_on_hedge _ _
    { MarketID := "mock-market", PriceUp := 1 / 2, PriceDown := 1 / 18014398509481984,
      Timestamp := 4 * Second } rfl rfl (by with_unfolding_all decide)]
  exact executeLeg2_orders _ _ _ _

set_option maxRecDepth 4000 in
/-- Claim C9 as stated is false for the ROI: the figure reported is not
`100 * profit / totalCost` in general. The engine computes
`(profit / totalCost) * 100`, and in `float64` the two expressions round
differently. With entry 0.40 and a fill at 0.35 the total cost is 0.75 and the
profit 0.25; the engine reports `0x4040AAAAAAAAAAAA` (33.33333333333333), while
`100 * profit / totalCost` is `0x4040AAAAAAAAAAAB` (33.333333333333336) in
`float64` and `100 / 3` in exact arithmetic. -/
theorem realized_economics_roi_formula_fails :
    (¬ ∀ (b : Bot) (exc : Venue) (tk : Ticker) (o : Order),
        b.state = StateLeg1Bought → exc.GetTicker b.cfg.MarketID = some tk →
        b.leg1EntryPrice + oppositePrice b.leg1Side tk ≤ b.cfg.SumTarget →
        exc.PlaceOrder b.cfg.MarketID (oppositeSide b.leg1Side) b.cfg.Shares
          (oppositePrice b.leg1Side tk) = some o →
        (b.RunTick exc).report = some
          { totalCost := b.leg1EntryPrice + o.Price
            profit := 1 - (b.leg1EntryPrice + o.Price)
            roi := 100 * (1 - (b.leg1EntryPrice + o.Price)) / (b.leg1EntryPrice + o.Price) }) ∧
    ∃ e, ((leg1BoughtBot DefaultConfig SideUp (40 / 100)).RunTick
        (mockVenue (4 * Second) (40 / 100) (35 / 100))).report = some e ∧
      e.totalCost.toRat = 3 / 4 ∧ e.profit.toRat = 1 / 4 ∧
      e.roi = F64.ofBits 0x4040AAAAAAAAAAAA ∧
      100 * e.profit / e.totalCost = F64.ofBits 0x4040AAAAAAAAAAAB ∧
      e.roi.toRat ≠ 100 * e.profit.toRat / e.totalCost.toRat := by
  have hsum : (leg1BoughtBot DefaultConfig SideUp (40 / 100)).leg1EntryPrice +
      oppositePrice (leg1BoughtBot DefaultConfig SideUp (40 / 100)).leg1Side
        { MarketID := "mock-market", PriceUp := 40 / 100, PriceDown := 35 / 100,
          Timestamp := 4 * Second } ≤
      (leg1BoughtBot DefaultConfig SideUp (40 / 100)).cfg.SumTarget := by
    with_unfolding_all decide
  have hr := (RunTick_on_hedge (leg1BoughtBot DefaultConfig SideUp (40 / 100))
    (mockVenue (4 * Second) (40 / 100) (35 / 100)) _ rfl rfl hsum).trans
    (executeLeg2_success _ _ _ _
      { ID := "mock-order-id", MarketID := "", Side := SideDown, Price := 35 / 100, Size := 20,
        Timestamp := 4 * Second } (by with_unfolding_all rfl))
  constructor
  · intro h
    have h1 := h (leg1BoughtBot DefaultConfig SideUp (40 / 100))
      (mockVenue (4 * Second) (40 / 100) (35 / 100))
      { MarketID := "mock-market", PriceUp := 40 / 100, PriceDown := 35 / 100,
        Timestamp := 4 * Second }
      { ID := "mock-order-id", MarketID := "", Side := SideDown, Price := 35 / 100, Size := 20,
        Timestamp := 4 * Second }
      rfl rfl hsum (by with_unfolding_all rfl)
    rw [hr] at h1
    have h2 : (1 - ((40 / 100 : F64) + 35 / 100)) / ((40 / 100 : F64) + 35 / 100) * 100 =
        100 * (1 - ((40 / 100 : F64) + 35 / 100)) / ((40 / 100 : F64) + 35 / 100) :=
      congrArg Economics.roi (Option.some.inj h1)
    exact absurd (congrArg F64.toBits h2) (by with_unfolding_all decide)
  · rw [hr]
    exact ⟨_, rfl, by with_unfolding_all decide, by with_unfolding_all decide,
      by with_unfolding_all rfl, by with_unfolding_all rfl, by with_unfolding_all decide⟩

/-- Claim C9 (amended): whenever Leg 2 executes successfully with leg-1 entry
price `e` and the venue returns an order with fill price `f`, the tick ends in
Done and the figures reported are the `float64` values `totalCost = e + f`,
`profit = 1 - totalCost` and `roi = (profit / totalCost) * 100`, each operation
rounded, in this order, computed from the fill price of the returned order and
not from the requested price. -/
theorem realized_economics (b : Bot) (exc : Venue) (tk : Ticker) (o : Order)
    (hs : b.state = StateLeg1Bought) (ht : exc.GetTicker b.cfg.MarketID = some tk)
    (hsum : b.leg1EntryPrice + oppositePrice b.leg1Side tk ≤ b.cfg.SumTarget)
    (ho : exc.PlaceOrder b.cfg.MarketID (oppositeSide b.leg1Side) b.cfg.Shares
      (oppositePrice b.leg1Side tk) = some o) :
    (b.RunTick exc).bot.state = StateDone ∧
    (b.RunTick exc).report = some
      { totalCost := b.leg1EntryPrice + o.Price
        profit := 1 - (b.leg1EntryPrice + o.Price)
        roi := (1 - (b.leg1EntryPrice + o.Price)) / (b.leg1EntryPrice + o.Price) * 100 } := by
  rw [RunTick_on_hedge b exc tk hs ht hsum,
    executeLeg2_success (b.ingest tk exc.CurrentTime) exc _ _ o ho]
  exact ⟨rfl, rfl⟩

set_option maxRecDepth 4000 in
/-- Witness for C9 (amended): entry 0.40, DOWN quoted at 0.50 and filled at 0.55
give `totalCost = 0x3FEE666666666667` (0.9500000000000001),
`profit = 0x3FA9999999999990` (0.04999999999999993) and
`roi = 0x40150D79435E50CF` (5.2631578947368345): the figures 0.95, 0.05 and
100/19 of exact arithmetic up to rounding, computed from the fill price. -/
theorem realized_economics_witness :
    ((leg1BoughtBot DefaultConfig SideUp (40 / 100)).RunTick
        (fillVenue (4 * Second) (40 / 100) (50 / 100) (55 / 100))).report =
      some { totalCost := F64.ofBits 0x3FEE666666666667
             profit := F64.ofBits 0x3FA9999999999990
             roi := F64.ofBits 0x40150D79435E50CF } := by
  have h := realized_economics (leg1BoughtBot DefaultConfig SideUp (40 / 100))
    (fillVenue (4 * Second) (40 / 100) (50 / 100) (55 / 100))
    { MarketID := "m", PriceUp := 40 / 100, PriceDown := 50 / 100, Timestamp := 4 * Second }
    { ID := "id", MarketID := "", Side := SideDown, Price := 55 / 100, Size := 20,
      Timestamp := 4 * Second }
    rfl rfl (by with_unfolding_all decide) (by with_unfolding_all rfl)
  rw [h.2]
  have e1 : (40 / 100 : F64) + 55 / 100 = F64.ofBits 0x3FEE666666666667 := by
    with_unfolding_all rfl
  have e2 : (1 : F64) - F64.ofBits 0x3FEE666666666667 = F64.ofBits 0x3FA9999999999990 := by
    with_unfolding_all rfl
  have e3 : F64.ofBits 0x3FA9999999999990 / F64.ofBits 0x3FEE666666666667 * 100 =
      F64.ofBits 0x40150D79435E50CF := by with_unfolding_all rfl
  show some (Economics.mk ((40 / 100 : F64) + 55 / 100) (1 - ((40 / 100 : F64) + 55 / 100))
    ((1 - ((40 / 100 : F64) + 55 / 100)) / ((40 / 100 : F64) + 55 / 100) * 100)) = _
  rw [e1, e2, e3]

set_option maxRecDepth 4000 in
/-- With a total cost of zero (entry 0, fill 0) the division is by zero and the
ROI reported is `+Inf`. -/
theorem realized_economics_zero_cost :
    ((leg1BoughtBot DefaultConfig SideUp 0).RunTick
        (fillVenue (4 * Second) (40 / 100) (50 / 100) 0)).report =
      some { totalCost := 0, profit := 1, roi := F64.inf false } := by
  rw [RunTick_on_hedge _ _
    { MarketID := "m", PriceUp := 40 / 100, PriceDown := 50 / 100, Timestamp := 4 * Second }
    rfl rfl (by with_unfolding_all decide),
    executeLeg2_success _ _ _ _
      { ID := "id", MarketID := "", Side := SideDown, Price := 0, Size := 20,
        Timestamp := 4 * Second } (by with_unfolding_all rfl)]
  have e1 : (0 : F64) + 0 = 0 := by with_unfolding_all rfl
  have e2 : (1 : F64) - 0 = 1 := by with_unfolding_all rfl
  have e3 : (1 : F64) / 0 * 100 = F64.inf false := by with_unfolding_all rfl
  show some (Economics.mk ((0 : F64) + 0) (1 - ((0 : F64) + 0))
    ((1 - ((0 : F64) + 0)) / ((0 : F64) + 0) * 100)) = _
  rw [e1, e2, e3]

/-- A tick from Leg1Bought that ends in Done had a ticker, met the hedge
condition on the quoted opposite price, and received an order from the venue. -/
theorem RunTick_done_inv (b : Bot) (exc : Venue) (hs : b.state = StateLeg1Bought)
    (hd : (b.RunTick exc).bot.state = StateDone) :
    ∃ tk o, exc.GetTicker b.cfg.MarketID = some tk ∧
      b.leg1EntryPrice + oppositePrice b.leg1Side tk ≤ b.cfg.SumTarget ∧
      exc.PlaceOrder b.cfg.MarketID (oppositeSide b.leg1Side) b.cfg.Shares
        (oppositePrice b.leg1Side tk) = some o := by
  cases ht : exc.GetTicker b.cfg.MarketID with
  | none =>
    rw [RunTick_ticker_error b exc ht] at hd
    rw [hs] at hd
    exact absurd hd (by decide)
  | some tk =>
    by_cases hsum : b.leg1EntryPrice + oppositePrice b.leg1Side tk ≤ b.cfg.SumTarget
    · cases ho : exc.PlaceOrder b.cfg.MarketID (oppositeSide b.leg1Side) b.cfg.Shares
          (oppositePrice b.leg1Side tk) with
      | none =>
        rw [RunTick_on_hedge b exc tk hs ht hsum,
          executeLeg2_failure (b.ingest tk exc.CurrentTime) exc _ _ ho] at hd
        change b.state = StateDone at hd
        rw [hs] at hd
        exact absurd hd (by decide)
      | some o => exact ⟨tk, o, rfl, hsum, ho⟩
    · rw [RunTick_leg1Bought b exc tk hs ht, checkLeg2_eq] at hd
      have hn : ¬ ((b.ingest tk exc.CurrentTime).leg1EntryPrice +
          oppositePrice (b.ingest tk exc.CurrentTime).leg1Side tk ≤
          (b.ingest tk exc.CurrentTime).cfg.SumTarget) := hsum
      rw [if_neg hn] at hd
      change b.state = StateDone at hd
      rw [hs] at hd
      exact absurd hd (by decide)

set_option maxRecDepth 4000 in
/-- Claim C10 as stated is false: it is not the case that for every venue
behaviour a tick that completes Leg 2 reports a total cost at or below
`SumTarget` and, when `SumTarget < 1`, a positive profit per share. The hedge
condition is tested on the quoted opposite price before the order is sent; the
total cost uses the fill price returned. With entry 0.40, DOWN quoted at 0.55,
`SumTarget = 0.96` (the `float64` sum 0.9500000000000001 is below it, so the
hedge is sent) and a venue filling at 0.70, the tick ends in Done with total
cost 1.1 and a negative profit. -/
theorem hedge_profit_fails_when_fill_exceeds_quote :
    ¬ ∀ (b : Bot) (exc : Venue), b.state = StateLeg1Bought →
        (b.RunTick exc).bot.state = StateDone →
        ∃ e, (b.RunTick exc).report = some e ∧ e.totalCost ≤ b.cfg.SumTarget ∧
          (b.cfg.SumTarget < 1 → 0 < e.profit) := by
  intro h
  have hsum : testBotLeg1.leg1EntryPrice + oppositePrice testBotLeg1.leg1Side
      { MarketID := "m", PriceUp := 40 / 100, PriceDown := 55 / 100,
        Timestamp := 4 * Second } ≤ testBotLeg1.cfg.SumTarget := by
    with_unfolding_all decide
  have ho : (fillVenue (4 * Second) (40 / 100) (55 / 100) (70 / 100)).PlaceOrder
      testBotLeg1.cfg.MarketID (oppositeSide testBotLeg1.leg1Side) testBotLeg1.cfg.Shares
      (oppositePrice testBotLeg1.leg1Side
        { MarketID := "m", PriceUp := 40 / 100, PriceDown := 55 / 100,
          Timestamp := 4 * Second }) =
      some { ID := "id", MarketID := "", Side := SideDown, Price := 70 / 100, Size := 20,
             Timestamp := 4 * Second } := by
    with_unfolding_all rfl
  have hr := (RunTick_on_hedge testBotLeg1
    (fillVenue (4 * Second) (40 / 100) (55 / 100) (70 / 100)) _ rfl rfl hsum).trans
    (executeLeg2_success _ _ _ _ _ ho)
  obtain ⟨e, he, hle, _⟩ := h testBotLeg1
    (fillVenue (4 * Second) (40 / 100) (55 / 100) (70 / 100)) rfl (by rw [hr])
  rw [hr] at he
  have he2 := Option.some.inj he
  rw [← he2] at hle
  have hn : ¬ ((40 / 100 : F64) + 70 / 100 ≤ 96 / 100) := by with_unfolding_all decide
  exact hn hle

/-- Claim C10 (amended): whenever a tick completes Leg 2 (from Leg1Bought to
Done), the venue returned an order for the request at the quoted opposite
price, the entry price plus that quoted price is at or below `SumTarget`, and
the reported total cost is entry price plus fill price; so if the venue fills at
no more than the requested price and `SumTarget < 1`, the total cost is at or
below `SumTarget` and the reported profit per share `1 - totalCost` is strictly
positive. All sums, differences and comparisons are those of `float64`. -/
theorem hedge_profit_when_fill_at_most_quote (b : Bot) (exc : Venue)
    (hs : b.state = StateLeg1Bought) (hd : (b.RunTick exc).bot.state = StateDone) :
    ∃ tk o e, exc.GetTicker b.cfg.MarketID = some tk ∧
      exc.PlaceOrder b.cfg.MarketID (oppositeSide b.leg1Side) b.cfg.Shares
        (oppositePrice b.leg1Side tk) = some o ∧
      (b.RunTick exc).report = some e ∧
      e.totalCost = b.leg1EntryPrice + o.Price ∧ e.profit = 1 - e.totalCost ∧
      b.leg1EntryPrice + oppositePrice b.leg1Side tk ≤ b.cfg.SumTarget ∧
      (o.Price ≤ oppositePrice b.leg1Side tk → b.cfg.SumTarget < 1 →
        e.totalCost ≤ b.cfg.SumTarget ∧ 0 < e.profit) := by
  obtain ⟨tk, o, ht, hsum, ho⟩ := RunTick_done_inv b exc hs hd
  refine ⟨tk, o,
    { totalCost := b.leg1EntryPrice + o.Price
      profit := 1 - (b.leg1EntryPrice + o.Price)
      roi := ((1 - (b.leg1EntryPrice + o.Price)) / (b.leg1EntryPrice + o.Price)) * 100 },
    ht, ho, ?_, rfl, rfl, hsum, ?_⟩
  · rw [RunTick_on_hedge b exc tk hs ht hsum,
      executeLeg2_success (b.ingest tk exc.CurrentTime) exc _ _ o ho]
    rfl
  · intro hfill h1
    have hle : b.leg1EntryPrice + o.Price ≤ b.cfg.SumTarget :=
      F64.add_le_of_le _ _ _ _ hfill hsum h1
    refine ⟨hle, ?_⟩
    show 0 < 1 - (b.leg1EntryPrice + o.Price)
    exact F64.one_sub_pos _ (F64.lt_of_le_of_lt_f64 _ _ _ hle h1)

set_option maxRecDepth 4000 in
/-- Witness for C10 (amended): Leg1Bought(UP, 0.40), DOWN = 0.55, `SumTarget =
0.96`, on the simulated venue, which fills at the requested price. -/
theorem hedge_profit_when_fill_at_most_quote_witness :
    testBotLeg1.state = StateLeg1Bought ∧
    (testBotLeg1.RunTick (mockVenue (4 * Second) (40 / 100) (55 / 100))).bot.state = StateDone ∧
    ∃ tk o e,
      (mockVenue (4 * Second) (40 / 100) (55 / 100)).GetTicker testBotLeg1.cfg.MarketID =
        some tk ∧
      (mockVenue (4 * Second) (40 / 100) (55 / 100)).PlaceOrder testBotLeg1.cfg.MarketID
        (oppositeSide testBotLeg1.leg1Side) testBotLeg1.cfg.Shares
        (oppositePrice testBotLeg1.leg1Side tk) = some o ∧
      (testBotLeg1.RunTick (mockVenue (4 * Second) (40 / 100) (55 / 100))).report = some e ∧
      e.totalCost = testBotLeg1.leg1EntryPrice + o.Price ∧ e.profit = 1 - e.totalCost ∧
      testBotLeg1.leg1EntryPrice + oppositePrice testBotLeg1.leg1Side tk ≤
        testBotLeg1.cfg.SumTarget ∧
      (o.Price ≤ oppositePrice testBotLeg1.leg1Side tk → testBotLeg1.cfg.SumTarget < 1 →
        e.totalCost ≤ testBotLeg1.cfg.SumTarget ∧ 0 < e.profit) :=
  ⟨rfl, by with_unfolding_all rfl,
    hedge_profit_when_fill_at_most_quote testBotLeg1
      (mockVenue (4 * Second) (40 / 100) (55 / 100)) rfl (by with_unfolding_all rfl)⟩

/-! ## The engine: the shapes of one tick -/

theorem executeLeg1_failure (b : Bot) (exc : Venue) (side : Side) (price : F64)
    (ho : exc.PlaceOrder b.cfg.MarketID side b.cfg.Shares price = none) :
    b.executeLeg1 exc side price =
      { bot := b
        orders := [OrderRequest.mk b.cfg.MarketID side b.cfg.Shares price]
        report := none } := by
  unfold Bot.executeLeg1
  simp only [ho]

theorem executeLeg1_success_result (b : Bot) (exc : Venue) (side : Side) (price : F64)
    (o : Order) (ho : exc.PlaceOrder b.cfg.MarketID side b.cfg.Shares price = some o) :
    b.executeLeg1 exc side price =
      { bot := { b with leg1Side := side, leg1EntryPrice := o.Price, state := StateLeg1Bought }
        orders := [OrderRequest.mk b.cfg.MarketID side b.cfg.Shares price]
        report := none } := by
  unfold Bot.executeLeg1
  simp only [ho]

/-- Every tick has one of four shapes: the ticker fetch failed and nothing
happened; the samples were appended and no order was sent; the samples were
appended and `executeLeg1` ran from Watching, for side UP at the UP price or
for side DOWN at the DOWN price; the samples were appended and `executeLeg2` ran
from Leg1Bought on the opposite side at the opposite price. -/
theorem RunTick_cases (b : Bot) (exc : Venue) :
    (exc.GetTicker b.cfg.MarketID = none ∧
      b.RunTick exc = { bot := b, orders := [], report := none }) ∨
    (∃ tk, exc.GetTicker b.cfg.MarketID = some tk ∧
      b.RunTick exc = { bot := b.ingest tk exc.CurrentTime, orders := [], report := none }) ∨
    (∃ tk, exc.GetTicker b.cfg.MarketID = some tk ∧ b.state = StateWatching ∧
      (b.RunTick exc = (b.ingest tk exc.CurrentTime).executeLeg1 exc SideUp tk.PriceUp ∨
        b.RunTick exc = (b.ingest tk exc.CurrentTime).executeLeg1 exc SideDown tk.PriceDown)) ∨
    (∃ tk, exc.GetTicker b.cfg.MarketID = some tk ∧ b.state = StateLeg1Bought ∧
      b.RunTick exc = (b.ingest tk exc.CurrentTime).executeLeg2 exc (oppositeSide b.leg1Side)
        (oppositePrice b.leg1Side tk)) := by
  cases ht : exc.GetTicker b.cfg.MarketID with
  | none => exact Or.inl ⟨rfl, RunTick_ticker_error b exc ht⟩
  | some tk =>
    cases hs : b.state with
    | StateWatching =>
      rw [RunTick_watching b exc tk hs ht]
      unfold Bot.checkLeg1
      simp only
      split_ifs
      · exact Or.inr (Or.inl ⟨tk, rfl, rfl⟩)
      · exact Or.inr (Or.inr (Or.inl ⟨tk, rfl, trivial, Or.inl rfl⟩))
      · exact Or.inr (Or.inr (Or.inl ⟨tk, rfl, trivial, Or.inr rfl⟩))
      · exact Or.inr (Or.inl ⟨tk, rfl, rfl⟩)
    | StateLeg1Bought =>
      rw [RunTick_leg1Bought b exc tk hs ht, checkLeg2_eq]
      split_ifs
      · exact Or.inr (Or.inr (Or.inr ⟨tk, rfl, rfl, rfl⟩))
      · exact Or.inr (Or.inl ⟨tk, rfl, rfl⟩)
    | StateDone =>
      rw [RunTick_done b exc tk hs ht]
      exact Or.inr (Or.inl ⟨tk, rfl, rfl⟩)

/-! ## Claims C11 and C12: `ResetCycle` -/

/-- Claim C11: for every bot, whatever its state and leg-1 fields, `ResetCycle`
yields state Watching, an empty leg-1 side, a leg-1 entry price of 0 and
roundStartTime equal to the current time of the venue; and a second reset at
the same venue time gives the same bot as the first one. -/
theorem reset_postcondition_and_idempotence (b : Bot) (exc exc2 : Venue) :
    (b.ResetCycle exc).state = StateWatching ∧ (b.ResetCycle exc).leg1Side = "" ∧
    (b.ResetCycle exc).leg1EntryPrice = 0 ∧
    (b.ResetCycle exc).roundStartTime = exc.CurrentTime ∧
    (b.ResetCycle exc).ResetCycle exc = b.ResetCycle exc ∧
    (b.ResetCycle exc).ResetCycle { exc2 with CurrentTime := exc.CurrentTime } =
      b.ResetCycle exc :=
  ⟨rfl, rfl, rfl, rfl, rfl, rfl⟩

/-- Claim C12: for every bot, after `ResetCycle` the UP history and the DOWN
history hold exactly the same sequences of price points as before the call (the
two buffers are untouched, windows included). -/
theorem reset_preserves_histories (b : Bot) (exc : Venue) :
    (b.ResetCycle exc).bufferUp.history = b.bufferUp.history ∧
    (b.ResetCycle exc).bufferDown.history = b.bufferDown.history ∧
    (b.ResetCycle exc).bufferUp = b.bufferUp ∧ (b.ResetCycle exc).bufferDown = b.bufferDown :=
  ⟨rfl, rfl, rfl, rfl⟩

/-! ## Claims C13 and C14: failed ticks -/

/-- A tick whose order was answered with an error leaves the bot as it was after
the samples were appended. -/
theorem RunTick_of_orderFailed (b : Bot) (exc : Venue) (hf : orderFailed b exc) :
    ∃ tk, exc.GetTicker b.cfg.MarketID = some tk ∧
      (b.RunTick exc).bot = b.ingest tk exc.CurrentTime := by
  obtain ⟨r, hr, hnone⟩ := hf
  rcases RunTick_cases b exc with ⟨_, h⟩ | ⟨tk, _, h⟩ | ⟨tk, ht, _, h | h⟩ | ⟨tk, ht, _, h⟩
  · rw [h] at hr
    simp at hr
  · rw [h] at hr
    simp at hr
  · refine ⟨tk, ht, ?_⟩
    rw [h, executeLeg1_orders, List.mem_singleton] at hr
    subst hr
    rw [h, executeLeg1_failure _ exc _ _ hnone]
  · refine ⟨tk, ht, ?_⟩
    rw [h, executeLeg1_orders, List.mem_singleton] at hr
    subst hr
    rw [h, executeLeg1_failure _ exc _ _ hnone]
  · refine ⟨tk, ht, ?_⟩
    rw [h, executeLeg2_orders, List.mem_singleton] at hr
    subst hr
    rw [h, executeLeg2_failure _ exc _ _ hnone]

/-- Claim C13: for every tick in which the engine submitted an order (a Leg-1
attempt from Watching or a Leg-2 attempt from Leg1Bought) and `PlaceOrder`
returned an error, the state, leg-1 side, leg-1 entry price and roundStartTime
after the tick equal their values before the tick. -/
theorem order_failure_keeps_cycle_context (b : Bot) (exc : Venue)
    (hf : orderFailed b exc) :
    (b.RunTick exc).bot.state = b.state ∧ (b.RunTick exc).bot.leg1Side = b.leg1Side ∧
    (b.RunTick exc).bot.leg1EntryPrice = b.leg1EntryPrice ∧
    (b.RunTick exc).bot.roundStartTime = b.roundStartTime := by
  obtain ⟨tk, _, h⟩ := RunTick_of_orderFailed b exc hf
  rw [h]
  exact ⟨rfl, rfl, rfl, rfl⟩

set_option maxRecDepth 4000 in
/-- Witness for C13: the UP dump of the test (0.50, 0.50, then 0.40 at `t + 4 s`)
on a venue that rejects the Leg-1 order, and the hedge of the test (entry 0.40,
DOWN 0.55) on a venue that rejects the Leg-2 order. -/
theorem order_failure_keeps_cycle_context_witness :
    (orderFailed testBotPrimed (rejectVenue (4 * Second) (40 / 100) (55 / 100)) ∧
      (testBotPrimed.RunTick (rejectVenue (4 * Second) (40 / 100) (55 / 100))).bot.state =
        testBotPrimed.state ∧
      (testBotPrimed.RunTick (rejectVenue (4 * Second) (40 / 100) (55 / 100))).bot.leg1Side =
        testBotPrimed.leg1Side ∧
      (testBotPrimed.RunTick
          (rejectVenue (4 * Second) (40 / 100) (55 / 100))).bot.leg1EntryPrice =
        testBotPrimed.leg1EntryPrice ∧
      (testBotPrimed.RunTick
          (rejectVenue (4 * Second) (40 / 100) (55 / 100))).bot.roundStartTime =
        testBotPrimed.roundStartTime) ∧
    (orderFailed testBotLeg1 (rejectVenue (4 * Second) (40 / 100) (55 / 100)) ∧
      (testBotLeg1.RunTick (rejectVenue (4 * Second) (40 / 100) (55 / 100))).bot.state =
        testBotLeg1.state ∧
      (testBotLeg1.RunTick (rejectVenue (4 * Second) (40 / 100) (55 / 100))).bot.leg1Side =
        testBotLeg1.leg1Side ∧
      (testBotLeg1.RunTick (rejectVenue (4 * Second) (40 / 100) (55 / 100))).bot.leg1EntryPrice =
        testBotLeg1.leg1EntryPrice ∧
      (testBotLeg1.RunTick (rejectVenue (4 * Second) (40 / 100) (55 / 100))).bot.roundStartTime =
        testBotLeg1.roundStartTime) :=
  have hf : orderFailed testBotPrimed (rejectVenue (4 * Second) (40 / 100) (55 / 100)) :=
    ⟨OrderRequest.mk "" SideUp 20 (40 / 100),
      by with_unfolding_all exact List.mem_singleton.mpr rfl, rfl⟩
  have hg : orderFailed testBotLeg1 (rejectVenue (4 * Second) (40 / 100) (55 / 100)) :=
    ⟨OrderRequest.mk "" SideDown 20 (55 / 100),
      by with_unfolding_all exact List.mem_singleton.mpr rfl, rfl⟩
  ⟨⟨hf, order_failure_keeps_cycle_context testBotPrimed
      (rejectVenue (4 * Second) (40 / 100) (55 / 100)) hf⟩,
    ⟨hg, order_failure_keeps_cycle_context testBotLeg1
      (rejectVenue (4 * Second) (40 / 100) (55 / 100)) hg⟩⟩

set_option maxRecDepth 4000 in
/-- Claim C14 as stated is false: it is not the case that every tick in which
the venue reports an error leaves the state, leg-1 side, leg-1 entry price,
roundStartTime and both price histories as they were. `RunTick` appends the
ticker prices to both histories before the state-dependent check, so a tick
whose order is rejected has already grown the histories: from Leg1Bought(UP,
0.40) with empty histories, a tick at `4 s` with prices 0.40 / 0.55 whose hedge
order is rejected leaves the UP history holding the point (0.40, 4 s). -/
theorem failed_tick_keeps_all_state_fails_on_order_error :
    ¬ ∀ (b : Bot) (exc : Venue), tickFailed b exc →
        (b.RunTick exc).bot.state = b.state ∧ (b.RunTick exc).bot.leg1Side = b.leg1Side ∧
        (b.RunTick exc).bot.leg1EntryPrice = b.leg1EntryPrice ∧
        (b.RunTick exc).bot.roundStartTime = b.roundStartTime ∧
        (b.RunTick exc).bot.bufferUp.history = b.bufferUp.history ∧
        (b.RunTick exc).bot.bufferDown.history = b.bufferDown.history := by
  intro h
  have hg : orderFailed testBotLeg1 (rejectVenue (4 * Second) (40 / 100) (55 / 100)) :=
    ⟨OrderRequest.mk "" SideDown 20 (55 / 100),
      by with_unfolding_all exact List.mem_singleton.mpr rfl, rfl⟩
  have h1 := (h testBotLeg1 (rejectVenue (4 * Second) (40 / 100) (55 / 100))
    (Or.inr hg)).2.2.2.2.1
  have h2 : (testBotLeg1.RunTick (rejectVenue (4 * Second) (40 / 100) (55 / 100))).bot.bufferUp.history
      = [PricePoint.mk (40 / 100) (4 * Second)] := by
    with_unfolding_all rfl
  have h3 : testBotLeg1.bufferUp.history = [] := rfl
  rw [h2, h3] at h1
  exact absurd h1 (List.cons_ne_nil _ _)

/-- Claim C14 (amended): for every tick in which the venue reports an error, the
state, leg-1 side, leg-1 entry price and roundStartTime after the tick equal
their values before the tick. When the error comes from `GetTicker`, the UP and
the DOWN buffer are unchanged as well; when the ticker was fetched and the error
comes from `PlaceOrder`, each buffer is the previous one after `Add` of the
price of the tick at the time of the tick. -/
theorem failed_tick_effect (b : Bot) (exc : Venue) (hf : tickFailed b exc) :
    ((b.RunTick exc).bot.state = b.state ∧ (b.RunTick exc).bot.leg1Side = b.leg1Side ∧
      (b.RunTick exc).bot.leg1EntryPrice = b.leg1EntryPrice ∧
      (b.RunTick exc).bot.roundStartTime = b.roundStartTime) ∧
    (exc.GetTicker b.cfg.MarketID = none →
      (b.RunTick exc).bot.bufferUp = b.bufferUp ∧
      (b.RunTick exc).bot.bufferDown = b.bufferDown) ∧
    (∀ tk, exc.GetTicker b.cfg.MarketID = some tk →
      (b.RunTick exc).bot.bufferUp = b.bufferUp.Add tk.PriceUp exc.CurrentTime ∧
      (b.RunTick exc).bot.bufferDown = b.bufferDown.Add tk.PriceDown exc.CurrentTime) := by
  rcases hf with hnone | hord
  · rw [RunTick_ticker_error b exc hnone]
    refine ⟨⟨rfl, rfl, rfl, rfl⟩, fun _ => ⟨rfl, rfl⟩, ?_⟩
    intro tk htk
    rw [hnone] at htk
    exact absurd htk (by simp)
  · obtain ⟨tk, ht, h⟩ := RunTick_of_orderFailed b exc hord
    rw [h]
    refine ⟨⟨rfl, rfl, rfl, rfl⟩, ?_, ?_⟩
    · intro hnone
      rw [hnone] at ht
      exact absurd ht (by simp)
    · intro tk2 htk2
      rw [ht] at htk2
      have : tk = tk2 := Option.some.inj htk2
      subst this
      exact ⟨rfl, rfl⟩

set_option maxRecDepth 4000 in
/-- Witness for C14 (amended): the hedge of the test on a venue that rejects the
order, where the UP buffer has received the sample, and a tick whose ticker
fetch fails, where the UP buffer is untouched. -/
theorem failed_tick_effect_witness :
    (tickFailed testBotLeg1 (rejectVenue (4 * Second) (40 / 100) (55 / 100)) ∧
      (testBotLeg1.RunTick (rejectVenue (4 * Second) (40 / 100) (55 / 100))).bot.state =
        testBotLeg1.state ∧
      (testBotLeg1.RunTick (rejectVenue (4 * Second) (40 / 100) (55 / 100))).bot.bufferUp =
        testBotLeg1.bufferUp.Add (40 / 100) (4 * Second)) ∧
    (tickFailed testBotLeg1 (tickerErrorVenue (4 * Second)) ∧
      (testBotLeg1.RunTick (tickerErrorVenue (4 * Second))).bot.state = testBotLeg1.state ∧
      (testBotLeg1.RunTick (tickerErrorVenue (4 * Second))).bot.bufferUp =
        testBotLeg1.bufferUp) :=
  have hg : tickFailed testBotLeg1 (rejectVenue (4 * Second) (40 / 100) (55 / 100)) :=
    Or.inr ⟨OrderRequest.mk "" SideDown 20 (55 / 100),
      by with_unfolding_all exact List.mem_singleton.mpr rfl, rfl⟩
  have h := failed_tick_effect testBotLeg1 (rejectVenue (4 * Second) (40 / 100) (55 / 100)) hg
  have ht : tickFailed testBotLeg1 (tickerErrorVenue (4 * Second)) := Or.inl rfl
  have h2 := failed_tick_effect testBotLeg1 (tickerErrorVenue (4 * Second)) ht
  ⟨⟨hg, h.1.1, (h.2.2 _ rfl).1⟩, ⟨ht, h2.1.1, (h2.2.1 rfl).1⟩⟩

/-! ## Claim C15: Done -/

/-- A tick in state Done submits nothing and leaves the cycle context as it
was. -/
theorem RunTick_in_done (b : Bot) (exc : Venue) (hs : b.state = StateDone) :
    (b.RunTick exc).orders = [] ∧ (b.RunTick exc).bot.state = StateDone ∧
    (b.RunTick exc).bot.leg1Side = b.leg1Side ∧
    (b.RunTick exc).bot.leg1EntryPrice = b.leg1EntryPrice ∧
    (b.RunTick exc).bot.roundStartTime = b.roundStartTime := by
  cases ht : exc.GetTicker b.cfg.MarketID with
  | none =>
    rw [RunTick_ticker_error b exc ht]
    exact ⟨rfl, hs, rfl, rfl, rfl⟩
  | some tk =>
    rw [RunTick_done b exc tk hs ht]
    exact ⟨rfl, hs, rfl, rfl, rfl⟩

theorem runTicks_in_done (vs : List Venue) (b : Bot) (hs : b.state = StateDone) :
    (runTicks b vs).2 = [] ∧ (runTicks b vs).1.state = StateDone ∧
    (runTicks b vs).1.leg1Side = b.leg1Side ∧
    (runTicks b vs).1.leg1EntryPrice = b.leg1EntryPrice ∧
    (runTicks b vs).1.roundStartTime = b.roundStartTime := by
  induction vs generalizing b with
  | nil => exact ⟨rfl, hs, rfl, rfl, rfl⟩
  | cons v rest ih =>
    obtain ⟨ho, hst, hsd, hep, hrt⟩ := RunTick_in_done b v hs
    have ih2 := ih (b.RunTick v).bot hst
    simp only [runTicks]
    rw [ho, List.nil_append]
    refine ⟨ih2.1, ih2.2.1, ?_, ?_, ?_⟩
    · rw [ih2.2.2.1, hsd]
    · rw [ih2.2.2.2.1, hep]
    · rw [ih2.2.2.2.2, hrt]

/-- Claim C15: for every tick taken in state Done, with any time and any ticker
answer, no order is placed and the cycle context (state Done, leg-1 side, entry
price, roundStartTime) is unchanged; every run of ticks from Done places no
order and ends in Done with the same cycle context; `ResetCycle` leaves Done
for Watching. -/
theorem done_is_a_no_op (b : Bot) (exc : Venue) (vs : List Venue)
    (hs : b.state = StateDone) :
    ((b.RunTick exc).orders = [] ∧ (b.RunTick exc).bot.state = StateDone ∧
      (b.RunTick exc).bot.leg1Side = b.leg1Side ∧
      (b.RunTick exc).bot.leg1EntryPrice = b.leg1EntryPrice ∧
      (b.RunTick exc).bot.roundStartTime = b.roundStartTime) ∧
    ((runTicks b vs).2 = [] ∧ (runTicks b vs).1.state = StateDone ∧
      (runTicks b vs).1.leg1Side = b.leg1Side ∧
      (runTicks b vs).1.leg1EntryPrice = b.leg1EntryPrice ∧
      (runTicks b vs).1.roundStartTime = b.roundStartTime) ∧
    (b.ResetCycle exc).state = StateWatching :=
  ⟨RunTick_in_done b exc hs, runTicks_in_done vs b hs, rfl⟩

set_option maxRecDepth 4000 in
/-- Witness for C15: the bot at the end of the test, ticked twice more with a
fresh dump on the tape. -/
theorem done_is_a_no_op_witness :
    testBotDone.state = StateDone ∧
    (runTicks testBotDone [mockVenue (7 * Second) (50 / 100) (50 / 100),
      mockVenue (10 * Second) (20 / 100) (20 / 100)]).2 = [] ∧
    (runTicks testBotDone [mockVenue (7 * Second) (50 / 100) (50 / 100),
      mockVenue (10 * Second) (20 / 100) (20 / 100)]).1.state = StateDone :=
  have hs : testBotDone.state = StateDone := by with_unfolding_all rfl
  have h := done_is_a_no_op testBotDone (mockVenue (7 * Second) (50 / 100) (50 / 100))
    [mockVenue (7 * Second) (50 / 100) (50 / 100),
      mockVenue (10 * Second) (20 / 100) (20 / 100)] hs
  ⟨hs, h.2.1.1, h.2.1.2.1⟩

/-! ## Claim C16: the entry price is the fill price -/

/-- A tick from Watching that ends in Leg1Bought ran `executeLeg1` and the venue
returned an order: the result is the bot with the samples appended, the side of
the request and the price of the returned order stored. -/
theorem RunTick_entered_leg1 (b : Bot) (exc : Venue) (hs : b.state = StateWatching)
    (he : (b.RunTick exc).bot.state = StateLeg1Bought) :
    ∃ tk side price o, exc.GetTicker b.cfg.MarketID = some tk ∧
      exc.PlaceOrder b.cfg.MarketID side b.cfg.Shares price = some o ∧
      b.RunTick exc =
        { bot := { b.ingest tk exc.CurrentTime with
                   leg1Side := side, leg1EntryPrice := o.Price, state := StateLeg1Bought }
          orders := [OrderRequest.mk b.cfg.MarketID side b.cfg.Shares price]
          report := none } := by
  have hne : StateWatching ≠ StateLeg1Bought := by decide
  rcases RunTick_cases b exc with ⟨_, h⟩ | ⟨tk, _, h⟩ | ⟨tk, ht, _, h | h⟩ | ⟨tk, _, hs2, _⟩
  · rw [h] at he
    exact absurd (hs.symm.trans he) hne
  · rw [h] at he
    exact absurd (hs.symm.trans he) hne
  · cases ho : exc.PlaceOrder b.cfg.MarketID SideUp b.cfg.Shares tk.PriceUp with
    | none =>
      rw [h, executeLeg1_failure (b.ingest tk exc.CurrentTime) exc _ _ ho] at he
      exact absurd (hs.symm.trans he) hne
    | some o =>
      refine ⟨tk, SideUp, tk.PriceUp, o, ht, ho, ?_⟩
      rw [h, executeLeg1_success_result (b.ingest tk exc.CurrentTime) exc _ _ o ho]
      rfl
  · cases ho : exc.PlaceOrder b.cfg.MarketID SideDown b.cfg.Shares tk.PriceDown with
    | none =>
      rw [h, executeLeg1_failure (b.ingest tk exc.CurrentTime) exc _ _ ho] at he
      exact absurd (hs.symm.trans he) hne
    | some o =>
      refine ⟨tk, SideDown, tk.PriceDown, o, ht, ho, ?_⟩
      rw [h, executeLeg1_success_result (b.ingest tk exc.CurrentTime) exc _ _ o ho]
      rfl
  · rw [hs] at hs2
    exact absurd hs2 hne

/-- A tick in state Leg1Bought with a ticker submits an order exactly when the
stored entry price plus the opposite price is at most `SumTarget`. -/
theorem RunTick_hedges_iff (b : Bot) (exc : Venue) (tk : Ticker)
    (hs : b.state = StateLeg1Bought) (ht : exc.GetTicker b.cfg.MarketID = some tk) :
    (b.RunTick exc).orders ≠ [] ↔
      b.leg1EntryPrice + oppositePrice b.leg1Side tk ≤ b.cfg.SumTarget := by
  rw [RunTick_leg1Bought b exc tk hs ht, checkLeg2_eq]
  show (if b.leg1EntryPrice + oppositePrice b.leg1Side tk ≤ b.cfg.SumTarget then _ else _
      : TickResult).orders ≠ [] ↔ _
  split_ifs with h
  · rw [executeLeg2_orders]
    simp [h]
  · simp [h]

/-- Claim C16: after every successful Leg-1 entry (a tick from Watching that
ends in Leg1Bought) the engine had submitted one order, the venue had returned
an order `o` for it, and the stored leg-1 entry price is `o.Price`, the fill
price, whatever the requested price was; and in every later tick on that bot
with a ticker, the hedge order is sent exactly when the `float64` sum of that
fill price and the opposite price is at most `SumTarget`. -/
theorem entry_price_is_fill_price (b : Bot) (exc : Venue)
    (hs : b.state = StateWatching) (he : (b.RunTick exc).bot.state = StateLeg1Bought) :
    ∃ r o, (b.RunTick exc).orders = [r] ∧
      exc.PlaceOrder r.marketID r.side r.size r.price = some o ∧
      (b.RunTick exc).bot.leg1EntryPrice = o.Price ∧
      (b.RunTick exc).bot.leg1Side = r.side ∧
      ∀ (exc2 : Venue) (tk2 : Ticker), exc2.GetTicker b.cfg.MarketID = some tk2 →
        (((b.RunTick exc).bot.RunTick exc2).orders ≠ [] ↔
          o.Price + oppositePrice r.side tk2 ≤ b.cfg.SumTarget) := by
  obtain ⟨tk, side, price, o, _, ho, h⟩ := RunTick_entered_leg1 b exc hs he
  refine ⟨OrderRequest.mk b.cfg.MarketID side b.cfg.Shares price, o, ?_, ho, ?_, ?_, ?_⟩
  · rw [h]
  · rw [h]
  · rw [h]
  · intro exc2 tk2 ht2
    rw [h]
    exact RunTick_hedges_iff _ exc2 tk2 rfl ht2

set_option maxRecDepth 4000 in
/-- Witness for C16: the UP dump of the test, requested at 0.40 and filled at
0.42. The stored entry price is 0.42; with `SumTarget = 0.96` a later DOWN
price of 0.55 (sum 0.97 with the fill, 0.95 with the request) sends no hedge
order. -/
theorem entry_price_is_fill_price_witness :
    (testBotPrimed.RunTick
      (fillVenue (4 * Second) (40 / 100) (55 / 100) (42 / 100))).orders =
        [OrderRequest.mk "" SideUp 20 (40 / 100)] ∧
    (testBotPrimed.RunTick
      (fillVenue (4 * Second) (40 / 100) (55 / 100) (42 / 100))).bot.leg1EntryPrice =
        42 / 100 ∧
    ((testBotPrimed.RunTick
      (fillVenue (4 * Second) (40 / 100) (55 / 100) (42 / 100))).bot.RunTick
        (mockVenue (5 * Second) (40 / 100) (55 / 100))).orders = [] ∧
    ∃ r o, (testBotPrimed.RunTick
        (fillVenue (4 * Second) (40 / 100) (55 / 100) (42 / 100))).orders = [r] ∧
      (fillVenue (4 * Second) (40 / 100) (55 / 100) (42 / 100)).PlaceOrder
        r.marketID r.side r.size r.price = some o ∧
      (testBotPrimed.RunTick
        (fillVenue (4 * Second) (40 / 100) (55 / 100) (42 / 100))).bot.leg1EntryPrice =
          o.Price ∧
      (testBotPrimed.RunTick
        (fillVenue (4 * Second) (40 / 100) (55 / 100) (42 / 100))).bot.leg1Side = r.side ∧
      ∀ (exc2 : Venue) (tk2 : Ticker), exc2.GetTicker testBotPrimed.cfg.MarketID = some tk2 →
        (((testBotPrimed.RunTick
          (fillVenue (4 * Second) (40 / 100) (55 / 100) (42 / 100))).bot.RunTick exc2).orders ≠ []
          ↔ o.Price + oppositePrice r.side tk2 ≤ testBotPrimed.cfg.SumTarget) :=
  ⟨by with_unfolding_all rfl, by with_unfolding_all rfl, by with_unfolding_all rfl,
    entry_price_is_fill_price testBotPrimed
      (fillVenue (4 * Second) (40 / 100) (55 / 100) (42 / 100))
      (by with_unfolding_all rfl) (by with_unfolding_all rfl)⟩

/-! ## Claim C17: the new point is always retained -/

theorem findValidIdx_bound (cutoff : Int) (l : List PricePoint) (i : Nat) :
    findValidIdx cutoff l i = 0 ∨ findValidIdx cutoff l i < i + l.length := by
  induction l generalizing i with
  | nil => exact Or.inl rfl
  | cons a l ih =>
    by_cases ha : Time.After a.Timestamp cutoff = true
    · right
      simp only [findValidIdx, ha, if_true, List.length_cons]
      omega
    · simp only [findValidIdx, ha, Bool.false_eq_true, if_false, List.length_cons]
      rcases ih (i + 1) with h | h
      · exact Or.inl h
      · right
        omega

/-- Claim C17: for every buffer (any window, any prior history, time-sorted or
not), every price and every timestamp `ts`, after `Add(price, ts)` the history
is non-empty and its last element is the point `(price, ts)`. -/
theorem add_retains_new_point (pb : PriceBuffer) (price : F64) (ts : Int) :
    (pb.Add price ts).history ≠ [] ∧
    (pb.Add price ts).history.getLast? = some (PricePoint.mk price ts) := by
  have hlast : (pb.Add price ts).history.getLast? = some (PricePoint.mk price ts) := by
    unfold PriceBuffer.Add
    simp only
    split_ifs with hk
    · show ((pb.history ++ [PricePoint.mk price ts]).drop _).getLast? = _
      rw [List.getLast?_drop]
      rcases findValidIdx_bound (Time.Add ts (Duration.neg pb.window))
        (pb.history ++ [PricePoint.mk price ts]) 0 with h0 | hlt
      · omega
      · rw [if_neg (by omega)]
        exact List.getLast?_concat _
    · exact List.getLast?_concat _
  refine ⟨?_, hlast⟩
  intro hnil
  rw [hnil] at hlast
  simp at hlast

/-! ## Claim C18: what `Add` keeps -/

/-- Claim C18 as stated is false: it is not the case that for every buffer with
a time-sorted history not later than `now`, every previously retained point
with timestamp `>= now - window` is still retained, in order, after
`Add(price, now)`. The loop keeps a point only if it is strictly after the
cutoff: the 5 second buffer holding the point `(1, 0)` loses it when a point is
added at `5 s`, although `0 >= 5 s - 5 s`. -/
theorem add_keeps_boundary_point_fails :
    ¬ ∀ (pb : PriceBuffer) (price : F64) (now : Int), isInt64 pb.window →
        timeSorted pb.history → (∀ p ∈ pb.history, p.Timestamp ≤ now) →
        (pb.history.filter (fun p => decide (now - pb.window ≤ p.Timestamp))).Sublist
          (pb.Add price now).history := by
  intro h
  have hsub := h ((NewPriceBuffer (5 * Second)).Add 1 0) 2 (5 * Second)
    (by decide) (by unfold timeSorted; decide) (by decide)
  have hmem : PricePoint.mk 1 0 ∈
      (((NewPriceBuffer (5 * Second)).Add 1 0).Add 2 (5 * Second)).history :=
    hsub.subset (by decide)
  exact absurd hmem (by decide)

/-- Claim C18 (amended): for every buffer whose history has non-decreasing
timestamps all `<= now`, every previously retained point whose timestamp is
strictly later than `now - window` is still retained after `Add(price, now)`,
in its original order; and when the window is positive, every previous point at
or before `now - window`, the point exactly at `now - window` included, is
pruned. -/
theorem add_keeps_points_after_cutoff (pb : PriceBuffer) (price : F64) (now : Int)
    (hw : isInt64 pb.window) (hs : timeSorted pb.history)
    (hle : ∀ p ∈ pb.history, p.Timestamp ≤ now) :
    (pb.history.filter (fun p => decide (now - pb.window < p.Timestamp))).Sublist
      (pb.Add price now).history ∧
    (0 < pb.window → ∀ p ∈ pb.history, p.Timestamp ≤ now - pb.window →
      p ∉ (pb.Add price now).history) := by
  by_cases hpos : 0 < pb.window
  · have hH := Add_history_of_sorted pb price now hpos hw.2 hs hle
    refine ⟨?_, ?_⟩
    · rw [hH]
      exact List.sublist_append_left _ _
    · intro _ p _ hpt hmem
      rw [hH] at hmem
      rcases List.mem_append.mp hmem with hm | hm
      · have := (List.mem_filter.mp hm).2
        simp only [decide_eq_true_eq] at this
        omega
      · rw [List.mem_singleton] at hm
        subst hm
        change now ≤ now - pb.window at hpt
        omega
  · refine ⟨?_, fun h => absurd h hpos⟩
    have hnil : pb.history.filter (fun p => decide (now - pb.window < p.Timestamp)) = [] := by
      rw [List.filter_eq_nil_iff]
      intro p hp
      have := hle p hp
      simp only [decide_eq_true_eq]
      omega
    rw [hnil]
    exact List.nil_sublist _

/-- Witness for C18 (amended): the 5 second buffer holding points at 0 s and 2 s
keeps the point at 2 s, and loses the point at 0 s, when a point is added at
5 s. -/
theorem add_keeps_points_after_cutoff_witness :
    ([PricePoint.mk 1 0, PricePoint.mk 3 (2 * Second)].filter
        (fun p => decide (5 * Second - 5 * Second < p.Timestamp))).Sublist
      ((PriceBuffer.mk [PricePoint.mk 1 0, PricePoint.mk 3 (2 * Second)] (5 * Second)).Add 2
        (5 * Second)).history ∧
    (PricePoint.mk 1 0) ∉
      ((PriceBuffer.mk [PricePoint.mk 1 0, PricePoint.mk 3 (2 * Second)] (5 * Second)).Add 2
        (5 * Second)).history :=
  have h := add_keeps_points_after_cutoff
    (PriceBuffer.mk [PricePoint.mk 1 0, PricePoint.mk 3 (2 * Second)] (5 * Second)) 2
    (5 * Second) (by decide) (by unfold timeSorted; decide) (by decide)
  ⟨h.1, h.2 (by decide) (PricePoint.mk 1 0) (by decide) (by decide)⟩

/-! ## Claim C19: one step per tick -/

/-- Claim C19: every tick places at most one order and runs one state-dependent
check, so a tick either leaves the state unchanged and reports nothing, or goes
from Watching to Leg1Bought with exactly one order and no completion report, or
goes from Leg1Bought to Done with exactly one order. In particular a tick that
enters Leg 1 ends in Leg1Bought, not in Done, whatever the opposite price is. -/
theorem one_step_per_tick (b : Bot) (exc : Venue) :
    (b.RunTick exc).orders.length ≤ 1 ∧
    (((b.RunTick exc).bot.state = b.state ∧ (b.RunTick exc).report = none) ∨
      (b.state = StateWatching ∧ (b.RunTick exc).bot.state = StateLeg1Bought ∧
        (b.RunTick exc).report = none ∧ (b.RunTick exc).orders.length = 1) ∨
      (b.state = StateLeg1Bought ∧ (b.RunTick exc).bot.state = StateDone ∧
        (b.RunTick exc).orders.length = 1)) := by
  rcases RunTick_cases b exc with ⟨_, h⟩ | ⟨tk, _, h⟩ | ⟨tk, _, hs, h | h⟩ | ⟨tk, _, hs, h⟩
  · rw [h]
    exact ⟨Nat.zero_le _, Or.inl ⟨rfl, rfl⟩⟩
  · rw [h]
    exact ⟨Nat.zero_le _, Or.inl ⟨rfl, rfl⟩⟩
  · rw [h]
    cases ho : exc.PlaceOrder b.cfg.MarketID SideUp b.cfg.Shares tk.PriceUp with
    | none =>
      rw [executeLeg1_failure (b.ingest tk exc.CurrentTime) exc _ _ ho]
      exact ⟨le_refl _, Or.inl ⟨rfl, rfl⟩⟩
    | some o =>
      rw [executeLeg1_success_result (b.ingest tk exc.CurrentTime) exc _ _ o ho]
      exact ⟨le_refl _, Or.inr (Or.inl ⟨hs, rfl, rfl, rfl⟩)⟩
  · rw [h]
    cases ho : exc.PlaceOrder b.cfg.MarketID SideDown b.cfg.Shares tk.PriceDown with
    | none =>
      rw [executeLeg1_failure (b.ingest tk exc.CurrentTime) exc _ _ ho]
      exact ⟨le_refl _, Or.inl ⟨rfl, rfl⟩⟩
    | some o =>
      rw [executeLeg1_success_result (b.ingest tk exc.CurrentTime) exc _ _ o ho]
      exact ⟨le_refl _, Or.inr (Or.inl ⟨hs, rfl, rfl, rfl⟩)⟩
  · rw [h]
    cases ho : exc.PlaceOrder b.cfg.MarketID (oppositeSide b.leg1Side) b.cfg.Shares
        (oppositePrice b.leg1Side tk) with
    | none =>
      rw [executeLeg2_failure (b.ingest tk exc.CurrentTime) exc _ _ ho]
      exact ⟨le_refl _, Or.inl ⟨rfl, rfl⟩⟩
    | some o =>
      rw [executeLeg2_success (b.ingest tk exc.CurrentTime) exc _ _ o ho]
      exact ⟨le_refl _, Or.inr (Or.inr ⟨hs, rfl, rfl⟩)⟩

set_option maxRecDepth 4000 in
/-- The scenario of `TestBotLogic`: at the tick that enters Leg 1 at 0.40 the
hedge condition already holds (DOWN = 0.55, `SumTarget = 0.96`), yet that tick
ends in Leg1Bought with the single UP order; the next tick, on the same prices,
sends the DOWN order and ends in Done. -/
theorem TestBotLogic_needs_a_second_tick :
    (40 / 100 : F64) + 55 / 100 ≤ 96 / 100 ∧
    (testBotPrimed.RunTick (mockVenue (4 * Second) (40 / 100) (55 / 100))).bot.state =
      StateLeg1Bought ∧
    (testBotPrimed.RunTick (mockVenue (4 * Second) (40 / 100) (55 / 100))).orders =
      [OrderRequest.mk "" SideUp 20 (40 / 100)] ∧
    ((testBotPrimed.RunTick (mockVenue (4 * Second) (40 / 100) (55 / 100))).bot.RunTick
      (mockVenue (4 * Second) (40 / 100) (55 / 100))).bot.state = StateDone ∧
    ((testBotPrimed.RunTick (mockVenue (4 * Second) (40 / 100) (55 / 100))).bot.RunTick
      (mockVenue (4 * Second) (40 / 100) (55 / 100))).orders =
      [OrderRequest.mk "" SideDown 20 (55 / 100)] :=
  ⟨by with_unfolding_all decide, by with_unfolding_all rfl, by with_unfolding_all rfl,
    by with_unfolding_all rfl, by with_unfolding_all rfl⟩

/-! ## Claim C20: stale data -/

/-- A tick in state Watching whose two lookbacks are `-1` submits nothing and
leaves the bot as it was after the samples were appended. -/
theorem checkLeg1_stale (b : Bot) (exc : Venue) (tk : Ticker) (now : Int)
    (hu : b.bufferUp.GetPriceAgo (3 * Second) now = -1)
    (hd : b.bufferDown.GetPriceAgo (3 * Second) now = -1) :
    b.checkLeg1 exc tk now = { bot := b, orders := [], report := none } := by
  unfold Bot.checkLeg1
  simp only [hu, hd]
  have hneg : ¬ ((0 : F64) < -1) := F64.zero_not_lt_neg_one
  split_ifs with h1 h2 h3
  · rfl
  · exact absurd h2.1 hneg
  · exact absurd h3.1 hneg
  · rfl

/-- The history of a new 5 second buffer after its first `Add`. -/
theorem Add_first (price : F64) (now : Int) :
    ((NewPriceBuffer (5 * Second)).Add price now).history = [PricePoint.mk price now] := by
  have h := Add_history_of_sorted (NewPriceBuffer (5 * Second)) price now
    (by decide) (by decide) (by simp [NewPriceBuffer, timeSorted]) (by simp [NewPriceBuffer])
  rw [h]
  rfl

/-- The 3-second lookback on a new 5 second buffer right after its first `Add`
is `-1`: the only point is 3 seconds from the target. -/
theorem GetPriceAgo_first (price : F64) (now : Int) :
    ((NewPriceBuffer (5 * Second)).Add price now).GetPriceAgo (3 * Second) now = -1 := by
  have hS : Second = 1000000000 := by decide
  have hH : Hour = 3600000000000 := by decide
  have hsub : Time.Sub now (Time.Add now (Duration.neg (3 * Second))) = 3000000000 := by
    unfold Time.Sub Time.Add Duration.neg wrap64 minDuration maxDuration
    rw [hS]
    split_ifs <;> omega
  unfold PriceBuffer.GetPriceAgo
  rw [Add_first]
  simp only [List.length_singleton, List.foldl_cons, List.foldl_nil, scanStep, hsub]
  rw [hS, hH]
  norm_num

/-- Claim C20: for every tick in state Watching in which the 3-second lookback
(taken, as the engine does, after the current prices were appended) is `-1` on
both the UP and the DOWN history, no order is placed and the cycle context is
unchanged; and the first tick of a freshly constructed bot, whatever the
configuration, the venue answers and the prices are, places no order and stays
in Watching with the leg-1 fields and roundStartTime as constructed. -/
theorem stale_lookback_is_skipped (b : Bot) (exc : Venue)
    (hs : b.state = StateWatching)
    (hstale : ∀ tk, exc.GetTicker b.cfg.MarketID = some tk →
      (b.bufferUp.Add tk.PriceUp exc.CurrentTime).GetPriceAgo (3 * Second)
        exc.CurrentTime = -1 ∧
      (b.bufferDown.Add tk.PriceDown exc.CurrentTime).GetPriceAgo (3 * Second)
        exc.CurrentTime = -1) :
    ((b.RunTick exc).orders = [] ∧ (b.RunTick exc).bot.state = StateWatching ∧
      (b.RunTick exc).bot.leg1Side = b.leg1Side ∧
      (b.RunTick exc).bot.leg1EntryPrice = b.leg1EntryPrice ∧
      (b.RunTick exc).bot.roundStartTime = b.roundStartTime) ∧
    ∀ (cfg : Config) (exc0 exc1 : Venue),
      ((NewBot cfg exc0).RunTick exc1).orders = [] ∧
      ((NewBot cfg exc0).RunTick exc1).bot.state = StateWatching ∧
      ((NewBot cfg exc0).RunTick exc1).bot.leg1Side = "" ∧
      ((NewBot cfg exc0).RunTick exc1).bot.leg1EntryPrice = 0 ∧
      ((NewBot cfg exc0).RunTick exc1).bot.roundStartTime = exc0.CurrentTime := by
  constructor
  · cases ht : exc.GetTicker b.cfg.MarketID with
    | none =>
      rw [RunTick_ticker_error b exc ht]
      exact ⟨rfl, hs, rfl, rfl, rfl⟩
    | some tk =>
      obtain ⟨hu, hd⟩ := hstale tk ht
      rw [RunTick_watching b exc tk hs ht,
        checkLeg1_stale (b.ingest tk exc.CurrentTime) exc tk exc.CurrentTime hu hd]
      exact ⟨rfl, hs, rfl, rfl, rfl⟩
  · intro cfg exc0 exc1
    cases ht : exc1.GetTicker (NewBot cfg exc0).cfg.MarketID with
    | none =>
      rw [RunTick_ticker_error (NewBot cfg exc0) exc1 ht]
      exact ⟨rfl, rfl, rfl, rfl, rfl⟩
    | some tk =>
      rw [RunTick_watching (NewBot cfg exc0) exc1 tk rfl ht,
        checkLeg1_stale ((NewBot cfg exc0).ingest tk exc1.CurrentTime) exc1 tk exc1.CurrentTime
          (GetPriceAgo_first tk.PriceUp exc1.CurrentTime)
          (GetPriceAgo_first tk.PriceDown exc1.CurrentTime)]
      exact ⟨rfl, rfl, rfl, rfl, rfl⟩

set_option maxRecDepth 4000 in
/-- Witness for C20: the default bot after one tick at `t = 0`, ticked again at
`t = 10 s` with both prices halved: the nearest points are 7 s from the target,
both lookbacks are `-1`, and no order is placed. -/
theorem stale_lookback_is_skipped_witness :
    ((runTicks (NewBot DefaultConfig (mockVenue 0 (50 / 100) (50 / 100)))
        [mockVenue 0 (50 / 100) (50 / 100)]).1.RunTick
      (mockVenue (10 * Second) (25 / 100) (25 / 100))).orders = [] ∧
    ((runTicks (NewBot DefaultConfig (mockVenue 0 (50 / 100) (50 / 100)))
        [mockVenue 0 (50 / 100) (50 / 100)]).1.RunTick
      (mockVenue (10 * Second) (25 / 100) (25 / 100))).bot.state = StateWatching :=
  have h := stale_lookback_is_skipped
    (runTicks (NewBot DefaultConfig (mockVenue 0 (50 / 100) (50 / 100)))
      [mockVenue 0 (50 / 100) (50 / 100)]).1
    (mockVenue (10 * Second) (25 / 100) (25 / 100))
    (by with_unfolding_all rfl)
    (fun tk htk => by
      have e : tk = Ticker.mk "mock-market" (25 / 100) (25 / 100) (10 * Second) :=
        (Option.some.inj htk).symm
      subst e
      exact ⟨by with_unfolding_all rfl, by with_unfolding_all rfl⟩)
  ⟨h.1.1, h.1.2.1⟩

/-! ## Claim C21: Leg-1 entry on a DOWN dump -/

/-- A tick in state Watching, inside the entry window, whose UP side fails the
dump test and whose DOWN lookback is positive and shows a drop of at least
`MovePct`, runs `executeLeg1` for side DOWN at the current DOWN price. -/
theorem checkLeg1_down (b : Bot) (exc : Venue) (tk : Ticker) (now : Int)
    (hw : Time.Sub now b.roundStartTime ≤ b.cfg.WindowMin)
    (hup : ¬ (b.bufferUp.GetPriceAgo (3 * Second) now > 0 ∧
      (b.bufferUp.GetPriceAgo (3 * Second) now - tk.PriceUp) /
        b.bufferUp.GetPriceAgo (3 * Second) now ≥ b.cfg.MovePct))
    (hpos : 0 < b.bufferDown.GetPriceAgo (3 * Second) now)
    (hdrop : (b.bufferDown.GetPriceAgo (3 * Second) now - tk.PriceDown) /
      b.bufferDown.GetPriceAgo (3 * Second) now ≥ b.cfg.MovePct) :
    b.checkLeg1 exc tk now = b.executeLeg1 exc SideDown tk.PriceDown := by
  unfold Bot.checkLeg1
  simp only
  rw [if_neg (not_lt.mpr hw), if_neg hup, if_pos ⟨hpos, hdrop⟩]

/-- Claim C21: for every tick in state Watching inside the entry window, with a
successful ticker fetch, in which the UP side does not qualify (its 3-second
lookback is `-1`, or its drop is below `MovePct`) and the DOWN 3-second
lookback is a positive price `p` with `(p - priceDown_now) / p >= MovePct`, both
drops being the `float64` quotients the engine computes, the engine submits exactly one order, a buy of side DOWN with size `Shares` at
`priceDown_now`, and when that order succeeds the state after the tick is
Leg1Bought with leg-1 side DOWN. Lookbacks are taken, as the engine does, after
the current prices were appended. -/
theorem leg1_entry_on_down_dump (b : Bot) (exc : Venue) (tk : Ticker) (pu pd : F64)
    (hs : b.state = StateWatching)
    (hw : Time.Sub exc.CurrentTime b.roundStartTime ≤ b.cfg.WindowMin)
    (ht : exc.GetTicker b.cfg.MarketID = some tk)
    (hpu : (b.bufferUp.Add tk.PriceUp exc.CurrentTime).GetPriceAgo (3 * Second)
      exc.CurrentTime = pu)
    (hup : pu = -1 ∨ (pu - tk.PriceUp) / pu < b.cfg.MovePct)
    (hpd : (b.bufferDown.Add tk.PriceDown exc.CurrentTime).GetPriceAgo (3 * Second)
      exc.CurrentTime = pd)
    (hpos : 0 < pd) (hdrop : (pd - tk.PriceDown) / pd ≥ b.cfg.MovePct) :
    (b.RunTick exc).orders =
      [OrderRequest.mk b.cfg.MarketID SideDown b.cfg.Shares tk.PriceDown] ∧
    ∀ o, exc.PlaceOrder b.cfg.MarketID SideDown b.cfg.Shares tk.PriceDown = some o →
      (b.RunTick exc).bot.state = StateLeg1Bought ∧
      (b.RunTick exc).bot.leg1Side = SideDown := by
  subst hpu
  subst hpd
  have hnot : ¬ ((b.ingest tk exc.CurrentTime).bufferUp.GetPriceAgo (3 * Second)
        exc.CurrentTime > 0 ∧
      ((b.ingest tk exc.CurrentTime).bufferUp.GetPriceAgo (3 * Second) exc.CurrentTime -
          tk.PriceUp) /
        (b.ingest tk exc.CurrentTime).bufferUp.GetPriceAgo (3 * Second) exc.CurrentTime ≥
        (b.ingest tk exc.CurrentTime).cfg.MovePct) := by
    rintro ⟨h1, h2⟩
    change (b.bufferUp.Add tk.PriceUp exc.CurrentTime).GetPriceAgo (3 * Second)
      exc.CurrentTime > 0 at h1
    change ((b.bufferUp.Add tk.PriceUp exc.CurrentTime).GetPriceAgo (3 * Second)
        exc.CurrentTime - tk.PriceUp) /
      (b.bufferUp.Add tk.PriceUp exc.CurrentTime).GetPriceAgo (3 * Second) exc.CurrentTime ≥
        b.cfg.MovePct at h2
    rcases hup with h | h
    · rw [h] at h1
      exact absurd h1 F64.zero_not_lt_neg_one
    · exact absurd h2 (F64.not_le_of_lt _ _ h)
  rw [RunTick_watching b exc tk hs ht,
    checkLeg1_down (b.ingest tk exc.CurrentTime) exc tk exc.CurrentTime hw hnot hpos hdrop]
  refine ⟨executeLeg1_orders _ _ _ _, ?_⟩
  intro o ho
  rw [executeLeg1_success (b.ingest tk exc.CurrentTime) exc SideDown tk.PriceDown o ho]
  exact ⟨rfl, rfl⟩

set_option maxRecDepth 4000 in
/-- Witness for C21: after 0.50 / 0.50 at `t` and `t + 3 s`, UP stays at 0.50 and
DOWN falls to 0.40 at `t + 4 s`, with `MovePct = 0.10`. -/
theorem leg1_entry_on_down_dump_witness :
    (testBotPrimed.RunTick (mockVenue (4 * Second) (50 / 100) (40 / 100))).orders =
      [OrderRequest.mk "" SideDown 20 (40 / 100)] ∧
    (testBotPrimed.RunTick (mockVenue (4 * Second) (50 / 100) (40 / 100))).bot.state =
      StateLeg1Bought ∧
    (testBotPrimed.RunTick (mockVenue (4 * Second) (50 / 100) (40 / 100))).bot.leg1Side =
      SideDown := by
  have h := leg1_entry_on_down_dump testBotPrimed
    (mockVenue (4 * Second) (50 / 100) (40 / 100))
    (Ticker.mk "mock-market" (50 / 100) (40 / 100) (4 * Second))
    (50 / 100) (50 / 100) (by with_unfolding_all decide) (by with_unfolding_all decide) rfl
    (by with_unfolding_all decide) (Or.inr (by with_unfolding_all decide))
    (by with_unfolding_all decide) (by with_unfolding_all decide) (by with_unfolding_all decide)
  with_unfolding_all exact ⟨h.1, h.2 _ rfl⟩

/-! ## Claim C22: the state and the leg-1 fields agree -/

theorem legFieldsConsistent_NewBot (cfg : Config) (exc : Venue) :
    legFieldsConsistent (NewBot cfg exc) :=
  Or.inl ⟨rfl, rfl, rfl⟩

theorem legFieldsConsistent_ResetCycle (b : Bot) (exc : Venue) :
    legFieldsConsistent (b.ResetCycle exc) :=
  Or.inl ⟨rfl, rfl, rfl⟩

/-- One tick preserves the agreement of the state and the leg-1 fields. -/
theorem legFieldsConsistent_RunTick (b : Bot) (exc : Venue) (h : legFieldsConsistent b) :
    legFieldsConsistent (b.RunTick exc).bot := by
  rcases RunTick_cases b exc with ⟨_, e⟩ | ⟨tk, _, e⟩ | ⟨tk, _, _, e | e⟩ | ⟨tk, _, hs, e⟩
  · rw [e]
    exact h
  · rw [e]
    exact h
  · rw [e]
    cases ho : exc.PlaceOrder b.cfg.MarketID SideUp b.cfg.Shares tk.PriceUp with
    | none =>
      rw [executeLeg1_failure (b.ingest tk exc.CurrentTime) exc _ _ ho]
      exact h
    | some o =>
      rw [executeLeg1_success_result (b.ingest tk exc.CurrentTime) exc _ _ o ho]
      exact Or.inr ⟨Or.inl rfl, Or.inl rfl⟩
  · rw [e]
    cases ho : exc.PlaceOrder b.cfg.MarketID SideDown b.cfg.Shares tk.PriceDown with
    | none =>
      rw [executeLeg1_failure (b.ingest tk exc.CurrentTime) exc _ _ ho]
      exact h
    | some o =>
      rw [executeLeg1_success_result (b.ingest tk exc.CurrentTime) exc _ _ o ho]
      exact Or.inr ⟨Or.inl rfl, Or.inr rfl⟩
  · rw [e]
    cases ho : exc.PlaceOrder b.cfg.MarketID (oppositeSide b.leg1Side) b.cfg.Shares
        (oppositePrice b.leg1Side tk) with
    | none =>
      rw [executeLeg2_failure (b.ingest tk exc.CurrentTime) exc _ _ ho]
      exact h
    | some o =>
      rw [executeLeg2_success (b.ingest tk exc.CurrentTime) exc _ _ o ho]
      rcases h with ⟨hw, _, _⟩ | ⟨_, hside⟩
      · rw [hs] at hw
        exact absurd hw (by decide)
      · exact Or.inr ⟨Or.inr rfl, hside⟩

/-- Every run of calls preserves the agreement of the state and the leg-1
fields. -/
theorem legFieldsConsistent_runCalls (calls : List Call) (b : Bot)
    (h : legFieldsConsistent b) : legFieldsConsistent (runCalls b calls) := by
  induction calls generalizing b with
  | nil => exact h
  | cons c rest ih =>
    apply ih
    cases c with
    | tick exc => exact legFieldsConsistent_RunTick b exc h
    | reset exc => exact legFieldsConsistent_ResetCycle b exc

/-- Claim C22: in every bot reached from `NewBot` by any run of `RunTick` and
`ResetCycle` calls, under any venue answers, the state is Watching if and only
if the leg-1 side is empty, and then the leg-1 entry price is 0; in the states
Leg1Bought and Done the leg-1 side is UP or DOWN, so in Leg1Bought a side other
than UP (the `else` branch of `checkLeg2`) is DOWN. -/
theorem leg_fields_consistent_when_reachable (cfg : Config) (exc0 : Venue)
    (calls : List Call) :
    ((runCalls (NewBot cfg exc0) calls).state = StateWatching ↔
      (runCalls (NewBot cfg exc0) calls).leg1Side = "") ∧
    ((runCalls (NewBot cfg exc0) calls).state = StateWatching →
      (runCalls (NewBot cfg exc0) calls).leg1EntryPrice = 0) ∧
    ((runCalls (NewBot cfg exc0) calls).state = StateLeg1Bought ∨
        (runCalls (NewBot cfg exc0) calls).state = StateDone →
      (runCalls (NewBot cfg exc0) calls).leg1Side = SideUp ∨
        (runCalls (NewBot cfg exc0) calls).leg1Side = SideDown) ∧
    ((runCalls (NewBot cfg exc0) calls).state = StateLeg1Bought →
      (runCalls (NewBot cfg exc0) calls).leg1Side ≠ SideUp →
      (runCalls (NewBot cfg exc0) calls).leg1Side = SideDown) := by
  have h := legFieldsConsistent_runCalls calls (NewBot cfg exc0)
    (legFieldsConsistent_NewBot cfg exc0)
  have hUp : SideUp ≠ "" := by decide
  have hDown : SideDown ≠ "" := by decide
  rcases h with ⟨hw, hsd, hep⟩ | ⟨hst, hside⟩
  · refine ⟨⟨fun _ => hsd, fun _ => hw⟩, fun _ => hep, ?_, ?_⟩
    · intro h2
      rw [hw] at h2
      rcases h2 with h2 | h2 <;> exact absurd h2 (by decide)
    · intro h2
      rw [hw] at h2
      exact absurd h2 (by decide)
  · have hnw : (runCalls (NewBot cfg exc0) calls).state ≠ StateWatching := by
      intro h2
      rw [h2] at hst
      rcases hst with h3 | h3 <;> exact absurd h3 (by decide)
    have hne : (runCalls (NewBot cfg exc0) calls).leg1Side ≠ "" := by
      intro h2
      rw [h2] at hside
      rcases hside with h3 | h3
      · exact hUp h3.symm
      · exact hDown h3.symm
    refine ⟨⟨fun h2 => absurd h2 hnw, fun h2 => absurd h2 hne⟩, fun h2 => absurd h2 hnw,
      fun _ => hside, ?_⟩
    intro _ hnu
    rcases hside with h3 | h3
    · exact absurd h3 hnu
    · exact h3

set_option maxRecDepth 4000 in
/-- The run of `TestBotLogic`, followed by a reset: the bot is in Leg1Bought with
side UP after three ticks, in Done with side UP after the fourth, and in
Watching with an empty side and a zero entry price after the reset. -/
theorem TestBotLogic_leg_fields :
    (runCalls (NewBot { DefaultConfig with MovePct := 10 / 100, SumTarget := 96 / 100 }
        (mockVenue 0 (50 / 100) (50 / 100)))
      [Call.tick (mockVenue 0 (50 / 100) (50 / 100)),
        Call.tick (mockVenue (3 * Second) (50 / 100) (50 / 100)),
        Call.tick (mockVenue (4 * Second) (40 / 100) (55 / 100))]).state = StateLeg1Bought ∧
    (runCalls (NewBot { DefaultConfig with MovePct := 10 / 100, SumTarget := 96 / 100 }
        (mockVenue 0 (50 / 100) (50 / 100)))
      [Call.tick (mockVenue 0 (50 / 100) (50 / 100)),
        Call.tick (mockVenue (3 * Second) (50 / 100) (50 / 100)),
        Call.tick (mockVenue (4 * Second) (40 / 100) (55 / 100))]).leg1Side = SideUp ∧
    (runCalls (NewBot { DefaultConfig with MovePct := 10 / 100, SumTarget := 96 / 100 }
        (mockVenue 0 (50 / 100) (50 / 100)))
      [Call.tick (mockVenue 0 (50 / 100) (50 / 100)),
        Call.tick (mockVenue (3 * Second) (50 / 100) (50 / 100)),
        Call.tick (mockVenue (4 * Second) (40 / 100) (55 / 100)),
        Call.tick (mockVenue (4 * Second) (40 / 100) (55 / 100))]).state = StateDone ∧
    (runCalls (NewBot { DefaultConfig with MovePct := 10 / 100, SumTarget := 96 / 100 }
        (mockVenue 0 (50 / 100) (50 / 100)))
      [Call.tick (mockVenue 0 (50 / 100) (50 / 100)),
        Call.tick (mockVenue (3 * Second) (50 / 100) (50 / 100)),
        Call.tick (mockVenue (4 * Second) (40 / 100) (55 / 100)),
        Call.tick (mockVenue (4 * Second) (40 / 100) (55 / 100)),
        Call.reset (mockVenue (9 * Second) (40 / 100) (55 / 100))]).leg1Side = "" :=
  ⟨by with_unfolding_all rfl, by with_unfolding_all rfl, by with_unfolding_all rfl,
    by with_unfolding_all rfl⟩

/-! ## Claim C23: the exact effect of `Add` -/

/-- Claim C23: for every buffer with a positive window whose history has
non-decreasing timestamps all `<= ts`, the history after `Add(price, ts)` is
exactly the sub-sequence of the previous points whose timestamp is strictly
greater than `ts - window`, in their original order, followed by the new point
`(price, ts)`; the result again has non-decreasing timestamps, and the window is
unchanged. -/
theorem add_exact_effect (pb : PriceBuffer) (price : F64) (ts : Int)
    (hw0 : 0 < pb.window) (hw1 : pb.window ≤ maxDuration)
    (hs : timeSorted pb.history) (hle : ∀ p ∈ pb.history, p.Timestamp ≤ ts) :
    (pb.Add price ts).history =
      pb.history.filter (fun p => decide (ts - pb.window < p.Timestamp)) ++
        [PricePoint.mk price ts] ∧
    timeSorted (pb.Add price ts).history ∧ (pb.Add price ts).window = pb.window :=
  ⟨Add_history_of_sorted pb price ts hw0 hw1 hs hle, (Add_sorted pb price ts hs hle).1,
    Add_window pb price ts⟩

/-- Witness for C23: the 5 second buffer holding points at 0 s, 2 s and 4 s
becomes the points at 2 s and 4 s followed by the new one when a point is added
at 5 s. -/
theorem add_exact_effect_witness :
    ((PriceBuffer.mk [PricePoint.mk 1 0, PricePoint.mk 3 (2 * Second),
        PricePoint.mk 4 (4 * Second)] (5 * Second)).Add 2 (5 * Second)).history =
      [PricePoint.mk 3 (2 * Second), PricePoint.mk 4 (4 * Second),
        PricePoint.mk 2 (5 * Second)] ∧
    timeSorted ((PriceBuffer.mk [PricePoint.mk 1 0, PricePoint.mk 3 (2 * Second),
        PricePoint.mk 4 (4 * Second)] (5 * Second)).Add 2 (5 * Second)).history :=
  have h := add_exact_effect
    (PriceBuffer.mk [PricePoint.mk 1 0, PricePoint.mk 3 (2 * Second),
      PricePoint.mk 4 (4 * Second)] (5 * Second)) 2 (5 * Second)
    (by decide) (by decide) (by unfold timeSorted; decide) (by decide)
  ⟨h.1.trans (by decide), h.2.1⟩

end SmartApe
